import Mathlib

/-!
Verification development for the `interactive-pdf` repository.

The repository contains two PDF-generation pipelines:

* `src/generate-hrms-pdf.js`  — the "Vector Layout Engine": a cursor-based
  renderer built on PDFKit that walks the appraisal-data tree and emits
  drawing commands, inserting page breaks when the vertical cursor would
  exceed the usable page height.
* `src/generate-hrms-puppeteer.js` — the "Template Builder": a pure function
  mapping the appraisal-data tree to a markup string.

This file gives a shallow embedding of both pipelines.  JavaScript numbers
are modelled as rationals (`ℚ`); no layout computation in the source relies
on float rounding.  The opaque rendering backend (PDFKit text measurement,
JS number-to-string conversion) is modelled as an explicit parameter record.
Backend exceptions during navigation-metadata attachment are modelled by a
failure oracle (`ℕ → Bool`) consulted once per attachment attempt, mirroring
the source's `try { ... } catch (_) { /* ignore */ }` sites.

Drawing commands are recorded in a trace.  Purely stylistic parameters of
the source (colours, fonts, corner radii of the tab pills, the internal
rectangles of the tab bar) are elided; everything a claim refers to
(geometry of content blocks, page breaks, scaffold redraws, navigation
metadata) is kept.
-/

namespace HRMS

/-- Millimetre-to-point conversion, from `generate-hrms-pdf.js` line 71:
`function mm(n) { return (n * 72) / 25.4; }`. -/
def mm (n : ℚ) : ℚ := n * 72 / 25.4

/-- A4 page width in PDF points (`generate-hrms-pdf.js` line 68). -/
def A4_WIDTH : ℚ := 595.28

/-- A4 page height in PDF points (`generate-hrms-pdf.js` line 69). -/
def A4_HEIGHT : ℚ := 841.89

/-- JS `s || d` for a string already known to be a string: the empty string
is falsy, every other string is truthy. -/
def jsStrOr (s : String) (d : String) : String := if s = "" then d else s

/-- JS `s || d` where `s` is an optional (possibly `undefined`) string. -/
def jsOptStrOr (o : Option String) (d : String) : String :=
  match o with
  | some s => jsStrOr s d
  | none => d

/-- JS `[a, b, c].filter(Boolean).join(sep)`: drops absent and empty
strings, then joins with the separator. -/
def joinPresent (sep : String) (l : List (Option String)) : String :=
  String.intercalate sep ((l.filterMap id).filter (fun s => !(s == "")))

/-- Employee identity shown in the page header (`meta.employee`). -/
structure Employee where
  name : Option String
  code : Option String
  title : Option String
deriving DecidableEq, Repr

/-- Report metadata (`meta` in the input JSON of `generate-hrms-pdf.js`). -/
structure MetaInfo where
  reportTitle : Option String
  employee : Option Employee
deriving DecidableEq, Repr

/-- A comment of a section, as consumed by `generate-hrms-pdf.js`
(`author`, `role`, `step` are used in the card header, `text` is the body). -/
structure PdfComment where
  author : Option String
  role : Option String
  step : Option String
  text : String
deriving DecidableEq, Repr

/-- A section of a tab, as consumed by `generate-hrms-pdf.js`.  `Option`
models absent JSON fields (`typeof x !== 'undefined'` / `Array.isArray`
checks in the source). -/
structure PdfSection where
  title : String
  weightage : Option ℚ
  expectedRating : Option ℚ
  rating : Option ℚ
  description : Option String
  behaviors : Option (List String)
  comments : Option (List PdfComment)
deriving DecidableEq, Repr

/-- A tab, as consumed by `generate-hrms-pdf.js`. -/
structure PdfTab where
  id : Option String
  label : String
  sections : Option (List PdfSection)
deriving DecidableEq, Repr

/-- The root input document of `generate-hrms-pdf.js`
(`const { meta = {}, tabs = [] } = data`). -/
structure PdfDoc where
  meta : MetaInfo
  tabs : List PdfTab
deriving DecidableEq, Repr

/-- The opaque rendering backend of the Vector Layout Engine: PDFKit text
measurement (`doc.widthOfString` / `doc.heightOfString`), JS number
formatting (template-literal interpolation and `Number.prototype.toFixed`),
and availability of the outline feature (`doc.outline`, absent in some
PDFKit builds, `generate-hrms-pdf.js` line 291).  Font face and size are
elided: no claim depends on them. -/
structure Backend where
  widthOfString : String → ℚ
  heightOfString : String → ℚ → ℚ
  numToString : ℚ → String
  toFixed1 : ℚ → String
  outlineAvailable : Bool

/-- Target of an internal link: a named destination (`{ goTo: dest }`) or a
plain page-number jump (`{ page: n }`), cf. `drawTabs` lines 105-113. -/
inductive LinkTarget where
  | goToDest (dest : String)
  | pageJump (n : ℕ)
deriving DecidableEq, Repr

/-- Trace of drawing and metadata commands emitted by the engine.  `rect`
and `roundedRect` record filled rectangles of content blocks; `textCmd`
records a drawn string at a position; `headerBlock` abstracts the header
title/info/divider drawn by `drawHeader`; `tabBar` abstracts the navigation
bar drawn by `drawTabs` (bar background, pills and labels in drawing order);
`link`, `namedDest` and `outlineItem` are navigation metadata. -/
inductive Cmd where
  | addPage
  | headerBlock (title : String) (info : String)
  | tabBar (labels : List String) (activeIndex : ℕ)
  | link (x y w h : ℚ) (target : LinkTarget)
  | namedDest (name : String)
  | outlineItem (label : String) (page : Option ℕ)
  | rect (x y w h : ℚ)
  | roundedRect (x y w h r : ℚ)
  | textCmd (s : String) (x y : ℚ)
deriving DecidableEq, Repr

/-- Mutable engine state threaded through the renderer: the current page
number (`doc.page.number`, starting at 1 for the automatically created
first page) and the number of metadata-attachment attempts made so far
(used to index the failure oracle). -/
structure St where
  page : ℕ
  att : ℕ
deriving DecidableEq, Repr

/-- One `try { attach } catch (_) {}` site: consults the failure oracle at
the current attempt index; on success the metadata command is recorded, on
a backend exception nothing is recorded and execution continues. -/
def tryAttach (oracle : ℕ → Bool) (st : St) (c : Cmd) : (Bool × St) × List Cmd :=
  let ok := oracle st.att
  ((ok, { st with att := st.att + 1 }), if ok then [c] else [])

/-- The link attachment for a single pill inside `drawTabs` (lines
105-113): if a named destination is recorded for the pill's tab index,
attach a `goTo` link over the pill's rectangle; otherwise, if a first page
is recorded, attach a page-jump link; otherwise attach nothing. -/
def pillLink (oracle : ℕ → Bool) (destMap : ℕ → Option String) (pageMap : ℕ → Option ℕ)
    (idx : ℕ) (x y w h : ℚ) (st : St) : St × List Cmd :=
  match destMap idx with
  | some dest =>
    let ((_, st'), o) := tryAttach oracle st (Cmd.link x y w h (LinkTarget.goToDest dest))
    (st', o)
  | none =>
    match pageMap idx with
    | some p =>
      let ((_, st'), o) := tryAttach oracle st (Cmd.link x y w h (LinkTarget.pageJump p))
      (st', o)
    | none => (st, [])

/-- The per-pill loop of `drawTabs`: one `pillLink` per tab index, the
pill's rectangle computed from the bar geometry.  Iterates over `count`
pill indices starting at `idx`. -/
def pillLinks (oracle : ℕ → Bool) (m top barH gap eachW : ℚ)
    (destMap : ℕ → Option String) (pageMap : ℕ → Option ℕ) :
    ℕ → ℕ → St → St × List Cmd
  | 0, _, st => (st, [])
  | count + 1, idx, st =>
    let x := m + idx * (eachW + gap)
    let y := top + mm 2
    let h := barH - mm 4
    let (st2, out) := pillLink oracle destMap pageMap idx x y eachW h st
    let (st3, out2) := pillLinks oracle m top barH gap eachW destMap pageMap count (idx + 1) st2
    (st3, out ++ out2)

/-- `drawTabs(doc, tabs, activeIndex, margin, destMap, pageMap)`
(`generate-hrms-pdf.js` lines 73-121).  Draws the tab bar (abstracted into
one `Cmd.tabBar` carrying the pill labels in order and the active index)
and attaches the per-pill navigation links. -/
def drawTabs (oracle : ℕ → Bool) (tabs : List PdfTab) (activeIndex : ℕ) (margin : ℚ)
    (destMap : ℕ → Option String) (pageMap : ℕ → Option ℕ) (st : St) : St × List Cmd :=
  let m := margin
  let top := m - mm 6
  let barH := mm 18
  let gap := mm 3
  let usableW := A4_WIDTH - m * 2
  let eachW := max (mm 28) ((usableW - gap * ((tabs.length : ℚ) - 1)) / (tabs.length : ℚ))
  let (st2, links) := pillLinks oracle m top barH gap eachW destMap pageMap tabs.length 0 st
  (st2, Cmd.tabBar (tabs.map (fun t => t.label)) activeIndex :: links)

/-- `ensureSpace(doc, y, need, margin, activeIndex, tabs, destMap, pageMap)`
(`generate-hrms-pdf.js` lines 123-129): if `y + need` fits within
`A4_HEIGHT - margin` return `y` unchanged; otherwise add a page, redraw the
tab bar on the new page, and return the reset content cursor
`margin + mm 30`. -/
def ensureSpace (oracle : ℕ → Bool) (st : St) (y need margin : ℚ) (activeIndex : ℕ)
    (tabs : List PdfTab) (destMap : ℕ → Option String) (pageMap : ℕ → Option ℕ) :
    (ℚ × St) × List Cmd :=
  if y + need ≤ A4_HEIGHT - margin then ((y, st), [])
  else
    let st2 : St := { st with page := st.page + 1 }
    let (st3, out) := drawTabs oracle tabs activeIndex margin destMap pageMap st2
    ((margin + mm 30, st3), Cmd.addPage :: out)

/-- `drawHeader(doc, meta, margin)` (lines 131-146): the page header block
(report title, employee info line, divider), abstracted into one
`Cmd.headerBlock`. -/
def drawHeader (meta : MetaInfo) (margin : ℚ) : List Cmd :=
  let title := jsOptStrOr meta.reportTitle "Assessment Stage"
  let emp := meta.employee.getD ⟨none, none, none⟩
  let info := joinPresent " • " [emp.name, emp.code, emp.title]
  [Cmd.headerBlock title info]

/-- `chip(doc, x, y, text, bg, fg, icon)` (lines 148-164): draws a rounded
chip and returns its width and height.  The width depends on the backend's
text measurement. -/
def chip (B : Backend) (x y : ℚ) (text : String) (icon : Option String) :
    (ℚ × ℚ) × List Cmd :=
  let padX : ℚ := 6
  let iconW := match icon with
    | some i => B.widthOfString i + 4
    | none => 0
  let textW := B.widthOfString text
  let w := padX * 2 + textW + iconW
  let h : ℚ := 16
  let iconCmds := match icon with
    | some i => [Cmd.textCmd i (x + padX) (y + 3)]
    | none => []
  ((w, h), Cmd.roundedRect x y w h 8 :: iconCmds ++ [Cmd.textCmd text (x + padX + iconW) (y + 3)])

/-- `ratingBadge(doc, x, y, rating)` (lines 166-168): a star chip showing
`rating.toFixed(1)`. -/
def ratingBadge (B : Backend) (x y rating : ℚ) : (ℚ × ℚ) × List Cmd :=
  chip B x y (B.toFixed1 rating) (some "★")

/-- `sectionHeader(doc, x, y, section)` (lines 170-175): the section title. -/
def sectionHeader (x y : ℚ) (s : PdfSection) : List Cmd :=
  [Cmd.textCmd s.title x y]

/-- `paragraph(doc, text, x, y, width, ...)` (lines 177-184): draws a
wrapped paragraph and returns its measured height. -/
def paragraph (B : Backend) (text : String) (x y width : ℚ) : ℚ × List Cmd :=
  let h := B.heightOfString text width
  (h, [Cmd.textCmd text x y])

/-- `commentCard(doc, x, y, width, comment)` (lines 186-205): the comment
card.  Height is a fixed padding/header allowance (`pad + headerH + 6 +
pad = 42`) plus the measured wrapped height of the body at the inner card
width; the function returns `h + 2`. -/
def commentCard (B : Backend) (x y width : ℚ) (c : PdfComment) : ℚ × List Cmd :=
  let pad : ℚ := 10
  let headerH : ℚ := 16
  let bodyH := B.heightOfString c.text (width - pad * 2)
  let h := pad + headerH + 6 + bodyH + pad
  let header := joinPresent "  •  " [c.author, c.role, c.step]
  (h + 2,
    [Cmd.roundedRect x y width h 8,
     Cmd.textCmd header (x + pad) (y + pad),
     Cmd.textCmd c.text (x + pad) (y + pad + headerH)])

/-- The `section.behaviors.forEach` loop inside `drawSection`
(lines 246-249): each behavior is a bullet paragraph; the cursor advances
by the measured height plus 4. -/
def behaviorsList (B : Backend) (x width : ℚ) : List String → ℚ → ℚ × List Cmd
  | [], contentY => (contentY, [])
  | b :: rest, contentY =>
    let (bh, o) := paragraph B ("• " ++ b) x contentY width
    let (cy, o2) := behaviorsList B x width rest (contentY + bh + 4)
    (cy, o ++ o2)

/-- The behaviors block of `drawSection` (lines 243-251): the "Behaviors"
heading, the bullet list, and the trailing 6-point gap. -/
def behaviorsBlock (B : Backend) (bs : List String) (x contentY width : ℚ) : ℚ × List Cmd :=
  let (cy, o1) := behaviorsList B x width bs (contentY + 16)
  (cy + 6, Cmd.textCmd "Behaviors" x contentY :: o1)

/-- The `section.comments.forEach` loop inside `drawSection`
(lines 253-260): before each comment card the engine reserves a fixed
approximate minimum of 110 points (`const need = 110; // approx min height
per card`) via `ensureSpace`, then draws the card and advances the cursor
by the returned height plus 8. -/
def commentsLoop (B : Backend) (oracle : ℕ → Bool) (tabs : List PdfTab) (activeIndex : ℕ)
    (margin : ℚ) (destMap : ℕ → Option String) (pageMap : ℕ → Option ℕ) (x width : ℚ) :
    List PdfComment → ℚ → St → (ℚ × St) × List Cmd
  | [], contentY, st => ((contentY, st), [])
  | c :: rest, contentY, st =>
    let ((cy1, st1), o1) := ensureSpace oracle st contentY 110 margin activeIndex tabs destMap pageMap
    let (ch, o2) := commentCard B (x) cy1 width c
    let ((cy2, st2), o3) :=
      commentsLoop B oracle tabs activeIndex margin destMap pageMap x width rest (cy1 + ch + 8) st1
    ((cy2, st2), o1 ++ o2 ++ o3)

/-- One optional labelled chip of the badges row of `drawSection`
(lines 222-234): drawn when the value is present, advancing the badge
cursor by the chip width plus 6. -/
def optChip (B : Backend) (bx by0 : ℚ) (pre : String) (v : Option ℚ) : ℚ × List Cmd :=
  match v with
  | some w =>
    let ((rw, _), o) := chip B bx by0 (pre ++ B.numToString w) none
    (bx + rw + 6, o)
  | none => (bx, [])

/-- The badges row continued: weightage chip, expected chip, star badge. -/
def sectionBadges (B : Backend) (s : PdfSection) (bx0 by0 : ℚ) : List Cmd :=
  let (bx1, o2) := optChip B bx0 by0 "Weightage: " s.weightage
  let (bx2, o3) := optChip B bx1 by0 "Expected: " s.expectedRating
  let o4 :=
    match s.rating with
    | some r => (ratingBadge B bx2 by0 r).2
    | none => ([] : List Cmd)
  o2 ++ o3 ++ o4

/-- The description block of `drawSection` (lines 238-241): an optional
justified paragraph; the cursor advances by its measured height plus 8. -/
def sectionDescPart (B : Backend) (s : PdfSection) (x contentY width : ℚ) : ℚ × List Cmd :=
  match s.description with
  | some d =>
    let (ph, o) := paragraph B d x contentY width
    (contentY + ph + 8, o)
  | none => (contentY, [])

/-- The behaviors block of `drawSection` (lines 243-251): present only when
`behaviors` is a non-empty array. -/
def sectionBehaviorsPart (B : Backend) (s : PdfSection) (x contentY width : ℚ) : ℚ × List Cmd :=
  match s.behaviors with
  | some bs => if bs.isEmpty then (contentY, []) else behaviorsBlock B bs x contentY width
  | none => (contentY, [])

/-- The comments block of `drawSection` (lines 253-260): the per-comment
loop, present only when `comments` is an array. -/
def sectionCommentsPart (B : Backend) (oracle : ℕ → Bool) (tabs : List PdfTab)
    (activeIndex : ℕ) (margin : ℚ) (destMap : ℕ → Option String) (pageMap : ℕ → Option ℕ)
    (x width : ℚ) (s : PdfSection) (contentY : ℚ) (st : St) : (ℚ × St) × List Cmd :=
  match s.comments with
  | some cs =>
    commentsLoop B oracle tabs activeIndex margin destMap pageMap x width cs contentY st
  | none => ((contentY, st), [])

/-- `drawSection(doc, tabs, activeIndex, margin, section, destMap, pageMap)`
(lines 207-272).  Note that the function does not receive the running
vertical cursor: its opening `ensureSpace` call passes the constant
`margin + mm 30` as the cursor and the fixed minimum `mm 40` as the needed
height, exactly as in the source. -/
def drawSection (B : Backend) (oracle : ℕ → Bool) (tabs : List PdfTab) (activeIndex : ℕ)
    (margin : ℚ) (s : PdfSection) (destMap : ℕ → Option String) (pageMap : ℕ → Option ℕ)
    (st : St) : (ℚ × St) × List Cmd :=
  let x := margin
  let ((y, st1), out0) :=
    ensureSpace oracle st (margin + mm 30) (mm 40) margin activeIndex tabs destMap pageMap
  let width := A4_WIDTH - margin * 2
  let cardPad : ℚ := 14
  let out1 := sectionHeader (x + cardPad) (y + cardPad) s
  let out2 := sectionBadges B s (x + cardPad) (y + cardPad + mm 8)
  let contentY0 := y + cardPad + mm 8 + mm 10
  let (contentY1, out5) := sectionDescPart B s (x + cardPad) contentY0 (width - cardPad * 2)
  let (contentY2, out6) := sectionBehaviorsPart B s (x + cardPad) contentY1 (width - cardPad * 2)
  let ((contentY3, st2), out7) :=
    sectionCommentsPart B oracle tabs activeIndex margin destMap pageMap (x + cardPad)
      (width - cardPad * 2) s contentY2 st1
  let cardH := contentY3 - y + cardPad
  let out8 := [Cmd.roundedRect x y width cardH 12]
  ((y + cardH + 14, st2), out0 ++ out1 ++ out2 ++ out5 ++ out6 ++ out7 ++ out8)

/-- `footer(doc, margin)` (lines 274-283): the right-aligned page number. -/
def footer (B : Backend) (margin : ℚ) (st : St) : List Cmd :=
  let w := A4_WIDTH - margin * 2
  let y := A4_HEIGHT - margin + mm 4
  let pageText := "Page " ++ toString st.page
  let tw := B.widthOfString pageText
  [Cmd.textCmd pageText (margin + w - tw) y]

/-- `drawPageScaffold(doc, meta, tabs, activeIndex, margin, destMap,
pageMap)` (lines 285-288): the full page scaffold, header block followed by
the tab bar. -/
def drawPageScaffold (oracle : ℕ → Bool) (meta : MetaInfo) (tabs : List PdfTab)
    (activeIndex : ℕ) (margin : ℚ) (destMap : ℕ → Option String)
    (pageMap : ℕ → Option ℕ) (st : St) : St × List Cmd :=
  let o1 := drawHeader meta margin
  let (st2, o2) := drawTabs oracle tabs activeIndex margin destMap pageMap st
  (st2, o1 ++ o2)

/-- JS `/\s+/g` replacement with `'-'`: collapse each maximal run of
whitespace characters into a single dash. -/
def wsDash : List Char → List Char
  | [] => []
  | c :: rest =>
    if c.isWhitespace then '-' :: wsDash (rest.dropWhile Char.isWhitespace)
    else c :: wsDash rest
termination_by l => l.length
decreasing_by
  · exact Nat.lt_succ_of_le ((List.dropWhile_suffix Char.isWhitespace).sublist.length_le)
  · exact Nat.lt_succ_self rest.length

/-- The named-destination name built in `generate` (line 318):
`tab-IDX-` followed by the tab's id (or label, or `'sec'`), lower-cased
with whitespace runs replaced by dashes. -/
def destName (t : PdfTab) (idx : ℕ) : String :=
  "tab-" ++ toString idx ++ "-" ++
    String.mk (wsDash (String.toLower (jsOptStrOr t.id (jsStrOr t.label "sec"))).toList)

/-- The `addOutlines` loop (lines 290-297): one `root.addItem(t.label,
{ page })` attempt per tab, with the recorded first page looked up in
`pageMap`. -/
def outlinesLoop (oracle : ℕ → Bool) (pageMap : ℕ → Option ℕ) :
    List PdfTab → ℕ → St → St × List Cmd
  | [], _, st => (st, [])
  | t :: rest, idx, st =>
    let ((_, st1), o1) := tryAttach oracle st (Cmd.outlineItem t.label (pageMap idx))
    let (st2, o2) := outlinesLoop oracle pageMap rest (idx + 1) st1
    (st2, o1 ++ o2)

/-- `addOutlines(doc, tabs, pageMap)` (lines 290-297): a no-op when the
PDFKit build exposes no outline, otherwise the per-tab bookmark loop. -/
def addOutlines (B : Backend) (oracle : ℕ → Bool) (pageMap : ℕ → Option ℕ)
    (tabs : List PdfTab) (st : St) : St × List Cmd :=
  if B.outlineAvailable then outlinesLoop oracle pageMap tabs 0 st else (st, [])

/-- The `tab.sections.forEach` loop of `generate` (lines 329-333).  The
running `y` is reassigned from each `drawSection` return value but — as in
the source — never passed back in: `drawSection` takes no cursor argument. -/
def sectionsLoop (B : Backend) (oracle : ℕ → Bool) (tabs : List PdfTab) (activeIndex : ℕ)
    (margin : ℚ) (destMap : ℕ → Option String) (pageMap : ℕ → Option ℕ) :
    List PdfSection → ℚ → St → (ℚ × St) × List Cmd
  | [], y, st => ((y, st), [])
  | s :: rest, _, st =>
    let ((y1, st1), o1) := drawSection B oracle tabs activeIndex margin s destMap pageMap st
    let ((y2, st2), o2) :=
      sectionsLoop B oracle tabs activeIndex margin destMap pageMap rest y1 st1
    ((y2, st2), o1 ++ o2)

/-- The sections rendering of one tab inside the `tabs.forEach` loop of
`generate` (lines 328-333): the running `y` starts at `margin + mm 30` and
is reassigned from each `drawSection` return value, though `drawSection`
itself takes no cursor argument. -/
def tabSectionsPart (B : Backend) (oracle : ℕ → Bool) (allTabs : List PdfTab) (idx : ℕ)
    (margin : ℚ) (destMap : ℕ → Option String) (pageMap : ℕ → Option ℕ) (t : PdfTab)
    (y0 : ℚ) (st : St) : (ℚ × St) × List Cmd :=
  match t.sections with
  | some secs => sectionsLoop B oracle allTabs idx margin destMap pageMap secs y0 st
  | none => ((y0, st), [])

/-- The `tabs.forEach` loop of `generate` (lines 309-336): for each tab,
add a page (except for the first tab, which uses the automatically created
first page), record the tab's first page in `pageMap`, attempt to register
a named destination (recording it in `destMap` only on success, as the
assignment sits inside the `try`), draw the page scaffold, draw the
sections, and draw the footer. -/
def tabsLoop (B : Backend) (oracle : ℕ → Bool) (meta : MetaInfo) (margin : ℚ)
    (allTabs : List PdfTab) :
    List PdfTab → ℕ → (ℕ → Option String) → (ℕ → Option ℕ) → St →
    (St × (ℕ → Option String) × (ℕ → Option ℕ)) × List Cmd
  | [], _, dm, pm, st => ((st, dm, pm), [])
  | t :: rest, idx, dm, pm, st =>
    let (st1, o1) :=
      if idx = 0 then (st, ([] : List Cmd))
      else ({ st with page := st.page + 1 }, [Cmd.addPage])
    let pm1 : ℕ → Option ℕ := fun j => if j = idx then some st1.page else pm j
    let name := destName t idx
    let ((ok, st2), o2) := tryAttach oracle st1 (Cmd.namedDest name)
    let dm1 : ℕ → Option String :=
      if ok then (fun j => if j = idx then some name else dm j) else dm
    let (st3, o3) := drawPageScaffold oracle meta allTabs idx margin dm1 pm1 st2
    let ((_, st4), o4) := tabSectionsPart B oracle allTabs idx margin dm1 pm1 t (margin + mm 30) st3
    let o5 := footer B margin st4
    let ((st5, dm2, pm2), o6) := tabsLoop B oracle meta margin allTabs rest (idx + 1) dm1 pm1 st4
    ((st5, dm2, pm2), o1 ++ o2 ++ o3 ++ o4 ++ o5 ++ o6)

/-- `generate(doc, data)` (lines 299-340): the full Vector Layout Engine
pass over the document, followed by `addOutlines`.  Returns the final
engine state, the named-destination map, the first-page map, and the full
command trace.  The initial state has page number 1 (PDFKit's automatically
created first page). -/
def generate (B : Backend) (oracle : ℕ → Bool) (data : PdfDoc) :
    (St × (ℕ → Option String) × (ℕ → Option ℕ)) × List Cmd :=
  let margin := mm 18
  let ((st1, dm, pm), o1) :=
    tabsLoop B oracle data.meta margin data.tabs data.tabs 0
      (fun _ => none) (fun _ => none) { page := 1, att := 0 }
  let (st2, o2) := addOutlines B oracle pm data.tabs st1
  ((st2, dm, pm), o1 ++ o2)

/-- The always-successful failure oracle: no backend exception occurs. -/
def allOk : ℕ → Bool := fun _ => true

/-! Trace observations used by the claims about the Vector Layout Engine. -/

/-- Tests whether a command is the header block drawn by `drawHeader`. -/
def isHeaderBlock : Cmd → Bool
  | Cmd.headerBlock _ _ => true
  | _ => false

/-- Tests whether a command is a navigation bar drawn by `drawTabs`. -/
def isTabBarCmd : Cmd → Bool
  | Cmd.tabBar _ _ => true
  | _ => false

/-- Tests whether a command is a page break. -/
def isAddPageCmd : Cmd → Bool
  | Cmd.addPage => true
  | _ => false

/-- Tests whether a command is an outline (bookmark) entry. -/
def isOutlineCmd : Cmd → Bool
  | Cmd.outlineItem _ _ => true
  | _ => false

/-- Tests whether a command is an internal link attachment. -/
def isLinkCmd : Cmd → Bool
  | Cmd.link _ _ _ _ _ => true
  | _ => false

/-- Tests whether a command is navigation metadata (link, named destination
or outline entry) as opposed to drawn page content. -/
def isMetaCmd : Cmd → Bool
  | Cmd.link _ _ _ _ _ => true
  | Cmd.namedDest _ => true
  | Cmd.outlineItem _ _ => true
  | _ => false

/-- The drawn (visual) part of a trace: everything except navigation
metadata. -/
def visualCmds (l : List Cmd) : List Cmd := l.filter (fun c => !isMetaCmd c)

/-- Scans a trace keeping a running page counter (starting at `p`) and
returns the page number in effect at the first navigation bar whose active
index is `i`. -/
def fspGo (i : ℕ) : List Cmd → ℕ → Option ℕ
  | [], _ => none
  | Cmd.addPage :: rest, p => fspGo i rest (p + 1)
  | Cmd.tabBar _ a :: rest, p => if a = i then some p else fspGo i rest p
  | _ :: rest, p => fspGo i rest p

/-- The first page of a trace (pages counted from 1) on which a navigation
bar with active index `i` — hence, tab `i`'s scaffold — is drawn. -/
def firstScaffoldPage (cs : List Cmd) (i : ℕ) : Option ℕ := fspGo i cs 1

/-- Tests whether a drawn rounded rectangle is a comment card: among the
radius-8 rounded rectangles emitted by the engine, chips have the constant
height 16 while comment cards have height `42 + bodyH ≥ 42` (for a
non-negative measuring backend). -/
def isCommentCardRect : Cmd → Bool
  | Cmd.roundedRect _ _ _ h r => r == 8 && 42 ≤ h
  | _ => false

/-- A measuring backend is non-negative when every measured text height is
non-negative, as with any real PDFKit build. -/
def Backend.NonnegHeights (B : Backend) : Prop :=
  ∀ s w, 0 ≤ B.heightOfString s w

/-! Concrete inputs used by counterexamples and witnesses. -/

/-- A backend whose measured text height is the constant `h` — a valid
abstraction of a measuring backend for a fixed text and width. -/
def constBackend (h : ℚ) : Backend :=
  { widthOfString := fun _ => 10
    heightOfString := fun _ _ => h
    numToString := fun _ => "0"
    toFixed1 := fun _ => "0.0"
    outlineAvailable := true }

/-- C1 input: a single tab whose single section has a description that
measures 800 points tall — more than the whole usable content area of a
page. -/
def c1Doc : PdfDoc :=
  { meta := { reportTitle := none, employee := none }
    tabs := [{ id := none, label := "T"
               sections := some [{ title := "S", weightage := none, expectedRating := none
                                   rating := none, description := some "long"
                                   behaviors := none, comments := none }] }] }

/-- C2 input: a single tab whose single section has two comments whose
bodies measure 500 points each, so the second comment forces an overflow
page break. -/
def c2Doc : PdfDoc :=
  { meta := { reportTitle := none, employee := none }
    tabs := [{ id := none, label := "T"
               sections := some [{ title := "S", weightage := none, expectedRating := none
                                   rating := none, description := none, behaviors := none
                                   comments := some
                                     [{ author := some "A", role := none, step := none
                                        text := "body" },
                                      { author := some "A", role := none, step := none
                                        text := "body" }] }] }] }

/-- C3 input: a single tab whose single section has a 300-point description
followed by one comment whose body measures 300 points, so the comment card
(height 342) starts low on the page, passes the fixed 110-point check, and
overflows the bottom margin. -/
def c3Doc : PdfDoc :=
  { meta := { reportTitle := none, employee := none }
    tabs := [{ id := none, label := "T"
               sections := some [{ title := "S", weightage := none, expectedRating := none
                                   rating := none, description := some "d", behaviors := none
                                   comments := some
                                     [{ author := some "A", role := none, step := none
                                        text := "body" }] }] }] }

/-- C5 input for the Vector Layout Engine: a single tab with zero sections
and (as in every input to this pipeline) no hierarchy. -/
def c5PdfDoc : PdfDoc :=
  { meta := { reportTitle := none, employee := none }
    tabs := [{ id := none, label := "Empty Tab", sections := some [] }] }

/-- Tests whether a command is an inert drawing primitive: a rectangle,
rounded rectangle or text draw — not a page break, scaffold part or
navigation metadata. -/
def isInert : Cmd → Bool
  | Cmd.rect _ _ _ _ => true
  | Cmd.roundedRect _ _ _ _ _ => true
  | Cmd.textCmd _ _ _ => true
  | _ => false

/-- The per-comment space-check guarantee actually provided by the engine:
every comment-card rectangle in a trace was drawn at a vertical position
from which the checked fixed minimum of 110 points still fits above the
bottom margin. -/
def CardChecked (margin : ℚ) (c : Cmd) : Prop :=
  ∀ x y w h, c = Cmd.roundedRect x y w h 8 → 42 ≤ h → y + 110 ≤ A4_HEIGHT - margin


/-- C6 input: two tabs, the first overflowing onto a second page (two
500-point comments), so the second tab's first page is page 3. -/
def c6Doc : PdfDoc :=
  { meta := { reportTitle := none, employee := none }
    tabs := [{ id := none, label := "First Tab"
               sections := some [{ title := "S", weightage := none, expectedRating := none
                                   rating := none, description := none, behaviors := none
                                   comments := some
                                     [{ author := some "A", role := none, step := none
                                        text := "body" },
                                      { author := some "A", role := none, step := none
                                        text := "body" }] }] },
             { id := none, label := "Second Tab", sections := none }] }

/-- The placeholder text that the Template Builder emits for an empty tab
(`generate-hrms-puppeteer.js` line 237). -/
def noContentText : String := "No content available for this tab."

/-- Tests whether a drawn command shows the empty-tab placeholder text. -/
def isPlaceholderText : Cmd → Bool
  | Cmd.textCmd s _ _ => s == noContentText
  | _ => false

end HRMS

/-!
Shallow embedding of the Template Builder, `src/generate-hrms-puppeteer.js`.

The builder is a pure function from the appraisal-data tree to markup; the
markup's element structure is static in the template, so it is embedded as
an `Html` tree whose element nodes carry the tag, the literal class string
and the literal attributes of the corresponding template fragment, and
whose text leaves carry exactly the (escaped) strings interpolated there.
JS number-to-string conversion for arbitrary numbers is opaque backend
behaviour and is a parameter (`JsNum`); for values that are integers by
construction (index badges, `Math.round` results) JS produces the plain
decimal form, modelled by `toString`.
-/

namespace HRMS

/-- One global single-character replacement (`String.prototype.replace`
with a `/x/g` pattern), as used by `esc`. -/
def replaceChar (c : Char) (repl : List Char) : List Char → List Char
  | [] => []
  | a :: rest => (if a = c then repl else [a]) ++ replaceChar c repl rest

/-- The three sequential global replacements of `esc`
(`generate-hrms-puppeteer.js` lines 27-29) on a character list:
`&` to `&amp;`, then `<` to `&lt;`, then `>` to `&gt;`. -/
def escList (l : List Char) : List Char :=
  replaceChar '>' ['&', 'g', 't', ';']
    (replaceChar '<' ['&', 'l', 't', ';']
      (replaceChar '&' ['&', 'a', 'm', 'p', ';'] l))

/-- The escaping of `esc` on a string already known to be a (truthy)
string. -/
def escString (s : String) : String := String.mk (escList s.toList)

/-- The inverse transformation stated by the specification: decode
`&amp;`, `&lt;` and `&gt;` back to the characters they stand for. -/
def unescList : List Char → List Char
  | [] => []
  | c :: rest =>
    if c = '&' then
      match rest with
      | 'a' :: 'm' :: 'p' :: ';' :: r => '&' :: unescList r
      | 'l' :: 't' :: ';' :: r => '<' :: unescList r
      | 'g' :: 't' :: ';' :: r => '>' :: unescList r
      | r => '&' :: unescList r
    else c :: unescList rest

/-- String form of `unescList`. -/
def unescString (s : String) : String := String.mk (unescList s.toList)

/-- A JavaScript value as it can reach `esc`: a string, a finite number,
`NaN`, a boolean, `null`, or `undefined`. -/
inductive JSValue where
  | vstr (s : String)
  | vnum (q : ℚ)
  | vnan
  | vbool (b : Bool)
  | vnull
  | vundefined
deriving DecidableEq

/-- JavaScript truthiness: the empty string, `0`, `NaN`, `false`, `null`
and `undefined` are falsy; everything else here is truthy. -/
def truthy : JSValue → Bool
  | JSValue.vstr s => !(s == "")
  | JSValue.vnum q => !(q == 0)
  | JSValue.vnan => false
  | JSValue.vbool b => b
  | JSValue.vnull => false
  | JSValue.vundefined => false

/-- JavaScript `String(v)` conversion; the conversion of finite numbers is
the backend parameter `num`. -/
def jsToString (num : ℚ → String) : JSValue → String
  | JSValue.vstr s => s
  | JSValue.vnum q => num q
  | JSValue.vnan => "NaN"
  | JSValue.vbool b => if b then "true" else "false"
  | JSValue.vnull => "null"
  | JSValue.vundefined => "undefined"

/-- JS `v || ''`: a falsy value is replaced by the empty string. -/
def orEmpty (v : JSValue) : JSValue := if truthy v then v else JSValue.vstr ""

/-- `esc(s)` (`generate-hrms-puppeteer.js` lines 27-29):
`String(s || '')` followed by the three markup replacements. -/
def escVal (num : ℚ → String) (v : JSValue) : String :=
  escString (jsToString num (orEmpty v))

/-- View of an optional string field as the JS value reaching `esc`. -/
def jsOfOptStr (o : Option String) : JSValue :=
  match o with
  | some s => JSValue.vstr s
  | none => JSValue.vundefined

/-- JS truthiness of an optional string field. -/
def strTruthy (o : Option String) : Bool :=
  match o with
  | some s => !(s == "")
  | none => false

/-- `esc` applied to a JS number known to be a natural number (an index
badge): `0` is falsy and becomes empty; any other value prints in decimal. -/
def escNat (n : ℕ) : String := if n = 0 then "" else escString (toString n)

/-- The opaque JS number-formatting backend: `String(q)` for arbitrary
finite numbers and `Number.prototype.toFixed(1)`. -/
structure JsNum where
  toStr : ℚ → String
  toFixed1 : ℚ → String

/-- A concrete number-formatting backend used by witnesses. -/
def jsNumDefault : JsNum :=
  { toStr := fun q => toString q.num ++ "/" ++ toString q.den
    toFixed1 := fun q => toString q.num }

/-- Generated markup, one constructor per template element: tag, the
literal class string of the template, the literal attributes, and the
children; text leaves hold the interpolated (escaped) strings. -/
inductive Html where
  | el (tag : String) (cls : String) (attrs : List (String × String)) (children : List Html)
  | txt (s : String)

/-- A comment as consumed by `commentHTML` (lines 115-131).  The three
`c.chips?.x` accesses are modelled as flattened optional fields. -/
structure PupComment where
  avatar : Option String
  author : Option String
  role : Option String
  stepName : Option String
  step : Option String
  text : Option String
  rating : Option ℚ
  chipsProgress : Option JSValue
  chipsUpdatedValue : Option JSValue
  chipsStatus : Option JSValue

/-- A section as consumed by `sectionHTML` (lines 133-147). -/
structure PupSection where
  title : Option String
  weightage : Option JSValue
  expectedRating : Option JSValue
  rating : Option ℚ
  labels : Option (List String)
  description : Option String
  behaviors : Option (List String)
  comments : Option (List PupComment)

/-- A review block as consumed by `reviewHTML` (lines 149-160). -/
structure PupReview where
  title : Option String
  text : Option String
  rating : Option ℚ
  label : Option String

/-- A hierarchy node as consumed by `nodeHTML` (lines 164-194). -/
inductive HNode where
  | mk (title date kpi categoryName categoryType : Option String)
      (weightage : Option JSValue) (progressPercent : Option ℚ) (rating : Option ℚ)
      (priority presentStatus : Option String) (description : Option String)
      (comments : Option (List PupComment)) (children : Option (List HNode))

/-- The child list of a node (`node.children`, absent meaning none). -/
def HNode.childrenL : HNode → List HNode
  | HNode.mk _ _ _ _ _ _ _ _ _ _ _ _ ch => ch.getD []

/-- A hierarchy block (`hier.nodes` must be an array, lines 196-199). -/
structure Hierarchy where
  nodes : Option (List HNode)

/-- A tab as consumed by the page template (lines 217-241). -/
structure PupTab where
  label : Option String
  sections : Option (List PupSection)
  review : Option PupReview
  reviewEndMarker : Option String
  hierarchy : Option Hierarchy
  hierarchyEndMarker : Option String

/-- The optional rating-details panel (lines 201-215). -/
structure RatingDetails where
  description : Option String
  weightage : Option JSValue
  score : Option JSValue
  label : Option String
  manualRating : Option JSValue
  mappedScore : Option JSValue
  mappedLabel : Option String
  rating : Option ℚ

/-- The optional avatar image of a comment header. -/
def avatarImg (av : Option String) : List Html :=
  if strTruthy av then [Html.el "img" "avatar" [("src", escString (jsOptStrOr av ""))] []]
  else []

/-- The optional `Progress:` pill of a comment (line 123). -/
def progressPill (num : ℚ → String) (v : Option JSValue) : List Html :=
  match v with
  | some x => [Html.el "span" "pill" [] [Html.txt ("Progress: " ++ escVal num x)]]
  | none => []

/-- The optional `Updated Value:` pill of a comment (line 124). -/
def updatedValuePill (num : ℚ → String) (v : Option JSValue) : List Html :=
  match v with
  | some x => [Html.el "span" "pill" [] [Html.txt ("Updated Value: " ++ escVal num x)]]
  | none => []

/-- The optional `Status:` pill of a comment (line 125; shown only for a
truthy status value). -/
def statusPill (num : ℚ → String) (v : Option JSValue) : List Html :=
  match v with
  | some x =>
    if truthy x then [Html.el "span" "pill" [] [Html.txt ("Status: " ++ escVal num x)]]
    else []
  | none => []

/-- The optional star-rating chip `★ rating.toFixed(1)` used by comments,
sections, reviews, nodes and the rating panel. -/
def starChip (J : JsNum) (r : Option ℚ) : List Html :=
  match r with
  | some q =>
    [Html.el "span" "chip rate" []
      [Html.el "span" "star" [] [Html.txt "★"], Html.txt (" " ++ escString (J.toFixed1 q))]]
  | none => []

/-- `commentHTML(c)` (lines 115-131). -/
def commentHTML (J : JsNum) (c : PupComment) : Html :=
  Html.el "div" "comment" []
    [Html.el "div" "hdr" []
      [Html.el "div" "left" []
        (avatarImg c.avatar ++
         [Html.el "div" "" []
           [Html.txt (escString (jsOptStrOr c.author "User") ++ " • " ++
             escString (jsOptStrOr c.role "") ++ " • " ++
             escString (jsOptStrOr c.stepName (jsOptStrOr c.step "")))]]),
       Html.el "div" "meta" []
         (progressPill J.toStr c.chipsProgress ++
          updatedValuePill J.toStr c.chipsUpdatedValue ++
          statusPill J.toStr c.chipsStatus ++ starChip J c.rating)],
     Html.el "div" "txt" [] [Html.txt (escString (jsOptStrOr c.text ""))]]

/-- The body text carried by a rendered comment: the content of the
trailing `txt` div. -/
def commentBodyText : Html → Option String
  | Html.el _ _ _ kids =>
    match kids.getLast? with
    | some (Html.el _ "txt" _ [Html.txt s]) => some s
    | _ => none
  | Html.txt _ => none

/-- The optional weightage chip of a section (line 137). -/
def weightChip (num : ℚ → String) (w : Option JSValue) : List Html :=
  match w with
  | some v => [Html.el "span" "chip info" [] [Html.txt ("Weightage: " ++ escVal num v)]]
  | none => []

/-- The optional expected-rating chip of a section (line 138). -/
def expectedChip (num : ℚ → String) (w : Option JSValue) : List Html :=
  match w with
  | some v => [Html.el "span" "chip ok" [] [Html.txt ("Expected: " ++ escVal num v)]]
  | none => []

/-- The status pills for a section's labels (line 140). -/
def labelPills (ls : Option (List String)) : List Html :=
  (ls.getD []).map (fun l => Html.el "span" "pill status" [] [Html.txt (escString l)])

/-- `sectionHTML(s)` (lines 133-147). -/
def sectionHTML (J : JsNum) (s : PupSection) : Html :=
  Html.el "section" "card" []
    ([Html.el "h3" "" [] [Html.txt (escVal J.toStr (jsOfOptStr s.title))]] ++
     [Html.el "div" "row" []
       (weightChip J.toStr s.weightage ++ expectedChip J.toStr s.expectedRating ++
        starChip J s.rating ++ labelPills s.labels)] ++
     (if strTruthy s.description then
        [Html.el "p" "para" [] [Html.txt (escString (jsOptStrOr s.description ""))]]
      else []) ++
     (match s.behaviors with
      | some bs =>
        if bs.isEmpty then []
        else
          Html.el "div" "para" [("style", "color:#111827")]
            [Html.el "strong" "" [] [Html.txt "Behaviors"]] ::
          bs.map (fun b => Html.el "p" "para" [] [Html.txt ("• " ++ escString b)])
      | none => []) ++
     (match s.comments with
      | some cs => cs.map (commentHTML J)
      | none => []))

/-- `reviewHTML(title, text, rating, label)` (lines 149-160). -/
def reviewHTML (J : JsNum) (title text : Option String) (rating : Option ℚ)
    (label : Option String) : Html :=
  Html.el "section" "review" []
    ([Html.el "div" "row" [("style", "justify-content:space-between; align-items:center;")]
       [Html.el "div" "" [("style", "font-weight:700; color:#111827;")]
         [Html.txt (escString (jsOptStrOr title "Section Review"))],
        Html.el "div" "" []
          (starChip J rating ++
           (if strTruthy label then
              [Html.el "span" "pill status" [] [Html.txt (escString (jsOptStrOr label ""))]]
            else []))]] ++
     (if strTruthy text then
        [Html.el "p" "para" [] [Html.txt (escString (jsOptStrOr text ""))]]
      else []))

/-- `endMarker(text)` (line 162). -/
def endMarker (text : String) : Html :=
  Html.el "div" "section-end" [] [Html.txt ("• " ++ escString text ++ " •")]

/-- `Number(node.progressPercent || 0)` (line 165): an absent, zero or
`NaN` progress is falsy and becomes `0`. -/
def progVal (pp : Option ℚ) : ℚ :=
  match pp with
  | some p => if p = 0 then 0 else p
  | none => 0

/-- JS `Math.round`: round half away from negative infinity. -/
def jsRound (q : ℚ) : ℤ := ⌊q + 1 / 2⌋

/-- The donut arc angle (line 165):
`Math.max(0, Math.min(100, Number(node.progressPercent || 0))) * 3.6`. -/
def donutDeg (pp : Option ℚ) : ℚ := max 0 (min 100 (progVal pp)) * 3.6

/-- The donut div of a node (line 184): the conic-gradient angle in the
style attribute and the rounded percentage label. -/
def donutHTML (J : JsNum) (pp : Option ℚ) : Html :=
  Html.el "div" "donut" [("style", "--deg:" ++ J.toStr (donutDeg pp) ++ "deg")]
    [Html.el "span" "" [] [Html.txt (escString (toString (jsRound (progVal pp))) ++ "%")]]

/-- `idxLabel` (line 166): the last entry of the index path, defaulting
to 1 for an empty path. -/
def idxLabel (ip : List ℕ) : ℕ :=
  match ip.getLast? with
  | some x => x
  | none => 1

/-- The sub-pills of a node header (lines 173-179). -/
def nodeSubPills (J : JsNum) (date kpi cn ct : Option String) (w : Option JSValue)
    (priority presentStatus : Option String) : List Html :=
  (if strTruthy date then
    [Html.el "span" "pill" [] [Html.txt (escString (jsOptStrOr date ""))]] else []) ++
  (if strTruthy kpi then
    [Html.el "span" "pill" [] [Html.txt ("KPI: " ++ escString (jsOptStrOr kpi ""))]] else []) ++
  (if strTruthy cn then
    [Html.el "span" "pill" [] [Html.txt (escString (jsOptStrOr cn ""))]] else []) ++
  (if strTruthy ct then
    [Html.el "span" "pill" [] [Html.txt (escString (jsOptStrOr ct ""))]] else []) ++
  (match w with
   | some v => [Html.el "span" "pill" [] [Html.txt ("Weightage: " ++ escVal J.toStr v)]]
   | none => []) ++
  (if strTruthy priority then
    [Html.el "span" ("pill " ++ (jsOptStrOr priority "").toLower) []
      [Html.txt (escString (jsOptStrOr priority ""))]] else []) ++
  (if strTruthy presentStatus then
    [Html.el "span" "pill status" [] [Html.txt (escString (jsOptStrOr presentStatus ""))]]
   else [])

mutual
/-- `nodeHTML(node, level, indexPath)` (lines 164-194): the node card with
its index badge, sub-pills, rating chip, donut, optional description,
comments, and — when the node has a non-empty child array — a single
`node-children` container holding the children rendered with extended
index paths. -/
def nodeHTML (J : JsNum) : HNode → ℕ → List ℕ → Html
  | HNode.mk t d k cn ct w pp r pr ps desc cs ch, level, ip =>
    Html.el "div" "node" []
      ([Html.el "div" "node-head" []
         [Html.el "div" "node-left" []
           [Html.el "div" "node-title" []
             [Html.el "span" "node-index" [] [Html.txt (escNat (idxLabel ip))],
              Html.txt (escString (jsOptStrOr t ""))],
            Html.el "div" "node-sub" [] (nodeSubPills J d k cn ct w pr ps)],
          Html.el "div" "node-right" [] (starChip J r ++ [donutHTML J pp])]] ++
       (if strTruthy desc then
          [Html.el "p" "para" [] [Html.txt (escString (jsOptStrOr desc ""))]]
        else []) ++
       (match cs with
        | some l => l.map (commentHTML J)
        | none => []) ++
       (match ch with
        | some l =>
          if l.isEmpty then []
          else [Html.el "div" "node-children" [] (nodesHTML J l (level + 1) ip 1)]
        | none => []))
termination_by n _ _ => sizeOf n
decreasing_by all_goals (simp_wf; try omega)

/-- The `node.children.map((child, i) => nodeHTML(child, level + 1,
[...indexPath, i + 1]))` loop of line 190, with `i + 1` carried as the
counter starting at 1. -/
def nodesHTML (J : JsNum) : List HNode → ℕ → List ℕ → ℕ → List Html
  | [], _, _, _ => []
  | c :: rest, level, ip, i =>
    nodeHTML J c level (ip ++ [i]) :: nodesHTML J rest level ip (i + 1)
termination_by l _ _ _ => sizeOf l
decreasing_by all_goals (simp_wf; try omega)
end

/-- `hierarchyHTML(hier)` (lines 196-199): the root nodes rendered at
level 1 with index paths `[i + 1]`. -/
def hierarchyHTML (J : JsNum) (hier : Hierarchy) : List Html :=
  match hier.nodes with
  | some ns => nodesHTML J ns 1 [] 1
  | none => []

/-- The rating-details panel (lines 201-215), present only when
`meta.ratingDetails` is set. -/
def ratingPanelHTML (J : JsNum) (rd : Option RatingDetails) : List Html :=
  match rd with
  | some r =>
    [Html.el "section" "panel" []
      ([Html.el "div" "title" [] [Html.txt "Rating Details"]] ++
       (if strTruthy r.description then
          [Html.el "p" "para" [("style", "margin-bottom:6px;")]
            [Html.txt (escString (jsOptStrOr r.description ""))]]
        else []) ++
       [Html.el "div" "row" []
         ((match r.weightage with
           | some v => [Html.el "span" "chip info" []
               [Html.txt ("Weightage: " ++ escVal J.toStr v)]]
           | none => []) ++
          (match r.score with
           | some v => [Html.el "span" "pill" [] [Html.txt ("Score: " ++ escVal J.toStr v)]]
           | none => []) ++
          (if strTruthy r.label then
            [Html.el "span" "pill status" []
              [Html.txt ("Label: " ++ escString (jsOptStrOr r.label ""))]] else []) ++
          (match r.manualRating with
           | some v => [Html.el "span" "pill" []
               [Html.txt ("Manual Rating: " ++ escVal J.toStr v)]]
           | none => []) ++
          (match r.mappedScore with
           | some v => [Html.el "span" "pill" []
               [Html.txt ("Mapped Score: " ++ escVal J.toStr v)]]
           | none => []) ++
          (if strTruthy r.mappedLabel then
            [Html.el "span" "pill status" []
              [Html.txt ("Mapped Label: " ++ escString (jsOptStrOr r.mappedLabel ""))]]
           else []) ++
          starChip J r.rating)])]
  | none => []

/-- The pills of the tab bar (lines 106-113): one anchor per tab, the
active one carrying the `active` class, each linking to its tab's anchor. -/
def tabPills (J : JsNum) (activeIdx : ℕ) : List PupTab → ℕ → List Html
  | [], _ => []
  | t :: rest, i =>
    Html.el "a" (if i = activeIdx then "tab active" else "tab ")
      [("href", "#tab-" ++ toString i)]
      [Html.txt (escVal J.toStr (jsOfOptStr t.label))] ::
    tabPills J activeIdx rest (i + 1)

/-- `tabBar(activeIdx)` (lines 106-113). -/
def tabBarHTML (J : JsNum) (tabs : List PupTab) (activeIdx : ℕ) : Html :=
  Html.el "nav" "tabs" [] (tabPills J activeIdx tabs 0)

/-- The children of a page's `content` div (lines 231-238): sections,
optional review, optional review end marker, optional hierarchy, optional
hierarchy end marker, and — exactly when the tab has no section array (or
an empty one) and no hierarchy — the single no-content placeholder. -/
def pageContent (J : JsNum) (tab : PupTab) : List Html :=
  ((tab.sections.getD []).map (sectionHTML J)) ++
  (match tab.review with
   | some rv => [reviewHTML J rv.title rv.text rv.rating rv.label]
   | none => []) ++
  (if strTruthy tab.reviewEndMarker then [endMarker (jsOptStrOr tab.reviewEndMarker "")]
   else []) ++
  (match tab.hierarchy with
   | some h => hierarchyHTML J h
   | none => []) ++
  (if strTruthy tab.hierarchyEndMarker then [endMarker (jsOptStrOr tab.hierarchyEndMarker "")]
   else []) ++
  (if (match tab.sections with
       | none => true
       | some l => l.isEmpty) &&
      (match tab.hierarchy with
       | none => true
       | some _ => false) then
     [Html.el "div" "muted" [] [Html.txt noContentText]]
   else [])

/-- One page of the Template Builder output (lines 217-241): header with
title, employee info and tab bar, the rating panel on the first page, the
content div, and the footer.  `reportTitle` and `empInfo` arrive
pre-escaped, as in `buildHTML` (lines 33-35). -/
def pageHTML (J : JsNum) (reportTitle empInfo : String) (empAvatar : Option String)
    (rd : Option RatingDetails) (tabs : List PupTab) (idx : ℕ) (tab : PupTab) : Html :=
  Html.el "div" "page" [("id", "tab-" ++ toString idx)]
    ([Html.el "div" "header" []
       ([Html.el "div" ""
           [("style", "display:flex; align-items:center; justify-content:space-between; gap:10px;")]
           ([Html.el "div" "" []
              [Html.el "h1" "" [] [Html.txt reportTitle],
               Html.el "div" "muted" [] [Html.txt empInfo]]] ++
            (if strTruthy empAvatar then
               [Html.el "img" "avatar"
                 [("src", escString (jsOptStrOr empAvatar "")),
                  ("style", "width:28px;height:28px;")] []]
             else []))] ++
        [Html.el "div" "divider" [] []] ++
        [tabBarHTML J tabs idx])] ++
     (if idx = 0 then ratingPanelHTML J rd else []) ++
     [Html.el "div" "content" [] (pageContent J tab)] ++
     [Html.el "div" "footer" []
       [Html.txt ("Tab " ++ toString (idx + 1) ++ " / " ++ toString tabs.length)]])

mutual
/-- Number of elements bearing exactly the given class string in a markup
tree. -/
def countCls (cls : String) : Html → ℕ
  | Html.el _ c _ kids => (if c = cls then 1 else 0) + countClsList cls kids
  | Html.txt _ => 0
termination_by h => sizeOf h
decreasing_by all_goals (simp_wf; try omega)

/-- List version of `countCls`. -/
def countClsList (cls : String) : List Html → ℕ
  | [] => 0
  | h :: rest => countCls cls h + countClsList cls rest
termination_by l => sizeOf l
decreasing_by all_goals (simp_wf; try omega)
end

/-- The node of a hierarchy tree at a path of 0-based child indices. -/
def nodeAt : HNode → List ℕ → Option HNode
  | n, [] => some n
  | n, i :: p =>
    match (HNode.childrenL n)[i]? with
    | some c => nodeAt c p
    | none => none

/-- Probe recognising a `node-children` container element. -/
def ccProbe : Html → Option (List Html)
  | Html.el _ "node-children" _ cs => some cs
  | _ => none

/-- The contents of the unique `node-children` container among an
element's direct children, if any. -/
def childContainer : Html → Option (List Html)
  | Html.el _ _ _ kids => kids.findSome? ccProbe
  | Html.txt _ => none

/-- Descends a rendered hierarchy: at each step, enters the node's
`node-children` container and picks the child at the given 0-based index. -/
def htmlNodeAt : Html → List ℕ → Option Html
  | h, [] => some h
  | h, i :: p =>
    match childContainer h with
    | some cs =>
      match cs[i]? with
      | some c => htmlNodeAt c p
      | none => none
    | none => none

/-- The CSS indentation contributed by one `node-children` container:
`margin-left: 14px` plus `padding-left: 14px` (stylesheet line 99). -/
def nodeChildrenIndent : ℚ := 14 + 14

/-- Total CSS indentation accumulated by the containers crossed while
descending to the node at the given path. -/
def indentAtPath : Html → List ℕ → Option ℚ
  | _, [] => some 0
  | h, i :: p =>
    match childContainer h with
    | some cs =>
      match cs[i]? with
      | some c => (indentAtPath c p).map (fun q => q + nodeChildrenIndent)
      | none => none
    | none => none

/-- The text of a rendered node's index badge: the content of the
`node-index` span inside the node's title. -/
def badgeOf : Html → Option String
  | Html.el _ _ _ (Html.el _ "node-head" _ (Html.el _ "node-left" _
      (Html.el _ "node-title" _ (Html.el _ "node-index" _ [Html.txt s] :: _) :: _) :: _) :: _) =>
    some s
  | _ => none

/-- A bare hierarchy chain of the given depth: `chainNode (n+1)` has the
single child `chainNode n` and no other data. -/
def chainNode : ℕ → HNode
  | 0 => HNode.mk none none none none none none none none none none none none none
  | n + 1 =>
    HNode.mk none none none none none none none none none none none none
      (some [chainNode n])

end HRMS

namespace HRMS

/-- C1 (code evaluated at the failing input): for a section whose content
height (an 800-point description) exceeds the remaining space on the
current page, the engine produces no page break at all — the document stays
on page 1 — and the section body is drawn at a position from which its
measured extent runs past the bottom margin. -/
theorem c1_section_overflow_without_break :
    (A4_HEIGHT - mm 18) - (mm 18 + mm 30) < 800 ∧
    (generate (constBackend 800) allOk c1Doc).1.1.page = 1 ∧
    Cmd.addPage ∉ (generate (constBackend 800) allOk c1Doc).2 ∧
    Cmd.textCmd "long" (8258 / 127) (25538 / 127) ∈ (generate (constBackend 800) allOk c1Doc).2 ∧
    (25538 / 127 : ℚ) + 800 > A4_HEIGHT - mm 18 := by
  refine ⟨by norm_num [A4_HEIGHT, mm], ?_, ?_, ?_, by norm_num [A4_HEIGHT, mm]⟩ <;>
    norm_num [generate, tabsLoop, drawSection, sectionBadges, optChip, sectionDescPart, sectionBehaviorsPart,
      sectionCommentsPart, tabSectionsPart, sectionsLoop, ensureSpace, drawTabs, pillLinks, pillLink,
      tryAttach, drawPageScaffold, drawHeader, sectionHeader, paragraph, commentCard,
      commentsLoop, behaviorsBlock, behaviorsList, chip, ratingBadge, footer, addOutlines,
      outlinesLoop, destName, jsOptStrOr, jsStrOr, joinPresent, constBackend, allOk, c1Doc,
      mm, A4_HEIGHT, A4_WIDTH] <;> with_unfolding_all decide

end HRMS

namespace HRMS

/-- C2 counterexample: with one tab and a comment overflow, the engine
produces two pages but redraws the full scaffold (header block plus
navigation bar) only once — the overflow page receives only the navigation
bar — so the number of full-scaffold redraws differs from the number of
pages produced. -/
theorem c2_counterexample :
    (generate (constBackend 500) allOk c2Doc).2.countP isHeaderBlock = 1 ∧
    (generate (constBackend 500) allOk c2Doc).1.1.page = 2 ∧
    (generate (constBackend 500) allOk c2Doc).2.countP isHeaderBlock ≠
      (generate (constBackend 500) allOk c2Doc).1.1.page := by
  refine ⟨?_, ?_, ?_⟩ <;>
    norm_num [generate, tabsLoop, drawSection, sectionBadges, optChip, sectionDescPart, sectionBehaviorsPart,
      sectionCommentsPart, tabSectionsPart, sectionsLoop, ensureSpace, drawTabs, pillLinks, pillLink,
      tryAttach, drawPageScaffold, drawHeader, sectionHeader, paragraph, commentCard,
      commentsLoop, behaviorsBlock, behaviorsList, chip, ratingBadge, footer, addOutlines,
      outlinesLoop, destName, jsOptStrOr, jsStrOr, joinPresent, constBackend, allOk, c2Doc,
      isHeaderBlock, List.countP_cons, List.countP_nil, mm, A4_HEIGHT, A4_WIDTH] <;>
    with_unfolding_all decide

/-- C3 counterexample: a comment card whose body measures 300 points is
drawn starting at `y = 64654/127 ≈ 509.1`: the fixed 110-point reservation
check passes (`y + 110` fits above the bottom margin) yet the drawn card,
42 + 300 = 342 points tall, extends past the bottom margin — so the engine
does not check the card's actual height, and a comment card can overflow. -/
theorem c3_counterexample :
    Cmd.roundedRect (8258 / 127) (64654 / 127) (1477114 / 3175) 342 8 ∈
      (generate (constBackend 300) allOk c3Doc).2 ∧
    (64654 / 127 : ℚ) + 110 ≤ A4_HEIGHT - mm 18 ∧
    (64654 / 127 : ℚ) + 342 > A4_HEIGHT - mm 18 := by
  refine ⟨?_, by norm_num [A4_HEIGHT, mm], by norm_num [A4_HEIGHT, mm]⟩
  norm_num [generate, tabsLoop, drawSection, sectionBadges, optChip, sectionDescPart, sectionBehaviorsPart,
      sectionCommentsPart, tabSectionsPart, sectionsLoop, ensureSpace, drawTabs, pillLinks, pillLink,
    tryAttach, drawPageScaffold, drawHeader, sectionHeader, paragraph, commentCard,
    commentsLoop, behaviorsBlock, behaviorsList, chip, ratingBadge, footer, addOutlines,
    outlinesLoop, destName, jsOptStrOr, jsStrOr, joinPresent, constBackend, allOk, c3Doc,
    mm, A4_HEIGHT, A4_WIDTH]

/-- C5 counterexample: for a tab with zero sections (and no hierarchy,
which the Vector Layout Engine does not render at all), the Vector Layout
Engine draws no placeholder text — the claim's "exactly one placeholder"
fails for this pipeline. -/
theorem c5_counterexample :
    (generate (constBackend 10) allOk c5PdfDoc).2.countP isPlaceholderText = 0 := by
  norm_num [generate, tabsLoop, drawSection, sectionBadges, optChip, sectionDescPart, sectionBehaviorsPart,
      sectionCommentsPart, tabSectionsPart, sectionsLoop, ensureSpace, drawTabs, pillLinks, pillLink,
    tryAttach, drawPageScaffold, drawHeader, sectionHeader, paragraph, commentCard,
    commentsLoop, behaviorsBlock, behaviorsList, chip, ratingBadge, footer, addOutlines,
    outlinesLoop, destName, jsOptStrOr, jsStrOr, joinPresent, constBackend, allOk, c5PdfDoc,
    isPlaceholderText, noContentText, List.countP_cons, List.countP_nil, mm, A4_HEIGHT, A4_WIDTH]
  with_unfolding_all decide

end HRMS


namespace HRMS

theorem pillLink_spec (oracle : ℕ → Bool) (dm : ℕ → Option String) (pm : ℕ → Option ℕ)
    (idx : ℕ) (x y w h : ℚ) (st : St) :
    (pillLink oracle dm pm idx x y w h st).1.page = st.page ∧
    ∀ c ∈ (pillLink oracle dm pm idx x y w h st).2, isMetaCmd c = true := by
  rcases hdm : dm idx with _ | dest
  · rcases hpm : pm idx with _ | p
    · simp [pillLink, hdm, hpm]
    · cases ho : oracle st.att <;> simp [pillLink, hdm, hpm, tryAttach, ho, isMetaCmd]
  · cases ho : oracle st.att <;> simp [pillLink, hdm, tryAttach, ho, isMetaCmd]

theorem pillLinks_spec (oracle : ℕ → Bool) (m top barH gap eachW : ℚ)
    (dm : ℕ → Option String) (pm : ℕ → Option ℕ) :
    ∀ count idx st, (pillLinks oracle m top barH gap eachW dm pm count idx st).1.page = st.page ∧
      ∀ c ∈ (pillLinks oracle m top barH gap eachW dm pm count idx st).2, isMetaCmd c = true := by
  intro count
  induction count with
  | zero => intro idx st; simp [pillLinks]
  | succ n ih =>
    intro idx st
    have h1 := pillLink_spec oracle dm pm idx (m + idx * (eachW + gap)) (top + mm 2) eachW
      (barH - mm 4) st
    have h2 := ih (idx + 1) (pillLink oracle dm pm idx (m + idx * (eachW + gap)) (top + mm 2)
      eachW (barH - mm 4) st).1
    simp only [pillLinks]
    constructor
    · rw [h2.1, h1.1]
    · intro c hc
      rcases List.mem_append.mp hc with hc | hc
      · exact h1.2 c hc
      · exact h2.2 c hc

theorem isMetaCmd_inert {c : Cmd} (h : isMetaCmd c = true) :
    isTabBarCmd c = false ∧ isAddPageCmd c = false ∧ isHeaderBlock c = false ∧
    CardChecked (mm 18) c ∧ isPlaceholderText c = false := by
  cases c <;> simp_all [isMetaCmd, isTabBarCmd, isAddPageCmd, isHeaderBlock, CardChecked,
    isPlaceholderText]

theorem isInert_inert {c : Cmd} (h : isInert c = true) :
    isTabBarCmd c = false ∧ isAddPageCmd c = false ∧ isHeaderBlock c = false ∧
    isMetaCmd c = false := by
  cases c <;> simp_all [isInert, isMetaCmd, isTabBarCmd, isAddPageCmd, isHeaderBlock]

theorem drawTabs_spec (oracle : ℕ → Bool) (tabs : List PdfTab) (activeIndex : ℕ) (margin : ℚ)
    (dm : ℕ → Option String) (pm : ℕ → Option ℕ) (st : St) :
    (drawTabs oracle tabs activeIndex margin dm pm st).1.page = st.page ∧
    (drawTabs oracle tabs activeIndex margin dm pm st).2.countP isTabBarCmd = 1 ∧
    (drawTabs oracle tabs activeIndex margin dm pm st).2.countP isAddPageCmd = 0 ∧
    (drawTabs oracle tabs activeIndex margin dm pm st).2.countP isHeaderBlock = 0 ∧
    (∀ ls a, Cmd.tabBar ls a ∈ (drawTabs oracle tabs activeIndex margin dm pm st).2 →
      ls = tabs.map (fun t => t.label) ∧ a = activeIndex) ∧
    (∀ c ∈ (drawTabs oracle tabs activeIndex margin dm pm st).2, CardChecked (mm 18) c) := by
  have hp := pillLinks_spec oracle margin (margin - mm 6) (mm 18) (mm 3)
    (max (mm 28) ((A4_WIDTH - margin * 2 - mm 3 * ((tabs.length : ℚ) - 1)) / (tabs.length : ℚ)))
    dm pm tabs.length 0 st
  simp only [drawTabs]
  refine ⟨hp.1, ?_, ?_, ?_, ?_, ?_⟩
  · rw [List.countP_cons_of_pos _ _ (by simp [isTabBarCmd]), List.countP_eq_zero.mpr]
    intro c hc
    exact (isMetaCmd_inert (hp.2 c hc)).1 ▸ (by simp [(isMetaCmd_inert (hp.2 c hc)).1])
  · rw [List.countP_cons_of_neg _ _ (by simp [isAddPageCmd]), List.countP_eq_zero.mpr]
    intro c hc
    simp [(isMetaCmd_inert (hp.2 c hc)).2.1]
  · rw [List.countP_cons_of_neg _ _ (by simp [isHeaderBlock]), List.countP_eq_zero.mpr]
    intro c hc
    simp [(isMetaCmd_inert (hp.2 c hc)).2.2.1]
  · intro ls a hmem
    rcases List.mem_cons.mp hmem with heq | hmem
    · cases heq; exact ⟨rfl, rfl⟩
    · have := (isMetaCmd_inert (hp.2 _ hmem)).1
      simp [isTabBarCmd] at this
  · intro c hc
    rcases List.mem_cons.mp hc with heq | hmem
    · subst heq; intro x y w h hc'; cases hc'
    · exact (isMetaCmd_inert (hp.2 c hmem)).2.2.2.1

end HRMS

namespace HRMS

theorem ensureSpace_spec (oracle : ℕ → Bool) (st : St) (y need margin : ℚ) (activeIndex : ℕ)
    (tabs : List PdfTab) (dm : ℕ → Option String) (pm : ℕ → Option ℕ) :
    (ensureSpace oracle st y need margin activeIndex tabs dm pm).1.2.page =
      st.page + (ensureSpace oracle st y need margin activeIndex tabs dm pm).2.countP isAddPageCmd ∧
    (ensureSpace oracle st y need margin activeIndex tabs dm pm).2.countP isTabBarCmd =
      (ensureSpace oracle st y need margin activeIndex tabs dm pm).2.countP isAddPageCmd ∧
    (ensureSpace oracle st y need margin activeIndex tabs dm pm).2.countP isHeaderBlock = 0 ∧
    (∀ ls a, Cmd.tabBar ls a ∈ (ensureSpace oracle st y need margin activeIndex tabs dm pm).2 →
      ls = tabs.map (fun t => t.label) ∧ a = activeIndex) ∧
    (∀ c ∈ (ensureSpace oracle st y need margin activeIndex tabs dm pm).2, CardChecked (mm 18) c) ∧
    ((ensureSpace oracle st y need margin activeIndex tabs dm pm).1.1 = y ∧
       y + need ≤ A4_HEIGHT - margin ∨
     (ensureSpace oracle st y need margin activeIndex tabs dm pm).1.1 = margin + mm 30) := by
  by_cases hfit : y + need ≤ A4_HEIGHT - margin
  · have he : ensureSpace oracle st y need margin activeIndex tabs dm pm = ((y, st), []) := by
      simp [ensureSpace, hfit]
    rw [he]
    exact ⟨by simp, by simp, by simp, by simp, by simp, Or.inl ⟨rfl, hfit⟩⟩
  · have he : ensureSpace oracle st y need margin activeIndex tabs dm pm =
      ((margin + mm 30,
        (drawTabs oracle tabs activeIndex margin dm pm { st with page := st.page + 1 }).1),
       Cmd.addPage ::
        (drawTabs oracle tabs activeIndex margin dm pm { st with page := st.page + 1 }).2) := by
      simp [ensureSpace, hfit]
    have hd := drawTabs_spec oracle tabs activeIndex margin dm pm { st with page := st.page + 1 }
    rw [he]
    refine ⟨?_, ?_, ?_, ?_, ?_, Or.inr rfl⟩
    · rw [List.countP_cons_of_pos _ _ (by simp [isAddPageCmd]), hd.2.2.1, hd.1]
    · rw [List.countP_cons_of_neg _ _ (by simp [isTabBarCmd]),
        List.countP_cons_of_pos _ _ (by simp [isAddPageCmd]), hd.2.1, hd.2.2.1]
    · rw [List.countP_cons_of_neg _ _ (by simp [isHeaderBlock]), hd.2.2.2.1]
    · intro ls a hmem
      rcases List.mem_cons.mp hmem with heq | hmem
      · cases heq
      · exact hd.2.2.2.2.1 ls a hmem
    · intro c hc
      rcases List.mem_cons.mp hc with heq | hmem
      · subst heq; intro x y2 w h hc2; cases hc2
      · exact hd.2.2.2.2.2 c hmem

theorem chip_inert (B : Backend) (x y : ℚ) (text : String) (icon : Option String) :
    ∀ c ∈ (chip B x y text icon).2, isInert c = true ∧ CardChecked (mm 18) c := by
  intro c hc
  have h42 : ¬ (42 : ℚ) ≤ 16 := by norm_num
  rcases icon with _ | i
  · simp [chip] at hc
    rcases hc with rfl | rfl
    · exact ⟨rfl, fun x2 y2 w2 h2 heq hge => by cases heq; exact absurd hge h42⟩
    · exact ⟨rfl, fun x2 y2 w2 h2 heq => by cases heq⟩
  · simp [chip] at hc
    rcases hc with rfl | rfl | rfl
    · exact ⟨rfl, fun x2 y2 w2 h2 heq hge => by cases heq; exact absurd hge h42⟩
    · exact ⟨rfl, fun x2 y2 w2 h2 heq => by cases heq⟩
    · exact ⟨rfl, fun x2 y2 w2 h2 heq => by cases heq⟩

end HRMS

namespace HRMS

theorem ratingBadge_inert (B : Backend) (x y r : ℚ) :
    ∀ c ∈ (ratingBadge B x y r).2, isInert c = true ∧ CardChecked (mm 18) c :=
  chip_inert B x y (B.toFixed1 r) (some "★")

theorem sectionHeader_inert (x y : ℚ) (s : PdfSection) :
    ∀ c ∈ sectionHeader x y s, isInert c = true ∧ CardChecked (mm 18) c := by
  intro c hc
  simp [sectionHeader] at hc
  subst hc
  exact ⟨rfl, fun x2 y2 w2 h2 heq => by cases heq⟩

theorem paragraph_inert (B : Backend) (text : String) (x y width : ℚ) :
    ∀ c ∈ (paragraph B text x y width).2, isInert c = true ∧ CardChecked (mm 18) c := by
  intro c hc
  simp [paragraph] at hc
  subst hc
  exact ⟨rfl, fun x2 y2 w2 h2 heq => by cases heq⟩

theorem behaviorsList_inert (B : Backend) (x width : ℚ) :
    ∀ bs contentY, ∀ c ∈ (behaviorsList B x width bs contentY).2,
      isInert c = true ∧ CardChecked (mm 18) c := by
  intro bs
  induction bs with
  | nil => intro contentY c hc; simp [behaviorsList] at hc
  | cons b rest ih =>
    intro contentY c hc
    simp only [behaviorsList, List.mem_append] at hc
    rcases hc with hc | hc
    · exact paragraph_inert B ("• " ++ b) x contentY width c hc
    · exact ih _ c hc

theorem behaviorsBlock_inert (B : Backend) (bs : List String) (x contentY width : ℚ) :
    ∀ c ∈ (behaviorsBlock B bs x contentY width).2,
      isInert c = true ∧ CardChecked (mm 18) c := by
  intro c hc
  simp only [behaviorsBlock, List.mem_cons] at hc
  rcases hc with rfl | hc
  · exact ⟨rfl, fun x2 y2 w2 h2 heq => by cases heq⟩
  · exact behaviorsList_inert B x width bs (contentY + 16) c hc

theorem commentCard_spec (B : Backend) (x y w : ℚ) (cm : PdfComment) :
    (commentCard B x y w cm).1 = 10 + 16 + 6 + B.heightOfString cm.text (w - 10 * 2) + 10 + 2 ∧
    ∀ c ∈ (commentCard B x y w cm).2, isInert c = true ∧
      (y + 110 ≤ A4_HEIGHT - mm 18 → CardChecked (mm 18) c) := by
  constructor
  · simp [commentCard]
  · intro c hc
    simp [commentCard] at hc
    rcases hc with rfl | rfl | rfl
    · refine ⟨rfl, fun hy x2 y2 w2 h2 heq hge => ?_⟩
      cases heq
      exact hy
    · exact ⟨rfl, fun _ x2 y2 w2 h2 heq => by cases heq⟩
    · exact ⟨rfl, fun _ x2 y2 w2 h2 heq => by cases heq⟩

theorem footer_inert (B : Backend) (margin : ℚ) (st : St) :
    ∀ c ∈ footer B margin st, isInert c = true ∧ CardChecked (mm 18) c := by
  intro c hc
  simp [footer] at hc
  subst hc
  exact ⟨rfl, fun x2 y2 w2 h2 heq => by cases heq⟩

theorem drawPageScaffold_spec (oracle : ℕ → Bool) (meta : MetaInfo) (tabs : List PdfTab)
    (activeIndex : ℕ) (margin : ℚ) (dm : ℕ → Option String) (pm : ℕ → Option ℕ) (st : St) :
    (drawPageScaffold oracle meta tabs activeIndex margin dm pm st).1.page = st.page ∧
    (drawPageScaffold oracle meta tabs activeIndex margin dm pm st).2.countP isTabBarCmd = 1 ∧
    (drawPageScaffold oracle meta tabs activeIndex margin dm pm st).2.countP isAddPageCmd = 0 ∧
    (drawPageScaffold oracle meta tabs activeIndex margin dm pm st).2.countP isHeaderBlock = 1 ∧
    (∀ ls a, Cmd.tabBar ls a ∈ (drawPageScaffold oracle meta tabs activeIndex margin dm pm st).2 →
      ls = tabs.map (fun t => t.label) ∧ a = activeIndex) ∧
    (∀ c ∈ (drawPageScaffold oracle meta tabs activeIndex margin dm pm st).2,
      CardChecked (mm 18) c) := by
  have hd := drawTabs_spec oracle tabs activeIndex margin dm pm st
  simp only [drawPageScaffold, drawHeader, List.singleton_append]
  refine ⟨hd.1, ?_, ?_, ?_, ?_, ?_⟩
  · rw [List.countP_cons_of_neg _ _ (by simp [isTabBarCmd]), hd.2.1]
  · rw [List.countP_cons_of_neg _ _ (by simp [isAddPageCmd]), hd.2.2.1]
  · rw [List.countP_cons_of_pos _ _ (by simp [isHeaderBlock]), hd.2.2.2.1]
  · intro ls a hmem
    rcases List.mem_cons.mp hmem with heq | hmem
    · cases heq
    · exact hd.2.2.2.2.1 ls a hmem
  · intro c hc
    rcases List.mem_cons.mp hc with heq | hmem
    · subst heq; intro x2 y2 w2 h2 heq2; cases heq2
    · exact hd.2.2.2.2.2 c hmem

end HRMS

namespace HRMS

theorem commentsLoop_spec (B : Backend) (oracle : ℕ → Bool) (tabs : List PdfTab)
    (activeIndex : ℕ) (margin : ℚ) (dm : ℕ → Option String) (pm : ℕ → Option ℕ)
    (x width : ℚ) :
    ∀ cs contentY st,
    (commentsLoop B oracle tabs activeIndex margin dm pm x width cs contentY st).1.2.page =
      st.page + (commentsLoop B oracle tabs activeIndex margin dm pm x width cs
        contentY st).2.countP isAddPageCmd ∧
    (commentsLoop B oracle tabs activeIndex margin dm pm x width cs contentY st).2.countP
        isTabBarCmd =
      (commentsLoop B oracle tabs activeIndex margin dm pm x width cs contentY st).2.countP
        isAddPageCmd ∧
    (commentsLoop B oracle tabs activeIndex margin dm pm x width cs contentY st).2.countP
        isHeaderBlock = 0 ∧
    (∀ ls a, Cmd.tabBar ls a ∈
        (commentsLoop B oracle tabs activeIndex margin dm pm x width cs contentY st).2 →
      ls = tabs.map (fun t => t.label) ∧ a = activeIndex) ∧
    (margin = mm 18 →
      ∀ c ∈ (commentsLoop B oracle tabs activeIndex margin dm pm x width cs contentY st).2,
        CardChecked (mm 18) c) := by
  intro cs
  induction cs with
  | nil =>
    intro contentY st
    simp [commentsLoop]
  | cons cm rest ih =>
    intro contentY st
    have hes := ensureSpace_spec oracle st contentY 110 margin activeIndex tabs dm pm
    obtain ⟨hesP, hesTB, hesHB, hesLab, hesCard, hesCur⟩ := hes
    set r1 := ensureSpace oracle st contentY 110 margin activeIndex tabs dm pm with hr1
    have hcc := commentCard_spec B x r1.1.1 width cm
    set r2 := commentCard B x r1.1.1 width cm with hr2
    have hrec := ih (r1.1.1 + r2.1 + 8) r1.1.2
    set r3 := commentsLoop B oracle tabs activeIndex margin dm pm x width rest
      (r1.1.1 + r2.1 + 8) r1.1.2 with hr3
    obtain ⟨hrP, hrTB, hrHB, hrLab, hrCard⟩ := hrec
    have hout : (commentsLoop B oracle tabs activeIndex margin dm pm x width (cm :: rest)
        contentY st) = ((r3.1.1, r3.1.2), r1.2 ++ r2.2 ++ r3.2) := by
      simp only [commentsLoop]
    rw [hout]
    have hccInert : ∀ c ∈ r2.2, isTabBarCmd c = false ∧ isAddPageCmd c = false ∧
        isHeaderBlock c = false := by
      intro c hc
      have := isInert_inert (hcc.2 c hc).1
      exact ⟨this.1, this.2.1, this.2.2.1⟩
    have hccTB : r2.2.countP isTabBarCmd = 0 :=
      List.countP_eq_zero.mpr (fun c hc => by simp [(hccInert c hc).1])
    have hccAP : r2.2.countP isAddPageCmd = 0 :=
      List.countP_eq_zero.mpr (fun c hc => by simp [(hccInert c hc).2.1])
    have hccHB : r2.2.countP isHeaderBlock = 0 :=
      List.countP_eq_zero.mpr (fun c hc => by simp [(hccInert c hc).2.2])
    refine ⟨?_, ?_, ?_, ?_, ?_⟩
    · simp only [List.countP_append, hccAP]
      rw [hrP, hesP]
      omega
    · simp only [List.countP_append, hccTB, hccAP, hesTB, hrTB]
    · simp only [List.countP_append, hccHB, hesHB, hrHB]
    · intro ls a hmem
      simp only [List.mem_append] at hmem
      rcases hmem with (hmem | hmem) | hmem
      · exact hesLab ls a hmem
      · have := (hccInert _ hmem).1
        simp [isTabBarCmd] at this
      · exact hrLab ls a hmem
    · intro hm c hc
      simp only [List.mem_append] at hc
      rcases hc with (hc | hc) | hc
      · exact hesCard c hc
      · refine (hcc.2 c hc).2 ?_
        rcases hesCur with ⟨hcur, hle⟩ | hcur
        · rw [hcur, ← hm]; exact hle
        · rw [hcur, hm]
          norm_num [mm, A4_HEIGHT]
      · exact hrCard hm c hc
end HRMS

namespace HRMS

theorem optChip_inert (B : Backend) (bx by0 : ℚ) (pre : String) (v : Option ℚ) :
    ∀ c ∈ (optChip B bx by0 pre v).2, isInert c = true ∧ CardChecked (mm 18) c := by
  rcases v with _ | w
  · simp [optChip]
  · intro c hc
    simp only [optChip] at hc
    exact chip_inert B bx by0 (pre ++ B.numToString w) none c hc

theorem sectionBadges_inert (B : Backend) (s : PdfSection) (bx0 by0 : ℚ) :
    ∀ c ∈ sectionBadges B s bx0 by0, isInert c = true ∧ CardChecked (mm 18) c := by
  intro c hc
  simp only [sectionBadges, List.mem_append] at hc
  rcases hc with (hc | hc) | hc
  · exact optChip_inert B bx0 by0 "Weightage: " s.weightage c hc
  · exact optChip_inert B _ by0 "Expected: " s.expectedRating c hc
  · rcases hr : s.rating with _ | r
    · simp [hr] at hc
    · rw [hr] at hc
      exact ratingBadge_inert B _ by0 r c hc

theorem sectionDescPart_inert (B : Backend) (s : PdfSection) (x contentY width : ℚ) :
    ∀ c ∈ (sectionDescPart B s x contentY width).2,
      isInert c = true ∧ CardChecked (mm 18) c := by
  intro c hc
  rcases hd : s.description with _ | d
  · simp [sectionDescPart, hd] at hc
  · simp only [sectionDescPart, hd] at hc
    exact paragraph_inert B d x contentY width c hc

theorem sectionBehaviorsPart_inert (B : Backend) (s : PdfSection) (x contentY width : ℚ) :
    ∀ c ∈ (sectionBehaviorsPart B s x contentY width).2,
      isInert c = true ∧ CardChecked (mm 18) c := by
  intro c hc
  rcases hb : s.behaviors with _ | bs
  · simp [sectionBehaviorsPart, hb] at hc
  · simp only [sectionBehaviorsPart, hb] at hc
    by_cases he : bs.isEmpty
    · simp [he] at hc
    · rw [if_neg he] at hc
      exact behaviorsBlock_inert B bs x contentY width c hc

theorem sectionCommentsPart_spec (B : Backend) (oracle : ℕ → Bool) (tabs : List PdfTab)
    (activeIndex : ℕ) (margin : ℚ) (dm : ℕ → Option String) (pm : ℕ → Option ℕ)
    (x width : ℚ) (s : PdfSection) (contentY : ℚ) (st : St) :
    (sectionCommentsPart B oracle tabs activeIndex margin dm pm x width s contentY st).1.2.page =
      st.page + (sectionCommentsPart B oracle tabs activeIndex margin dm pm x width s
        contentY st).2.countP isAddPageCmd ∧
    (sectionCommentsPart B oracle tabs activeIndex margin dm pm x width s contentY st).2.countP
        isTabBarCmd =
      (sectionCommentsPart B oracle tabs activeIndex margin dm pm x width s contentY st).2.countP
        isAddPageCmd ∧
    (sectionCommentsPart B oracle tabs activeIndex margin dm pm x width s contentY st).2.countP
        isHeaderBlock = 0 ∧
    (∀ ls a, Cmd.tabBar ls a ∈
        (sectionCommentsPart B oracle tabs activeIndex margin dm pm x width s contentY st).2 →
      ls = tabs.map (fun t => t.label) ∧ a = activeIndex) ∧
    (margin = mm 18 →
      ∀ c ∈ (sectionCommentsPart B oracle tabs activeIndex margin dm pm x width s contentY st).2,
        CardChecked (mm 18) c) := by
  rcases hcm : s.comments with _ | cs
  · simp [sectionCommentsPart, hcm]
  · simp only [sectionCommentsPart, hcm]
    exact commentsLoop_spec B oracle tabs activeIndex margin dm pm x width cs contentY st

end HRMS

namespace HRMS

theorem drawSection_spec (B : Backend) (oracle : ℕ → Bool) (tabs : List PdfTab)
    (activeIndex : ℕ) (margin : ℚ) (s : PdfSection) (dm : ℕ → Option String)
    (pm : ℕ → Option ℕ) (st : St) :
    (drawSection B oracle tabs activeIndex margin s dm pm st).1.2.page =
      st.page + (drawSection B oracle tabs activeIndex margin s dm pm st).2.countP
        isAddPageCmd ∧
    (drawSection B oracle tabs activeIndex margin s dm pm st).2.countP isTabBarCmd =
      (drawSection B oracle tabs activeIndex margin s dm pm st).2.countP isAddPageCmd ∧
    (drawSection B oracle tabs activeIndex margin s dm pm st).2.countP isHeaderBlock = 0 ∧
    (∀ ls a, Cmd.tabBar ls a ∈ (drawSection B oracle tabs activeIndex margin s dm pm st).2 →
      ls = tabs.map (fun t => t.label) ∧ a = activeIndex) ∧
    (margin = mm 18 →
      ∀ c ∈ (drawSection B oracle tabs activeIndex margin s dm pm st).2,
        CardChecked (mm 18) c) := by
  obtain ⟨h0P, h0TB, h0HB, h0Lab, h0Card, -⟩ :=
    ensureSpace_spec oracle st (margin + mm 30) (mm 40) margin activeIndex tabs dm pm
  set r0 := ensureSpace oracle st (margin + mm 30) (mm 40) margin activeIndex tabs dm pm
    with hr0
  have h1 := sectionHeader_inert (margin + 14) (r0.1.1 + 14) s
  have h2 := sectionBadges_inert B s (margin + 14) (r0.1.1 + 14 + mm 8)
  have h5 := sectionDescPart_inert B s (margin + 14) (r0.1.1 + 14 + mm 8 + mm 10)
    (A4_WIDTH - margin * 2 - 14 * 2)
  set r5 := sectionDescPart B s (margin + 14) (r0.1.1 + 14 + mm 8 + mm 10)
    (A4_WIDTH - margin * 2 - 14 * 2) with hr5
  have h6 := sectionBehaviorsPart_inert B s (margin + 14) r5.1 (A4_WIDTH - margin * 2 - 14 * 2)
  set r6 := sectionBehaviorsPart B s (margin + 14) r5.1 (A4_WIDTH - margin * 2 - 14 * 2)
    with hr6
  obtain ⟨h7P, h7TB, h7HB, h7Lab, h7Card⟩ :=
    sectionCommentsPart_spec B oracle tabs activeIndex margin dm pm (margin + 14)
      (A4_WIDTH - margin * 2 - 14 * 2) s r6.1 r0.1.2
  set r7 := sectionCommentsPart B oracle tabs activeIndex margin dm pm (margin + 14)
    (A4_WIDTH - margin * 2 - 14 * 2) s r6.1 r0.1.2 with hr7
  have hout : drawSection B oracle tabs activeIndex margin s dm pm st =
      ((r0.1.1 + (r7.1.1 - r0.1.1 + 14) + 14, r7.1.2),
       r0.2 ++ sectionHeader (margin + 14) (r0.1.1 + 14) s ++
         sectionBadges B s (margin + 14) (r0.1.1 + 14 + mm 8) ++ r5.2 ++ r6.2 ++ r7.2 ++
         [Cmd.roundedRect margin r0.1.1 (A4_WIDTH - margin * 2) (r7.1.1 - r0.1.1 + 14) 12]) := by
    simp only [drawSection]
  rw [hout]
  have hInerts : ∀ c, (isInert c = true ∧ CardChecked (mm 18) c) →
      isTabBarCmd c = false ∧ isAddPageCmd c = false ∧ isHeaderBlock c = false := by
    intro c hc
    have := isInert_inert hc.1
    exact ⟨this.1, this.2.1, this.2.2.1⟩
  have cnt : ∀ (p : Cmd → Bool) (l : List Cmd), (∀ c ∈ l, p c = false) → l.countP p = 0 :=
    fun p l h => List.countP_eq_zero.mpr (fun c hc => by simp [h c hc])
  have c1TB := cnt isTabBarCmd _ (fun c hc => (hInerts c (h1 c hc)).1)
  have c1AP := cnt isAddPageCmd _ (fun c hc => (hInerts c (h1 c hc)).2.1)
  have c1HB := cnt isHeaderBlock _ (fun c hc => (hInerts c (h1 c hc)).2.2)
  have c2TB := cnt isTabBarCmd _ (fun c hc => (hInerts c (h2 c hc)).1)
  have c2AP := cnt isAddPageCmd _ (fun c hc => (hInerts c (h2 c hc)).2.1)
  have c2HB := cnt isHeaderBlock _ (fun c hc => (hInerts c (h2 c hc)).2.2)
  have c5TB := cnt isTabBarCmd _ (fun c hc => (hInerts c (h5 c hc)).1)
  have c5AP := cnt isAddPageCmd _ (fun c hc => (hInerts c (h5 c hc)).2.1)
  have c5HB := cnt isHeaderBlock _ (fun c hc => (hInerts c (h5 c hc)).2.2)
  have c6TB := cnt isTabBarCmd _ (fun c hc => (hInerts c (h6 c hc)).1)
  have c6AP := cnt isAddPageCmd _ (fun c hc => (hInerts c (h6 c hc)).2.1)
  have c6HB := cnt isHeaderBlock _ (fun c hc => (hInerts c (h6 c hc)).2.2)
  refine ⟨?_, ?_, ?_, ?_, ?_⟩
  · simp only [List.countP_append, c1AP, c2AP, c5AP, c6AP, List.countP_cons, List.countP_nil]
    norm_num [isAddPageCmd]
    omega
  · simp only [List.countP_append, c1TB, c2TB, c5TB, c6TB, c1AP, c2AP, c5AP, c6AP,
      List.countP_cons, List.countP_nil]
    norm_num [isTabBarCmd, isAddPageCmd]
    omega
  · simp only [List.countP_append, c1HB, c2HB, c5HB, c6HB, h0HB, h7HB,
      List.countP_cons, List.countP_nil]
    norm_num [isHeaderBlock]
  · intro ls a hmem
    simp only [List.mem_append, List.mem_singleton] at hmem
    rcases hmem with ((((((hm | hm) | hm) | hm) | hm) | hm) | hm)
    · exact h0Lab ls a hm
    · have := (hInerts _ (h1 _ hm)).1
      simp [isTabBarCmd] at this
    · have := (hInerts _ (h2 _ hm)).1
      simp [isTabBarCmd] at this
    · have := (hInerts _ (h5 _ hm)).1
      simp [isTabBarCmd] at this
    · have := (hInerts _ (h6 _ hm)).1
      simp [isTabBarCmd] at this
    · exact h7Lab ls a hm
    · cases hm
  · intro hm c hc
    simp only [List.mem_append, List.mem_singleton] at hc
    rcases hc with ((((((h | h) | h) | h) | h) | h) | h)
    · exact h0Card c h
    · exact (h1 c h).2
    · exact (h2 c h).2
    · exact (h5 c h).2
    · exact (h6 c h).2
    · exact h7Card hm c h
    · subst h
      intro x2 y2 w2 h2 heq
      cases heq

end HRMS

namespace HRMS

theorem sectionsLoop_spec (B : Backend) (oracle : ℕ → Bool) (tabs : List PdfTab)
    (activeIndex : ℕ) (margin : ℚ) (dm : ℕ → Option String) (pm : ℕ → Option ℕ) :
    ∀ secs y st,
    (sectionsLoop B oracle tabs activeIndex margin dm pm secs y st).1.2.page =
      st.page + (sectionsLoop B oracle tabs activeIndex margin dm pm secs y st).2.countP
        isAddPageCmd ∧
    (sectionsLoop B oracle tabs activeIndex margin dm pm secs y st).2.countP isTabBarCmd =
      (sectionsLoop B oracle tabs activeIndex margin dm pm secs y st).2.countP isAddPageCmd ∧
    (sectionsLoop B oracle tabs activeIndex margin dm pm secs y st).2.countP isHeaderBlock = 0 ∧
    (∀ ls a, Cmd.tabBar ls a ∈
        (sectionsLoop B oracle tabs activeIndex margin dm pm secs y st).2 →
      ls = tabs.map (fun t => t.label) ∧ a = activeIndex) ∧
    (margin = mm 18 →
      ∀ c ∈ (sectionsLoop B oracle tabs activeIndex margin dm pm secs y st).2,
        CardChecked (mm 18) c) := by
  intro secs
  induction secs with
  | nil => intro y st; simp [sectionsLoop]
  | cons s rest ih =>
    intro y st
    obtain ⟨hdP, hdTB, hdHB, hdLab, hdCard⟩ :=
      drawSection_spec B oracle tabs activeIndex margin s dm pm st
    set r1 := drawSection B oracle tabs activeIndex margin s dm pm st with hr1
    obtain ⟨hrP, hrTB, hrHB, hrLab, hrCard⟩ := ih r1.1.1 r1.1.2
    set r2 := sectionsLoop B oracle tabs activeIndex margin dm pm rest r1.1.1 r1.1.2 with hr2
    have hout : sectionsLoop B oracle tabs activeIndex margin dm pm (s :: rest) y st =
        ((r2.1.1, r2.1.2), r1.2 ++ r2.2) := by
      simp only [sectionsLoop]
    rw [hout]
    refine ⟨?_, ?_, ?_, ?_, ?_⟩
    · simp only [List.countP_append]
      omega
    · simp only [List.countP_append]
      omega
    · simp only [List.countP_append, hdHB, hrHB]
    · intro ls a hmem
      rcases List.mem_append.mp hmem with hm | hm
      · exact hdLab ls a hm
      · exact hrLab ls a hm
    · intro hm c hc
      rcases List.mem_append.mp hc with h | h
      · exact hdCard hm c h
      · exact hrCard hm c h

theorem outlinesLoop_spec (oracle : ℕ → Bool) (pm : ℕ → Option ℕ) :
    ∀ tabs idx st,
    (outlinesLoop oracle pm tabs idx st).1.page = st.page ∧
    ∀ c ∈ (outlinesLoop oracle pm tabs idx st).2, isMetaCmd c = true := by
  intro tabs
  induction tabs with
  | nil => intro idx st; simp [outlinesLoop]
  | cons t rest ih =>
    intro idx st
    have ht : ∀ c ∈ (tryAttach oracle st (Cmd.outlineItem t.label (pm idx))).2,
        isMetaCmd c = true := by
      intro c hc
      cases ho : oracle st.att <;> simp [tryAttach, ho] at hc
      subst hc
      rfl
    have hrec := ih (idx + 1) (tryAttach oracle st (Cmd.outlineItem t.label (pm idx))).1.2
    have hout : outlinesLoop oracle pm (t :: rest) idx st =
        ((outlinesLoop oracle pm rest (idx + 1)
            (tryAttach oracle st (Cmd.outlineItem t.label (pm idx))).1.2).1,
         (tryAttach oracle st (Cmd.outlineItem t.label (pm idx))).2 ++
           (outlinesLoop oracle pm rest (idx + 1)
             (tryAttach oracle st (Cmd.outlineItem t.label (pm idx))).1.2).2) := by
      simp only [outlinesLoop]
    rw [hout]
    constructor
    · rw [hrec.1]
      rfl
    · intro c hc
      rcases List.mem_append.mp hc with h | h
      · exact ht c h
      · exact hrec.2 c h

theorem addOutlines_spec (B : Backend) (oracle : ℕ → Bool) (pm : ℕ → Option ℕ)
    (tabs : List PdfTab) (st : St) :
    (addOutlines B oracle pm tabs st).1.page = st.page ∧
    ∀ c ∈ (addOutlines B oracle pm tabs st).2, isMetaCmd c = true := by
  rw [addOutlines]
  by_cases hB : B.outlineAvailable
  · rw [if_pos hB]
    exact outlinesLoop_spec oracle pm tabs 0 st
  · rw [if_neg hB]
    simp

end HRMS

namespace HRMS

theorem tabSectionsPart_spec (B : Backend) (oracle : ℕ → Bool) (allTabs : List PdfTab)
    (idx : ℕ) (margin : ℚ) (dm : ℕ → Option String) (pm : ℕ → Option ℕ) (t : PdfTab)
    (y0 : ℚ) (st : St) :
    (tabSectionsPart B oracle allTabs idx margin dm pm t y0 st).1.2.page =
      st.page + (tabSectionsPart B oracle allTabs idx margin dm pm t y0 st).2.countP
        isAddPageCmd ∧
    (tabSectionsPart B oracle allTabs idx margin dm pm t y0 st).2.countP isTabBarCmd =
      (tabSectionsPart B oracle allTabs idx margin dm pm t y0 st).2.countP isAddPageCmd ∧
    (tabSectionsPart B oracle allTabs idx margin dm pm t y0 st).2.countP isHeaderBlock = 0 ∧
    (∀ ls a, Cmd.tabBar ls a ∈ (tabSectionsPart B oracle allTabs idx margin dm pm t y0 st).2 →
      ls = allTabs.map (fun tb => tb.label) ∧ a = idx) ∧
    (margin = mm 18 →
      ∀ c ∈ (tabSectionsPart B oracle allTabs idx margin dm pm t y0 st).2,
        CardChecked (mm 18) c) := by
  rcases hs : t.sections with _ | secs
  · simp [tabSectionsPart, hs]
  · simp only [tabSectionsPart, hs]
    exact sectionsLoop_spec B oracle allTabs idx margin dm pm secs y0 st

theorem tabsLoop_spec (B : Backend) (oracle : ℕ → Bool) (meta : MetaInfo) (margin : ℚ)
    (allTabs : List PdfTab) :
    ∀ rest idx (dm : ℕ → Option String) (pm : ℕ → Option ℕ) st, 1 ≤ idx →
    (tabsLoop B oracle meta margin allTabs rest idx dm pm st).1.1.page =
      st.page + (tabsLoop B oracle meta margin allTabs rest idx dm pm st).2.countP
        isAddPageCmd ∧
    (tabsLoop B oracle meta margin allTabs rest idx dm pm st).2.countP isTabBarCmd =
      (tabsLoop B oracle meta margin allTabs rest idx dm pm st).2.countP isAddPageCmd ∧
    (tabsLoop B oracle meta margin allTabs rest idx dm pm st).2.countP isHeaderBlock =
      rest.length ∧
    (∀ ls a, Cmd.tabBar ls a ∈ (tabsLoop B oracle meta margin allTabs rest idx dm pm st).2 →
      ls = allTabs.map (fun tb => tb.label)) ∧
    (margin = mm 18 →
      ∀ c ∈ (tabsLoop B oracle meta margin allTabs rest idx dm pm st).2,
        CardChecked (mm 18) c) := by
  intro rest
  induction rest with
  | nil => intro idx dm pm st _; simp [tabsLoop]
  | cons t rest ih =>
    intro idx dm pm st hidx
    rcases idx with _ | n
    · omega
    set st1 : St := { st with page := st.page + 1 } with hst1
    set pm1 : ℕ → Option ℕ := fun j => if j = n + 1 then some st1.page else pm j with hpm1
    set r2 := tryAttach oracle st1 (Cmd.namedDest (destName t (n + 1))) with hr2
    set dm1 : ℕ → Option String :=
      if r2.1.1 then (fun j => if j = n + 1 then some (destName t (n + 1)) else dm j) else dm
      with hdm1
    obtain ⟨h3P, h3TB, h3AP, h3HB, h3Lab, h3Card⟩ :=
      drawPageScaffold_spec oracle meta allTabs (n + 1) margin dm1 pm1 r2.1.2
    set r3 := drawPageScaffold oracle meta allTabs (n + 1) margin dm1 pm1 r2.1.2 with hr3
    obtain ⟨h4P, h4TB, h4HB, h4Lab, h4Card⟩ :=
      tabSectionsPart_spec B oracle allTabs (n + 1) margin dm1 pm1 t (margin + mm 30) r3.1
    set r4 := tabSectionsPart B oracle allTabs (n + 1) margin dm1 pm1 t (margin + mm 30) r3.1
      with hr4
    obtain ⟨hrP, hrTB, hrHB, hrLab, hrCard⟩ := ih (n + 2) dm1 pm1 r4.1.2 (by omega)
    set r6 := tabsLoop B oracle meta margin allTabs rest (n + 2) dm1 pm1 r4.1.2 with hr6
    have hout : tabsLoop B oracle meta margin allTabs (t :: rest) (n + 1) dm pm st =
        (r6.1, [Cmd.addPage] ++ r2.2 ++ r3.2 ++ r4.2 ++ footer B margin r4.1.2 ++ r6.2) := by
      simp only [tabsLoop, if_neg (Nat.succ_ne_zero n)]
    rw [hout]
    have hfoot := footer_inert B margin r4.1.2
    have hfootTB : (footer B margin r4.1.2).countP isTabBarCmd = 0 :=
      List.countP_eq_zero.mpr (fun c hc => by simp [(isInert_inert (hfoot c hc).1).1])
    have hfootAP : (footer B margin r4.1.2).countP isAddPageCmd = 0 :=
      List.countP_eq_zero.mpr (fun c hc => by simp [(isInert_inert (hfoot c hc).1).2.1])
    have hfootHB : (footer B margin r4.1.2).countP isHeaderBlock = 0 :=
      List.countP_eq_zero.mpr (fun c hc => by simp [(isInert_inert (hfoot c hc).1).2.2.1])
    have h2meta : ∀ c ∈ r2.2, isMetaCmd c = true := by
      intro c hc
      rw [hr2] at hc
      cases ho : oracle st1.att <;> simp [tryAttach, ho] at hc
      subst hc
      rfl
    have h2TB : r2.2.countP isTabBarCmd = 0 :=
      List.countP_eq_zero.mpr (fun c hc => by simp [(isMetaCmd_inert (h2meta c hc)).1])
    have h2AP : r2.2.countP isAddPageCmd = 0 :=
      List.countP_eq_zero.mpr (fun c hc => by simp [(isMetaCmd_inert (h2meta c hc)).2.1])
    have h2HB : r2.2.countP isHeaderBlock = 0 :=
      List.countP_eq_zero.mpr (fun c hc => by simp [(isMetaCmd_inert (h2meta c hc)).2.2.1])
    have h2page : r2.1.2.page = st.page + 1 := by
      rw [hr2]
      simp [tryAttach, hst1]
    refine ⟨?_, ?_, ?_, ?_, ?_⟩
    · simp only [List.countP_append, h2AP, hfootAP, List.countP_cons, List.countP_nil]
      norm_num [isAddPageCmd]
      omega
    · simp only [List.countP_append, h2TB, h2AP, h3TB, h3AP, hfootTB, hfootAP,
        List.countP_cons, List.countP_nil]
      norm_num [isTabBarCmd, isAddPageCmd]
      omega
    · simp only [List.countP_append, h2HB, h3HB, h4HB, hfootHB, hrHB,
        List.countP_cons, List.countP_nil]
      norm_num [isHeaderBlock]
      omega
    · intro ls a hmem
      simp only [List.mem_append, List.mem_singleton] at hmem
      rcases hmem with ((((hm | hm) | hm) | hm) | hm) | hm
      · cases hm
      · have := (isMetaCmd_inert (h2meta _ hm)).1
        simp [isTabBarCmd] at this
      · exact (h3Lab ls a hm).1
      · exact (h4Lab ls a hm).1
      · have := (isInert_inert (hfoot _ hm).1).1
        simp [isTabBarCmd] at this
      · exact hrLab ls a hm
    · intro hm c hc
      simp only [List.mem_append, List.mem_singleton] at hc
      rcases hc with ((((h | h) | h) | h) | h) | h
      · subst h
        intro x2 y2 w2 h2 heq
        cases heq
      · exact (isMetaCmd_inert (h2meta _ h)).2.2.2.1
      · exact h3Card c h
      · exact h4Card hm c h
      · exact (hfoot c h).2
      · exact hrCard hm c h

end HRMS

namespace HRMS

theorem generate_spec (B : Backend) (oracle : ℕ → Bool) (data : PdfDoc)
    (h : data.tabs ≠ []) :
    (generate B oracle data).1.1.page =
      1 + (generate B oracle data).2.countP isAddPageCmd ∧
    (generate B oracle data).2.countP isTabBarCmd =
      (generate B oracle data).2.countP isAddPageCmd + 1 ∧
    (generate B oracle data).2.countP isHeaderBlock = data.tabs.length ∧
    (∀ ls a, Cmd.tabBar ls a ∈ (generate B oracle data).2 →
      ls = data.tabs.map (fun t => t.label)) ∧
    (∀ c ∈ (generate B oracle data).2, CardChecked (mm 18) c) := by
  rcases hd : data.tabs with _ | ⟨t, rest⟩
  · exact absurd hd h
  set st0 : St := { page := 1, att := 0 } with hst0
  set pm1 : ℕ → Option ℕ := fun j => if j = 0 then some st0.page else (fun _ => none) j
    with hpm1
  set r2 := tryAttach oracle st0 (Cmd.namedDest (destName t 0)) with hr2
  set dm1 : ℕ → Option String :=
    if r2.1.1 then (fun j => if j = 0 then some (destName t 0) else (fun _ => none) j)
    else (fun _ => none) with hdm1
  obtain ⟨h3P, h3TB, h3AP, h3HB, h3Lab, h3Card⟩ :=
    drawPageScaffold_spec oracle data.meta (t :: rest) 0 (mm 18) dm1 pm1 r2.1.2
  set r3 := drawPageScaffold oracle data.meta (t :: rest) 0 (mm 18) dm1 pm1 r2.1.2 with hr3
  obtain ⟨h4P, h4TB, h4HB, h4Lab, h4Card⟩ :=
    tabSectionsPart_spec B oracle (t :: rest) 0 (mm 18) dm1 pm1 t (mm 18 + mm 30) r3.1
  set r4 := tabSectionsPart B oracle (t :: rest) 0 (mm 18) dm1 pm1 t (mm 18 + mm 30) r3.1
    with hr4
  obtain ⟨hrP, hrTB, hrHB, hrLab, hrCard⟩ :=
    tabsLoop_spec B oracle data.meta (mm 18) (t :: rest) rest 1 dm1 pm1 r4.1.2 (by omega)
  set r6 := tabsLoop B oracle data.meta (mm 18) (t :: rest) rest 1 dm1 pm1 r4.1.2 with hr6
  obtain ⟨haoP, haoMeta⟩ := addOutlines_spec B oracle r6.1.2.2 (t :: rest) r6.1.1
  set rao := addOutlines B oracle r6.1.2.2 (t :: rest) r6.1.1 with hrao
  have hout : generate B oracle data =
      ((rao.1, r6.1.2.1, r6.1.2.2),
       ([] ++ r2.2 ++ r3.2 ++ r4.2 ++ footer B (mm 18) r4.1.2 ++ r6.2) ++ rao.2) := by
    simp only [generate, hd, tabsLoop, reduceIte]
  rw [hout]
  have hfoot := footer_inert B (mm 18) r4.1.2
  have hfootTB : (footer B (mm 18) r4.1.2).countP isTabBarCmd = 0 :=
    List.countP_eq_zero.mpr (fun c hc => by simp [(isInert_inert (hfoot c hc).1).1])
  have hfootAP : (footer B (mm 18) r4.1.2).countP isAddPageCmd = 0 :=
    List.countP_eq_zero.mpr (fun c hc => by simp [(isInert_inert (hfoot c hc).1).2.1])
  have hfootHB : (footer B (mm 18) r4.1.2).countP isHeaderBlock = 0 :=
    List.countP_eq_zero.mpr (fun c hc => by simp [(isInert_inert (hfoot c hc).1).2.2.1])
  have h2meta : ∀ c ∈ r2.2, isMetaCmd c = true := by
    intro c hc
    rw [hr2] at hc
    cases ho : oracle st0.att <;> simp [tryAttach, ho] at hc
    subst hc
    rfl
  have h2TB : r2.2.countP isTabBarCmd = 0 :=
    List.countP_eq_zero.mpr (fun c hc => by simp [(isMetaCmd_inert (h2meta c hc)).1])
  have h2AP : r2.2.countP isAddPageCmd = 0 :=
    List.countP_eq_zero.mpr (fun c hc => by simp [(isMetaCmd_inert (h2meta c hc)).2.1])
  have h2HB : r2.2.countP isHeaderBlock = 0 :=
    List.countP_eq_zero.mpr (fun c hc => by simp [(isMetaCmd_inert (h2meta c hc)).2.2.1])
  have haoTB : rao.2.countP isTabBarCmd = 0 :=
    List.countP_eq_zero.mpr (fun c hc => by simp [(isMetaCmd_inert (haoMeta c hc)).1])
  have haoAP : rao.2.countP isAddPageCmd = 0 :=
    List.countP_eq_zero.mpr (fun c hc => by simp [(isMetaCmd_inert (haoMeta c hc)).2.1])
  have haoHB : rao.2.countP isHeaderBlock = 0 :=
    List.countP_eq_zero.mpr (fun c hc => by simp [(isMetaCmd_inert (haoMeta c hc)).2.2.1])
  have h2page : r2.1.2.page = 1 := by
    rw [hr2]
    simp [tryAttach, hst0]
  refine ⟨?_, ?_, ?_, ?_, ?_⟩
  · simp only [List.countP_append, h2AP, hfootAP, haoAP, List.countP_nil]
    omega
  · simp only [List.countP_append, h2TB, h2AP, h3TB, h3AP, hfootTB, hfootAP, haoTB, haoAP,
      List.countP_nil]
    omega
  · simp only [List.countP_append, h2HB, h3HB, h4HB, hfootHB, haoHB, hrHB, List.countP_nil,
      hd, List.length_cons]
    omega
  · intro ls a hmem
    simp only [List.mem_append, List.not_mem_nil, false_or] at hmem
    rcases hmem with ((((hm | hm) | hm) | hm) | hm) | hm
    · have := (isMetaCmd_inert (h2meta _ hm)).1
      simp [isTabBarCmd] at this
    · exact (h3Lab ls a hm).1
    · exact (h4Lab ls a hm).1
    · have := (isInert_inert (hfoot _ hm).1).1
      simp [isTabBarCmd] at this
    · exact hrLab ls a hm
    · have := (isMetaCmd_inert (haoMeta _ hm)).1
      simp [isTabBarCmd] at this
  · intro c hc
    simp only [List.mem_append, List.not_mem_nil, false_or] at hc
    rcases hc with ((((hm | hm) | hm) | hm) | hm) | hm
    · exact (isMetaCmd_inert (h2meta _ hm)).2.2.2.1
    · exact h3Card c hm
    · exact h4Card rfl c hm
    · exact (hfoot c hm).2
    · exact hrCard rfl c hm
    · exact (isMetaCmd_inert (haoMeta _ hm)).2.2.2.1

end HRMS

namespace HRMS

/-- C2 (amended): for every document with at least one tab, the number of
navigation-bar redraws equals the number of pages produced and every page's
navigation bar shows the same tab entries in the same order; but the full
page scaffold (header block plus navigation bar) is redrawn only once per
tab — pages started by an overflow break receive only the navigation bar. -/
theorem c2_scaffold_amended (B : Backend) (oracle : ℕ → Bool) (data : PdfDoc)
    (h : data.tabs ≠ []) :
    (generate B oracle data).2.countP isTabBarCmd = (generate B oracle data).1.1.page ∧
    (generate B oracle data).2.countP isHeaderBlock = data.tabs.length ∧
    ∀ ls a, Cmd.tabBar ls a ∈ (generate B oracle data).2 →
      ls = data.tabs.map (fun t => t.label) := by
  obtain ⟨hP, hTB, hHB, hLab, -⟩ := generate_spec B oracle data h
  refine ⟨by omega, hHB, hLab⟩

theorem c2_scaffold_amended_witness :
    c2Doc.tabs ≠ [] ∧
    ((generate (constBackend 500) allOk c2Doc).2.countP isTabBarCmd =
      (generate (constBackend 500) allOk c2Doc).1.1.page ∧
    (generate (constBackend 500) allOk c2Doc).2.countP isHeaderBlock = c2Doc.tabs.length ∧
    ∀ ls a, Cmd.tabBar ls a ∈ (generate (constBackend 500) allOk c2Doc).2 →
      ls = c2Doc.tabs.map (fun t => t.label)) :=
  ⟨by simp [c2Doc], c2_scaffold_amended (constBackend 500) allOk c2Doc (by simp [c2Doc])⟩

/-- C3 (amended): the drawn comment card's height equals the fixed
padding/header allowance 10 + 16 + 6 + 10 = 42 plus the measured wrapped
height of the body at the inner card width (and the loop advances by that
plus 2); but before each card the engine only checks that a fixed
approximate minimum of 110 points fits in the remaining space, so every
drawn comment card merely starts at a position admitting 110 further
points — a card taller than that can overflow past the bottom margin. -/
theorem c3_commentcard_amended :
    (∀ (B : Backend) (x y w : ℚ) (cm : PdfComment),
      Cmd.roundedRect x y w (10 + 16 + 6 + B.heightOfString cm.text (w - 10 * 2) + 10) 8 ∈
        (commentCard B x y w cm).2 ∧
      (commentCard B x y w cm).1 =
        10 + 16 + 6 + B.heightOfString cm.text (w - 10 * 2) + 10 + 2) ∧
    (∀ (B : Backend) (oracle : ℕ → Bool) (data : PdfDoc),
      ∀ c ∈ (generate B oracle data).2, CardChecked (mm 18) c) := by
  constructor
  · intro B x y w cm
    exact ⟨by simp [commentCard], by simp [commentCard]⟩
  · intro B oracle data c hc
    rcases hd : data.tabs with _ | ⟨t, rest⟩
    · have hout : (generate B oracle data).2 = [] := by
        simp only [generate, hd, tabsLoop, addOutlines, outlinesLoop, List.append_nil,
          List.nil_append, ite_self]
      rw [hout] at hc
      exact absurd hc (List.not_mem_nil c)
    · exact (generate_spec B oracle data (by rw [hd]; simp)).2.2.2.2 c hc

end HRMS

namespace HRMS

theorem c3_commentcard_amended_witness :
    Cmd.roundedRect (8258 / 127) (64654 / 127) (1477114 / 3175) 342 8 ∈
      (generate (constBackend 300) allOk c3Doc).2 ∧
    CardChecked (mm 18) (Cmd.roundedRect (8258 / 127) (64654 / 127) (1477114 / 3175) 342 8) := by
  have hmem : Cmd.roundedRect (8258 / 127) (64654 / 127) (1477114 / 3175) 342 8 ∈
      (generate (constBackend 300) allOk c3Doc).2 := by
    norm_num [generate, tabsLoop, drawSection, sectionBadges, optChip, sectionDescPart,
      sectionBehaviorsPart, sectionCommentsPart, tabSectionsPart, sectionsLoop, ensureSpace,
      drawTabs, pillLinks, pillLink, tryAttach, drawPageScaffold, drawHeader, sectionHeader,
      paragraph, commentCard, commentsLoop, behaviorsBlock, behaviorsList, chip, ratingBadge,
      footer, addOutlines, outlinesLoop, destName, jsOptStrOr, jsStrOr, joinPresent,
      constBackend, allOk, c3Doc, mm, A4_HEIGHT, A4_WIDTH]
  exact ⟨hmem, c3_commentcard_amended.2 (constBackend 300) allOk c3Doc _ hmem⟩

end HRMS

namespace HRMS

theorem drawTabs_vis (oracle : ℕ → Bool) (tabs : List PdfTab) (ai : ℕ) (margin : ℚ)
    (dm : ℕ → Option String) (pm : ℕ → Option ℕ) (st : St) :
    visualCmds (drawTabs oracle tabs ai margin dm pm st).2 =
      [Cmd.tabBar (tabs.map (fun t => t.label)) ai] ∧
    (drawTabs oracle tabs ai margin dm pm st).1.page = st.page := by
  have hp := pillLinks_spec oracle margin (margin - mm 6) (mm 18) (mm 3)
    (max (mm 28) ((A4_WIDTH - margin * 2 - mm 3 * ((tabs.length : ℚ) - 1)) / (tabs.length : ℚ)))
    dm pm tabs.length 0 st
  simp only [drawTabs]
  refine ⟨?_, hp.1⟩
  simp only [visualCmds, List.filter_cons]
  rw [List.filter_eq_nil_iff.mpr (fun c hc => by simp [hp.2 c hc])]
  rfl

theorem ensureSpace_vis (oracle : ℕ → Bool) (st : St) (y need margin : ℚ) (ai : ℕ)
    (tabs : List PdfTab) (dm : ℕ → Option String) (pm : ℕ → Option ℕ) :
    visualCmds (ensureSpace oracle st y need margin ai tabs dm pm).2 =
      (if y + need ≤ A4_HEIGHT - margin then [] else
        [Cmd.addPage, Cmd.tabBar (tabs.map (fun t => t.label)) ai]) ∧
    (ensureSpace oracle st y need margin ai tabs dm pm).1.1 =
      (if y + need ≤ A4_HEIGHT - margin then y else margin + mm 30) ∧
    (ensureSpace oracle st y need margin ai tabs dm pm).1.2.page =
      (if y + need ≤ A4_HEIGHT - margin then st.page else st.page + 1) := by
  by_cases hfit : y + need ≤ A4_HEIGHT - margin
  · simp [ensureSpace, hfit, visualCmds]
  · have hv := drawTabs_vis oracle tabs ai margin dm pm { st with page := st.page + 1 }
    have he : ensureSpace oracle st y need margin ai tabs dm pm =
        ((margin + mm 30,
          (drawTabs oracle tabs ai margin dm pm { st with page := st.page + 1 }).1),
         Cmd.addPage ::
          (drawTabs oracle tabs ai margin dm pm { st with page := st.page + 1 }).2) := by
      simp [ensureSpace, hfit]
    rw [he]
    refine ⟨?_, by simp [hfit], ?_⟩
    · rw [if_neg hfit]
      have h1 : visualCmds (Cmd.addPage :: (drawTabs oracle tabs ai margin dm pm
          { st with page := st.page + 1 }).2) =
          Cmd.addPage :: visualCmds (drawTabs oracle tabs ai margin dm pm
            { st with page := st.page + 1 }).2 := by
        simp [visualCmds, List.filter_cons, isMetaCmd]
      rw [h1, hv.1]
    · rw [if_neg hfit, hv.2]

end HRMS

namespace HRMS

theorem visualCmds_append (a b : List Cmd) :
    visualCmds (a ++ b) = visualCmds a ++ visualCmds b := by
  simp [visualCmds, List.filter_append]

theorem commentsLoop_vis (B : Backend) (tabs : List PdfTab) (ai : ℕ) (margin x width : ℚ) :
    ∀ cs cy (o1 o2 : ℕ → Bool) (dm1 dm2 : ℕ → Option String) (pm1 pm2 : ℕ → Option ℕ)
      (st1 st2 : St), st1.page = st2.page →
    (commentsLoop B o1 tabs ai margin dm1 pm1 x width cs cy st1).1.1 =
      (commentsLoop B o2 tabs ai margin dm2 pm2 x width cs cy st2).1.1 ∧
    (commentsLoop B o1 tabs ai margin dm1 pm1 x width cs cy st1).1.2.page =
      (commentsLoop B o2 tabs ai margin dm2 pm2 x width cs cy st2).1.2.page ∧
    visualCmds (commentsLoop B o1 tabs ai margin dm1 pm1 x width cs cy st1).2 =
      visualCmds (commentsLoop B o2 tabs ai margin dm2 pm2 x width cs cy st2).2 := by
  intro cs
  induction cs with
  | nil =>
    intro cy o1 o2 dm1 dm2 pm1 pm2 st1 st2 hpage
    simpa [commentsLoop] using hpage
  | cons cm rest ih =>
    intro cy o1 o2 dm1 dm2 pm1 pm2 st1 st2 hpage
    obtain ⟨hv1, hc1, hp1⟩ := ensureSpace_vis o1 st1 cy 110 margin ai tabs dm1 pm1
    obtain ⟨hv2, hc2, hp2⟩ := ensureSpace_vis o2 st2 cy 110 margin ai tabs dm2 pm2
    set e1 := ensureSpace o1 st1 cy 110 margin ai tabs dm1 pm1 with he1
    set e2 := ensureSpace o2 st2 cy 110 margin ai tabs dm2 pm2 with he2
    have hcur : e1.1.1 = e2.1.1 := by rw [hc1, hc2]
    have hpg : e1.1.2.page = e2.1.2.page := by rw [hp1, hp2, hpage]
    have hvv : visualCmds e1.2 = visualCmds e2.2 := by rw [hv1, hv2]
    set cc1 := commentCard B x e1.1.1 width cm with hcc1
    set cc2 := commentCard B x e2.1.1 width cm with hcc2
    have hcc : cc1 = cc2 := by rw [hcc1, hcc2, hcur]
    set r1 := commentsLoop B o1 tabs ai margin dm1 pm1 x width rest (e1.1.1 + cc1.1 + 8) e1.1.2
      with hr1
    set r2 := commentsLoop B o2 tabs ai margin dm2 pm2 x width rest (e2.1.1 + cc2.1 + 8) e2.1.2
      with hr2
    have harg : e1.1.1 + cc1.1 + 8 = e2.1.1 + cc2.1 + 8 := by rw [hcur, hcc]
    have hr2b : r2 = commentsLoop B o2 tabs ai margin dm2 pm2 x width rest
        (e1.1.1 + cc1.1 + 8) e2.1.2 := by rw [hr2, harg]
    obtain ⟨hh1, hh2, hh3⟩ :=
      ih (e1.1.1 + cc1.1 + 8) o1 o2 dm1 dm2 pm1 pm2 e1.1.2 e2.1.2 hpg
    have hout1 : commentsLoop B o1 tabs ai margin dm1 pm1 x width (cm :: rest) cy st1 =
        ((r1.1.1, r1.1.2), e1.2 ++ cc1.2 ++ r1.2) := by
      simp only [commentsLoop]
    have hout2 : commentsLoop B o2 tabs ai margin dm2 pm2 x width (cm :: rest) cy st2 =
        ((r2.1.1, r2.1.2), e2.2 ++ cc2.2 ++ r2.2) := by
      simp only [commentsLoop]
    rw [hout1, hout2, hr2b]
    refine ⟨hh1, hh2, ?_⟩
    simp only [visualCmds_append]
    rw [hvv, hh3, hcc]

end HRMS

namespace HRMS

theorem sectionCommentsPart_vis (B : Backend) (tabs : List PdfTab) (ai : ℕ)
    (margin x width : ℚ) (s : PdfSection) (cy : ℚ) (o1 o2 : ℕ → Bool)
    (dm1 dm2 : ℕ → Option String) (pm1 pm2 : ℕ → Option ℕ) (st1 st2 : St)
    (hpage : st1.page = st2.page) :
    (sectionCommentsPart B o1 tabs ai margin dm1 pm1 x width s cy st1).1.1 =
      (sectionCommentsPart B o2 tabs ai margin dm2 pm2 x width s cy st2).1.1 ∧
    (sectionCommentsPart B o1 tabs ai margin dm1 pm1 x width s cy st1).1.2.page =
      (sectionCommentsPart B o2 tabs ai margin dm2 pm2 x width s cy st2).1.2.page ∧
    visualCmds (sectionCommentsPart B o1 tabs ai margin dm1 pm1 x width s cy st1).2 =
      visualCmds (sectionCommentsPart B o2 tabs ai margin dm2 pm2 x width s cy st2).2 := by
  rcases hcm : s.comments with _ | cs
  · simpa [sectionCommentsPart, hcm] using hpage
  · simp only [sectionCommentsPart, hcm]
    exact commentsLoop_vis B tabs ai margin x width cs cy o1 o2 dm1 dm2 pm1 pm2 st1 st2 hpage

theorem drawSection_vis (B : Backend) (tabs : List PdfTab) (ai : ℕ) (margin : ℚ)
    (s : PdfSection) (o1 o2 : ℕ → Bool) (dm1 dm2 : ℕ → Option String)
    (pm1 pm2 : ℕ → Option ℕ) (st1 st2 : St) (hpage : st1.page = st2.page) :
    (drawSection B o1 tabs ai margin s dm1 pm1 st1).1.1 =
      (drawSection B o2 tabs ai margin s dm2 pm2 st2).1.1 ∧
    (drawSection B o1 tabs ai margin s dm1 pm1 st1).1.2.page =
      (drawSection B o2 tabs ai margin s dm2 pm2 st2).1.2.page ∧
    visualCmds (drawSection B o1 tabs ai margin s dm1 pm1 st1).2 =
      visualCmds (drawSection B o2 tabs ai margin s dm2 pm2 st2).2 := by
  obtain ⟨hv1, hc1, hp1⟩ := ensureSpace_vis o1 st1 (margin + mm 30) (mm 40) margin ai tabs dm1 pm1
  obtain ⟨hv2, hc2, hp2⟩ := ensureSpace_vis o2 st2 (margin + mm 30) (mm 40) margin ai tabs dm2 pm2
  set e1 := ensureSpace o1 st1 (margin + mm 30) (mm 40) margin ai tabs dm1 pm1 with he1
  set e2 := ensureSpace o2 st2 (margin + mm 30) (mm 40) margin ai tabs dm2 pm2 with he2
  have hcur : e1.1.1 = e2.1.1 := by rw [hc1, hc2]
  have hpg : e1.1.2.page = e2.1.2.page := by rw [hp1, hp2, hpage]
  have hvv : visualCmds e1.2 = visualCmds e2.2 := by rw [hv1, hv2]
  set d5a := sectionDescPart B s (margin + 14) (e1.1.1 + 14 + mm 8 + mm 10)
    (A4_WIDTH - margin * 2 - 14 * 2) with hd5a
  set d6a := sectionBehaviorsPart B s (margin + 14) d5a.1 (A4_WIDTH - margin * 2 - 14 * 2)
    with hd6a
  set r7a := sectionCommentsPart B o1 tabs ai margin dm1 pm1 (margin + 14)
    (A4_WIDTH - margin * 2 - 14 * 2) s d6a.1 e1.1.2 with hr7a
  set d5b := sectionDescPart B s (margin + 14) (e2.1.1 + 14 + mm 8 + mm 10)
    (A4_WIDTH - margin * 2 - 14 * 2) with hd5b
  set d6b := sectionBehaviorsPart B s (margin + 14) d5b.1 (A4_WIDTH - margin * 2 - 14 * 2)
    with hd6b
  set r7b := sectionCommentsPart B o2 tabs ai margin dm2 pm2 (margin + 14)
    (A4_WIDTH - margin * 2 - 14 * 2) s d6b.1 e2.1.2 with hr7b
  have hd5eq : d5a = d5b := by rw [hd5a, hd5b, hcur]
  have hd6eq : d6a = d6b := by rw [hd6a, hd6b, hd5eq]
  have hr7beq : r7b = sectionCommentsPart B o2 tabs ai margin dm2 pm2 (margin + 14)
      (A4_WIDTH - margin * 2 - 14 * 2) s d6a.1 e2.1.2 := by rw [hr7b, hd6eq]
  obtain ⟨hs1, hs2, hs3⟩ := sectionCommentsPart_vis B tabs ai margin (margin + 14)
    (A4_WIDTH - margin * 2 - 14 * 2) s d6a.1 o1 o2 dm1 dm2 pm1 pm2 e1.1.2 e2.1.2 hpg
  rw [← hr7beq] at hs1 hs2 hs3
  have hout1 : drawSection B o1 tabs ai margin s dm1 pm1 st1 =
      ((e1.1.1 + (r7a.1.1 - e1.1.1 + 14) + 14, r7a.1.2),
       e1.2 ++ sectionHeader (margin + 14) (e1.1.1 + 14) s ++
         sectionBadges B s (margin + 14) (e1.1.1 + 14 + mm 8) ++ d5a.2 ++ d6a.2 ++ r7a.2 ++
         [Cmd.roundedRect margin e1.1.1 (A4_WIDTH - margin * 2) (r7a.1.1 - e1.1.1 + 14) 12]) := by
    simp only [drawSection]
  have hout2 : drawSection B o2 tabs ai margin s dm2 pm2 st2 =
      ((e2.1.1 + (r7b.1.1 - e2.1.1 + 14) + 14, r7b.1.2),
       e2.2 ++ sectionHeader (margin + 14) (e2.1.1 + 14) s ++
         sectionBadges B s (margin + 14) (e2.1.1 + 14 + mm 8) ++ d5b.2 ++ d6b.2 ++ r7b.2 ++
         [Cmd.roundedRect margin e2.1.1 (A4_WIDTH - margin * 2) (r7b.1.1 - e2.1.1 + 14) 12]) := by
    simp only [drawSection]
  rw [hout1, hout2]
  refine ⟨by rw [hs1, hcur], hs2, ?_⟩
  simp only [visualCmds_append]
  rw [hvv, hcur, hd5eq, hd6eq, hs3, hs1]

end HRMS

namespace HRMS

theorem sectionsLoop_vis (B : Backend) (tabs : List PdfTab) (ai : ℕ) (margin : ℚ) :
    ∀ secs y (o1 o2 : ℕ → Bool) (dm1 dm2 : ℕ → Option String) (pm1 pm2 : ℕ → Option ℕ)
      (st1 st2 : St), st1.page = st2.page →
    (sectionsLoop B o1 tabs ai margin dm1 pm1 secs y st1).1.1 =
      (sectionsLoop B o2 tabs ai margin dm2 pm2 secs y st2).1.1 ∧
    (sectionsLoop B o1 tabs ai margin dm1 pm1 secs y st1).1.2.page =
      (sectionsLoop B o2 tabs ai margin dm2 pm2 secs y st2).1.2.page ∧
    visualCmds (sectionsLoop B o1 tabs ai margin dm1 pm1 secs y st1).2 =
      visualCmds (sectionsLoop B o2 tabs ai margin dm2 pm2 secs y st2).2 := by
  intro secs
  induction secs with
  | nil =>
    intro y o1 o2 dm1 dm2 pm1 pm2 st1 st2 hpage
    simpa [sectionsLoop] using hpage
  | cons s rest ih =>
    intro y o1 o2 dm1 dm2 pm1 pm2 st1 st2 hpage
    obtain ⟨hd1, hd2, hd3⟩ :=
      drawSection_vis B tabs ai margin s o1 o2 dm1 dm2 pm1 pm2 st1 st2 hpage
    set w1 := drawSection B o1 tabs ai margin s dm1 pm1 st1 with hw1
    set w2 := drawSection B o2 tabs ai margin s dm2 pm2 st2 with hw2
    set q1 := sectionsLoop B o1 tabs ai margin dm1 pm1 rest w1.1.1 w1.1.2 with hq1
    set q2 := sectionsLoop B o2 tabs ai margin dm2 pm2 rest w2.1.1 w2.1.2 with hq2
    have hq2b : q2 = sectionsLoop B o2 tabs ai margin dm2 pm2 rest w1.1.1 w2.1.2 := by
      rw [hq2, hd1]
    obtain ⟨hh1, hh2, hh3⟩ := ih w1.1.1 o1 o2 dm1 dm2 pm1 pm2 w1.1.2 w2.1.2 hd2
    rw [← hq2b] at hh1 hh2 hh3
    have hout1 : sectionsLoop B o1 tabs ai margin dm1 pm1 (s :: rest) y st1 =
        ((q1.1.1, q1.1.2), w1.2 ++ q1.2) := by
      simp only [sectionsLoop]
    have hout2 : sectionsLoop B o2 tabs ai margin dm2 pm2 (s :: rest) y st2 =
        ((q2.1.1, q2.1.2), w2.2 ++ q2.2) := by
      simp only [sectionsLoop]
    rw [hout1, hout2]
    refine ⟨hh1, hh2, ?_⟩
    simp only [visualCmds_append]
    rw [hd3, hh3]

theorem tabSectionsPart_vis (B : Backend) (tabs : List PdfTab) (ai : ℕ) (margin : ℚ)
    (t : PdfTab) (y0 : ℚ) (o1 o2 : ℕ → Bool) (dm1 dm2 : ℕ → Option String)
    (pm1 pm2 : ℕ → Option ℕ) (st1 st2 : St) (hpage : st1.page = st2.page) :
    (tabSectionsPart B o1 tabs ai margin dm1 pm1 t y0 st1).1.2.page =
      (tabSectionsPart B o2 tabs ai margin dm2 pm2 t y0 st2).1.2.page ∧
    visualCmds (tabSectionsPart B o1 tabs ai margin dm1 pm1 t y0 st1).2 =
      visualCmds (tabSectionsPart B o2 tabs ai margin dm2 pm2 t y0 st2).2 := by
  rcases hs : t.sections with _ | secs
  · simpa [tabSectionsPart, hs] using hpage
  · simp only [tabSectionsPart, hs]
    obtain ⟨h1, h2, h3⟩ :=
      sectionsLoop_vis B tabs ai margin secs y0 o1 o2 dm1 dm2 pm1 pm2 st1 st2 hpage
    exact ⟨h2, h3⟩

end HRMS

namespace HRMS

theorem drawPageScaffold_vis (meta : MetaInfo) (tabs : List PdfTab) (ai : ℕ) (margin : ℚ)
    (o1 o2 : ℕ → Bool) (dm1 dm2 : ℕ → Option String) (pm1 pm2 : ℕ → Option ℕ)
    (st1 st2 : St) (hpage : st1.page = st2.page) :
    (drawPageScaffold o1 meta tabs ai margin dm1 pm1 st1).1.page =
      (drawPageScaffold o2 meta tabs ai margin dm2 pm2 st2).1.page ∧
    visualCmds (drawPageScaffold o1 meta tabs ai margin dm1 pm1 st1).2 =
      visualCmds (drawPageScaffold o2 meta tabs ai margin dm2 pm2 st2).2 := by
  obtain ⟨ha1, ha2⟩ := drawTabs_vis o1 tabs ai margin dm1 pm1 st1
  obtain ⟨hb1, hb2⟩ := drawTabs_vis o2 tabs ai margin dm2 pm2 st2
  constructor
  · simp only [drawPageScaffold]
    rw [ha2, hb2, hpage]
  · simp only [drawPageScaffold, drawHeader, visualCmds_append]
    rw [ha1, hb1]

theorem tabsLoop_vis (B : Backend) (meta : MetaInfo) (margin : ℚ) (allTabs : List PdfTab) :
    ∀ rest idx (o1 o2 : ℕ → Bool) (dm1 dm2 : ℕ → Option String) (pm1 pm2 : ℕ → Option ℕ)
      (st1 st2 : St), st1.page = st2.page →
    (tabsLoop B o1 meta margin allTabs rest idx dm1 pm1 st1).1.1.page =
      (tabsLoop B o2 meta margin allTabs rest idx dm2 pm2 st2).1.1.page ∧
    visualCmds (tabsLoop B o1 meta margin allTabs rest idx dm1 pm1 st1).2 =
      visualCmds (tabsLoop B o2 meta margin allTabs rest idx dm2 pm2 st2).2 := by
  intro rest
  induction rest with
  | nil =>
    intro idx o1 o2 dm1 dm2 pm1 pm2 st1 st2 hpage
    simpa [tabsLoop] using hpage
  | cons t rest ih =>
    intro idx o1 o2 dm1 dm2 pm1 pm2 st1 st2 hpage
    set sa1 : St × List Cmd :=
      if idx = 0 then (st1, ([] : List Cmd))
      else ({ st1 with page := st1.page + 1 }, [Cmd.addPage]) with hsa1
    set sa2 : St × List Cmd :=
      if idx = 0 then (st2, ([] : List Cmd))
      else ({ st2 with page := st2.page + 1 }, [Cmd.addPage]) with hsa2
    have hsaP : sa1.1.page = sa2.1.page := by
      rw [hsa1, hsa2]
      by_cases h0 : idx = 0 <;> simp [h0, hpage]
    have hsaO : sa1.2 = sa2.2 := by
      rw [hsa1, hsa2]
      by_cases h0 : idx = 0 <;> simp [h0]
    set pm1a : ℕ → Option ℕ := fun j => if j = idx then some sa1.1.page else pm1 j with hpm1a
    set pm2a : ℕ → Option ℕ := fun j => if j = idx then some sa2.1.page else pm2 j with hpm2a
    set r2a := tryAttach o1 sa1.1 (Cmd.namedDest (destName t idx)) with hr2a
    set r2b := tryAttach o2 sa2.1 (Cmd.namedDest (destName t idx)) with hr2b
    have hr2aP : r2a.1.2.page = sa1.1.page := by rw [hr2a]; rfl
    have hr2bP : r2b.1.2.page = sa2.1.page := by rw [hr2b]; rfl
    have hr2av : visualCmds r2a.2 = [] := by
      rw [hr2a]
      cases ho : o1 sa1.1.att <;> simp [tryAttach, ho, visualCmds, isMetaCmd]
    have hr2bv : visualCmds r2b.2 = [] := by
      rw [hr2b]
      cases ho : o2 sa2.1.att <;> simp [tryAttach, ho, visualCmds, isMetaCmd]
    set dm1a : ℕ → Option String :=
      if r2a.1.1 then (fun j => if j = idx then some (destName t idx) else dm1 j) else dm1
      with hdm1a
    set dm2a : ℕ → Option String :=
      if r2b.1.1 then (fun j => if j = idx then some (destName t idx) else dm2 j) else dm2
      with hdm2a
    have hpg2 : r2a.1.2.page = r2b.1.2.page := by rw [hr2aP, hr2bP, hsaP]
    obtain ⟨h3P, h3V⟩ := drawPageScaffold_vis meta allTabs idx margin o1 o2 dm1a dm2a
      pm1a pm2a r2a.1.2 r2b.1.2 hpg2
    set r3a := drawPageScaffold o1 meta allTabs idx margin dm1a pm1a r2a.1.2 with hr3a
    set r3b := drawPageScaffold o2 meta allTabs idx margin dm2a pm2a r2b.1.2 with hr3b
    obtain ⟨h4P, h4V⟩ := tabSectionsPart_vis B allTabs idx margin t (margin + mm 30) o1 o2
      dm1a dm2a pm1a pm2a r3a.1 r3b.1 h3P
    set r4a := tabSectionsPart B o1 allTabs idx margin dm1a pm1a t (margin + mm 30) r3a.1
      with hr4a
    set r4b := tabSectionsPart B o2 allTabs idx margin dm2a pm2a t (margin + mm 30) r3b.1
      with hr4b
    have hfootEq : footer B margin r4a.1.2 = footer B margin r4b.1.2 := by
      simp only [footer]
      rw [h4P]
    obtain ⟨hrP, hrV⟩ := ih (idx + 1) o1 o2 dm1a dm2a pm1a pm2a r4a.1.2 r4b.1.2 h4P
    set r6a := tabsLoop B o1 meta margin allTabs rest (idx + 1) dm1a pm1a r4a.1.2 with hr6a
    set r6b := tabsLoop B o2 meta margin allTabs rest (idx + 1) dm2a pm2a r4b.1.2 with hr6b
    have hout1 : tabsLoop B o1 meta margin allTabs (t :: rest) idx dm1 pm1 st1 =
        (r6a.1, sa1.2 ++ r2a.2 ++ r3a.2 ++ r4a.2 ++ footer B margin r4a.1.2 ++ r6a.2) := by
      simp only [tabsLoop]
    have hout2 : tabsLoop B o2 meta margin allTabs (t :: rest) idx dm2 pm2 st2 =
        (r6b.1, sa2.2 ++ r2b.2 ++ r3b.2 ++ r4b.2 ++ footer B margin r4b.1.2 ++ r6b.2) := by
      simp only [tabsLoop]
    rw [hout1, hout2]
    refine ⟨hrP, ?_⟩
    simp only [visualCmds_append]
    rw [hsaO, hr2av, hr2bv, h3V, h4V, hfootEq, hrV]

end HRMS

namespace HRMS

/-- C7: link, named-destination and outline creation are best-effort.  For
every pattern of backend rejections (exceptions) during the attachment of
navigation metadata, the engine continues: it draws exactly the same visual
content on exactly the same pages as the failure-free run, differing only
in the navigation metadata recorded, and document generation completes. -/
theorem c7_navigation_best_effort (B : Backend) (oracle : ℕ → Bool) (data : PdfDoc) :
    visualCmds (generate B oracle data).2 = visualCmds (generate B allOk data).2 ∧
    (generate B oracle data).1.1.page = (generate B allOk data).1.1.page := by
  obtain ⟨hP, hV⟩ := tabsLoop_vis B data.meta (mm 18) data.tabs data.tabs 0 oracle allOk
    (fun _ => none) (fun _ => none) (fun _ => none) (fun _ => none)
    { page := 1, att := 0 } { page := 1, att := 0 } rfl
  set ta := tabsLoop B oracle data.meta (mm 18) data.tabs data.tabs 0 (fun _ => none)
    (fun _ => none) { page := 1, att := 0 } with hta
  set tb := tabsLoop B allOk data.meta (mm 18) data.tabs data.tabs 0 (fun _ => none)
    (fun _ => none) { page := 1, att := 0 } with htb
  obtain ⟨hoaP, hoaM⟩ := addOutlines_spec B oracle ta.1.2.2 data.tabs ta.1.1
  obtain ⟨hobP, hobM⟩ := addOutlines_spec B allOk tb.1.2.2 data.tabs tb.1.1
  have hmetaNil : ∀ l : List Cmd, (∀ c ∈ l, isMetaCmd c = true) → visualCmds l = [] :=
    fun l h => List.filter_eq_nil_iff.mpr (fun c hc => by simp [h c hc])
  have hout1 : generate B oracle data =
      (((addOutlines B oracle ta.1.2.2 data.tabs ta.1.1).1, ta.1.2.1, ta.1.2.2),
       ta.2 ++ (addOutlines B oracle ta.1.2.2 data.tabs ta.1.1).2) := by
    simp only [generate]
  have hout2 : generate B allOk data =
      (((addOutlines B allOk tb.1.2.2 data.tabs tb.1.1).1, tb.1.2.1, tb.1.2.2),
       tb.2 ++ (addOutlines B allOk tb.1.2.2 data.tabs tb.1.1).2) := by
    simp only [generate]
  rw [hout1, hout2]
  constructor
  · simp only [visualCmds_append]
    rw [hV, hmetaNil _ hoaM, hmetaNil _ hobM]
  · rw [hoaP, hobP, hP]

end HRMS

namespace HRMS

theorem isInert_notOutline {c : Cmd} (h : isInert c = true) : isOutlineCmd c = false := by
  cases c <;> simp_all [isInert, isOutlineCmd]

theorem isLinkCmd_notOutline {c : Cmd} (h : isLinkCmd c = true) : isOutlineCmd c = false := by
  cases c <;> simp_all [isLinkCmd, isOutlineCmd]

theorem pillLink_links (oracle : ℕ → Bool) (dm : ℕ → Option String) (pm : ℕ → Option ℕ)
    (idx : ℕ) (x y w h : ℚ) (st : St) :
    ∀ c ∈ (pillLink oracle dm pm idx x y w h st).2, isLinkCmd c = true := by
  rcases hdm : dm idx with _ | dest
  · rcases hpm : pm idx with _ | p
    · simp [pillLink, hdm, hpm]
    · cases ho : oracle st.att <;> simp [pillLink, hdm, hpm, tryAttach, ho, isLinkCmd]
  · cases ho : oracle st.att <;> simp [pillLink, hdm, tryAttach, ho, isLinkCmd]

theorem pillLinks_links (oracle : ℕ → Bool) (m top barH gap eachW : ℚ)
    (dm : ℕ → Option String) (pm : ℕ → Option ℕ) :
    ∀ count idx st, ∀ c ∈ (pillLinks oracle m top barH gap eachW dm pm count idx st).2,
      isLinkCmd c = true := by
  intro count
  induction count with
  | zero => intro idx st; simp [pillLinks]
  | succ n ih =>
    intro idx st c hc
    simp only [pillLinks, List.mem_append] at hc
    rcases hc with hc | hc
    · exact pillLink_links oracle dm pm idx _ _ _ _ st c hc
    · exact ih (idx + 1) _ c hc

theorem drawTabs_noOutline (oracle : ℕ → Bool) (tabs : List PdfTab) (ai : ℕ) (margin : ℚ)
    (dm : ℕ → Option String) (pm : ℕ → Option ℕ) (st : St) :
    ∀ c ∈ (drawTabs oracle tabs ai margin dm pm st).2, isOutlineCmd c = false := by
  intro c hc
  simp only [drawTabs, List.mem_cons] at hc
  rcases hc with rfl | hc
  · rfl
  · exact isLinkCmd_notOutline (pillLinks_links oracle _ _ _ _ _ dm pm tabs.length 0 st c hc)

theorem ensureSpace_noOutline (oracle : ℕ → Bool) (st : St) (y need margin : ℚ) (ai : ℕ)
    (tabs : List PdfTab) (dm : ℕ → Option String) (pm : ℕ → Option ℕ) :
    ∀ c ∈ (ensureSpace oracle st y need margin ai tabs dm pm).2, isOutlineCmd c = false := by
  intro c hc
  by_cases hfit : y + need ≤ A4_HEIGHT - margin
  · simp [ensureSpace, hfit] at hc
  · have he : (ensureSpace oracle st y need margin ai tabs dm pm).2 =
        Cmd.addPage ::
          (drawTabs oracle tabs ai margin dm pm { st with page := st.page + 1 }).2 := by
      simp [ensureSpace, hfit]
    rw [he] at hc
    rcases List.mem_cons.mp hc with rfl | hc
    · rfl
    · exact drawTabs_noOutline oracle tabs ai margin dm pm _ c hc

theorem commentsLoop_noOutline (B : Backend) (oracle : ℕ → Bool) (tabs : List PdfTab)
    (ai : ℕ) (margin : ℚ) (dm : ℕ → Option String) (pm : ℕ → Option ℕ) (x width : ℚ) :
    ∀ cs cy st, ∀ c ∈ (commentsLoop B oracle tabs ai margin dm pm x width cs cy st).2,
      isOutlineCmd c = false := by
  intro cs
  induction cs with
  | nil => intro cy st c hc; simp [commentsLoop] at hc
  | cons cm rest ih =>
    intro cy st c hc
    simp only [commentsLoop, List.mem_append] at hc
    rcases hc with (hc | hc) | hc
    · exact ensureSpace_noOutline oracle st cy 110 margin ai tabs dm pm c hc
    · exact isInert_notOutline ((commentCard_spec B x _ width cm).2 c hc).1
    · exact ih _ _ c hc

theorem drawSection_noOutline (B : Backend) (oracle : ℕ → Bool) (tabs : List PdfTab)
    (ai : ℕ) (margin : ℚ) (s : PdfSection) (dm : ℕ → Option String) (pm : ℕ → Option ℕ)
    (st : St) :
    ∀ c ∈ (drawSection B oracle tabs ai margin s dm pm st).2, isOutlineCmd c = false := by
  intro c hc
  set e1 := ensureSpace oracle st (margin + mm 30) (mm 40) margin ai tabs dm pm with he1
  set d5 := sectionDescPart B s (margin + 14) (e1.1.1 + 14 + mm 8 + mm 10)
    (A4_WIDTH - margin * 2 - 14 * 2) with hd5
  set d6 := sectionBehaviorsPart B s (margin + 14) d5.1 (A4_WIDTH - margin * 2 - 14 * 2)
    with hd6
  set r7 := sectionCommentsPart B oracle tabs ai margin dm pm (margin + 14)
    (A4_WIDTH - margin * 2 - 14 * 2) s d6.1 e1.1.2 with hr7
  have hout : (drawSection B oracle tabs ai margin s dm pm st).2 =
      e1.2 ++ sectionHeader (margin + 14) (e1.1.1 + 14) s ++
        sectionBadges B s (margin + 14) (e1.1.1 + 14 + mm 8) ++ d5.2 ++ d6.2 ++ r7.2 ++
        [Cmd.roundedRect margin e1.1.1 (A4_WIDTH - margin * 2) (r7.1.1 - e1.1.1 + 14) 12] := by
    simp only [drawSection]
  rw [hout] at hc
  simp only [List.mem_append, List.mem_singleton] at hc
  rcases hc with ((((((h | h) | h) | h) | h) | h) | h)
  · exact ensureSpace_noOutline oracle st _ _ margin ai tabs dm pm c h
  · exact isInert_notOutline (sectionHeader_inert _ _ s c h).1
  · exact isInert_notOutline (sectionBadges_inert B s _ _ c h).1
  · exact isInert_notOutline (sectionDescPart_inert B s _ _ _ c h).1
  · exact isInert_notOutline (sectionBehaviorsPart_inert B s _ _ _ c h).1
  · rcases hcm : s.comments with _ | cs
    · rw [hr7] at h
      simp [sectionCommentsPart, hcm] at h
    · rw [hr7] at h
      simp only [sectionCommentsPart, hcm] at h
      exact commentsLoop_noOutline B oracle tabs ai margin dm pm _ _ cs _ _ c h
  · subst h
    rfl

theorem sectionsLoop_noOutline (B : Backend) (oracle : ℕ → Bool) (tabs : List PdfTab)
    (ai : ℕ) (margin : ℚ) (dm : ℕ → Option String) (pm : ℕ → Option ℕ) :
    ∀ secs y st, ∀ c ∈ (sectionsLoop B oracle tabs ai margin dm pm secs y st).2,
      isOutlineCmd c = false := by
  intro secs
  induction secs with
  | nil => intro y st c hc; simp [sectionsLoop] at hc
  | cons s rest ih =>
    intro y st c hc
    simp only [sectionsLoop, List.mem_append] at hc
    rcases hc with hc | hc
    · exact drawSection_noOutline B oracle tabs ai margin s dm pm st c hc
    · exact ih _ _ c hc

theorem tabSectionsPart_noOutline (B : Backend) (oracle : ℕ → Bool) (tabs : List PdfTab)
    (ai : ℕ) (margin : ℚ) (dm : ℕ → Option String) (pm : ℕ → Option ℕ) (t : PdfTab)
    (y0 : ℚ) (st : St) :
    ∀ c ∈ (tabSectionsPart B oracle tabs ai margin dm pm t y0 st).2,
      isOutlineCmd c = false := by
  intro c hc
  rcases hs : t.sections with _ | secs
  · simp [tabSectionsPart, hs] at hc
  · simp only [tabSectionsPart, hs] at hc
    exact sectionsLoop_noOutline B oracle tabs ai margin dm pm secs y0 st c hc

theorem tabsLoop_noOutline (B : Backend) (oracle : ℕ → Bool) (meta : MetaInfo) (margin : ℚ)
    (allTabs : List PdfTab) :
    ∀ rest idx dm pm st, ∀ c ∈ (tabsLoop B oracle meta margin allTabs rest idx dm pm st).2,
      isOutlineCmd c = false := by
  intro rest
  induction rest with
  | nil => intro idx dm pm st c hc; simp [tabsLoop] at hc
  | cons t rest ih =>
    intro idx dm pm st c hc
    set sa : St × List Cmd :=
      if idx = 0 then (st, ([] : List Cmd))
      else ({ st with page := st.page + 1 }, [Cmd.addPage]) with hsa
    set pm1 : ℕ → Option ℕ := fun j => if j = idx then some sa.1.page else pm j with hpm1
    set r2 := tryAttach oracle sa.1 (Cmd.namedDest (destName t idx)) with hr2
    set dm1 : ℕ → Option String :=
      if r2.1.1 then (fun j => if j = idx then some (destName t idx) else dm j) else dm
      with hdm1
    set r3 := drawPageScaffold oracle meta allTabs idx margin dm1 pm1 r2.1.2 with hr3
    set r4 := tabSectionsPart B oracle allTabs idx margin dm1 pm1 t (margin + mm 30) r3.1
      with hr4
    have hout : (tabsLoop B oracle meta margin allTabs (t :: rest) idx dm pm st).2 =
        sa.2 ++ r2.2 ++ r3.2 ++ r4.2 ++ footer B margin r4.1.2 ++
          (tabsLoop B oracle meta margin allTabs rest (idx + 1) dm1 pm1 r4.1.2).2 := by
      simp only [tabsLoop]
    rw [hout] at hc
    simp only [List.mem_append] at hc
    rcases hc with ((((h | h) | h) | h) | h) | h
    · rw [hsa] at h
      by_cases h0 : idx = 0 <;> simp [h0] at h
      subst h
      rfl
    · rw [hr2] at h
      cases ho : oracle sa.1.att <;> simp [tryAttach, ho] at h
      subst h
      rfl
    · rw [hr3] at h
      simp only [drawPageScaffold, drawHeader, List.singleton_append] at h
      rcases List.mem_cons.mp h with rfl | h
      · rfl
      · exact drawTabs_noOutline oracle allTabs idx margin dm1 pm1 r2.1.2 c h
    · exact tabSectionsPart_noOutline B oracle allTabs idx margin dm1 pm1 t _ r3.1 c h
    · exact isInert_notOutline (footer_inert B margin r4.1.2 c h).1
    · exact ih (idx + 1) dm1 pm1 r4.1.2 c h

end HRMS

namespace HRMS

theorem fspGo_append (i : ℕ) :
    ∀ (A Bs : List Cmd) (p : ℕ),
    fspGo i (A ++ Bs) p =
      (match fspGo i A p with
       | some q => some q
       | none => fspGo i Bs (p + A.countP isAddPageCmd)) := by
  intro A
  induction A with
  | nil => intro Bs p; simp [fspGo]
  | cons c rest ih =>
    intro Bs p
    cases c with
    | addPage =>
      rw [List.cons_append]
      show fspGo i (Cmd.addPage :: (rest ++ Bs)) p = _
      rw [show fspGo i (Cmd.addPage :: (rest ++ Bs)) p = fspGo i (rest ++ Bs) (p + 1) from rfl,
        ih Bs (p + 1)]
      have : (Cmd.addPage :: rest).countP isAddPageCmd = rest.countP isAddPageCmd + 1 := by
        rw [List.countP_cons_of_pos _ _ (by rfl)]
      rw [show fspGo i (Cmd.addPage :: rest) p = fspGo i rest (p + 1) from rfl, this]
      cases fspGo i rest (p + 1) <;> simp <;> congr 1 <;> omega
    | tabBar ls a =>
      rw [List.cons_append]
      by_cases ha : a = i
      · rw [show fspGo i (Cmd.tabBar ls a :: (rest ++ Bs)) p = some p from by
          simp [fspGo, ha]]
        rw [show fspGo i (Cmd.tabBar ls a :: rest) p = some p from by simp [fspGo, ha]]
      · rw [show fspGo i (Cmd.tabBar ls a :: (rest ++ Bs)) p = fspGo i (rest ++ Bs) p from by
          simp [fspGo, ha]]
        rw [show fspGo i (Cmd.tabBar ls a :: rest) p = fspGo i rest p from by
          simp [fspGo, ha]]
        rw [ih Bs p]
        have : (Cmd.tabBar ls a :: rest).countP isAddPageCmd = rest.countP isAddPageCmd := by
          rw [List.countP_cons_of_neg _ _ (by simp [isAddPageCmd])]
        rw [this]
    | headerBlock t inf =>
      rw [List.cons_append]
      rw [show fspGo i (Cmd.headerBlock t inf :: (rest ++ Bs)) p = fspGo i (rest ++ Bs) p
        from rfl]
      rw [show fspGo i (Cmd.headerBlock t inf :: rest) p = fspGo i rest p from rfl, ih Bs p]
      rw [show (Cmd.headerBlock t inf :: rest).countP isAddPageCmd =
        rest.countP isAddPageCmd from by
        rw [List.countP_cons_of_neg _ _ (by simp [isAddPageCmd])]]
    | link x y w h tg =>
      rw [List.cons_append]
      rw [show fspGo i (Cmd.link x y w h tg :: (rest ++ Bs)) p = fspGo i (rest ++ Bs) p
        from rfl]
      rw [show fspGo i (Cmd.link x y w h tg :: rest) p = fspGo i rest p from rfl, ih Bs p]
      rw [show (Cmd.link x y w h tg :: rest).countP isAddPageCmd =
        rest.countP isAddPageCmd from by
        rw [List.countP_cons_of_neg _ _ (by simp [isAddPageCmd])]]
    | namedDest n =>
      rw [List.cons_append]
      rw [show fspGo i (Cmd.namedDest n :: (rest ++ Bs)) p = fspGo i (rest ++ Bs) p from rfl]
      rw [show fspGo i (Cmd.namedDest n :: rest) p = fspGo i rest p from rfl, ih Bs p]
      rw [show (Cmd.namedDest n :: rest).countP isAddPageCmd = rest.countP isAddPageCmd from by
        rw [List.countP_cons_of_neg _ _ (by simp [isAddPageCmd])]]
    | outlineItem lb pg =>
      rw [List.cons_append]
      rw [show fspGo i (Cmd.outlineItem lb pg :: (rest ++ Bs)) p = fspGo i (rest ++ Bs) p
        from rfl]
      rw [show fspGo i (Cmd.outlineItem lb pg :: rest) p = fspGo i rest p from rfl, ih Bs p]
      rw [show (Cmd.outlineItem lb pg :: rest).countP isAddPageCmd =
        rest.countP isAddPageCmd from by
        rw [List.countP_cons_of_neg _ _ (by simp [isAddPageCmd])]]
    | rect x y w h =>
      rw [List.cons_append]
      rw [show fspGo i (Cmd.rect x y w h :: (rest ++ Bs)) p = fspGo i (rest ++ Bs) p from rfl]
      rw [show fspGo i (Cmd.rect x y w h :: rest) p = fspGo i rest p from rfl, ih Bs p]
      rw [show (Cmd.rect x y w h :: rest).countP isAddPageCmd = rest.countP isAddPageCmd from by
        rw [List.countP_cons_of_neg _ _ (by simp [isAddPageCmd])]]
    | roundedRect x y w h r =>
      rw [List.cons_append]
      rw [show fspGo i (Cmd.roundedRect x y w h r :: (rest ++ Bs)) p = fspGo i (rest ++ Bs) p
        from rfl]
      rw [show fspGo i (Cmd.roundedRect x y w h r :: rest) p = fspGo i rest p from rfl, ih Bs p]
      rw [show (Cmd.roundedRect x y w h r :: rest).countP isAddPageCmd =
        rest.countP isAddPageCmd from by
        rw [List.countP_cons_of_neg _ _ (by simp [isAddPageCmd])]]
    | textCmd s x y =>
      rw [List.cons_append]
      rw [show fspGo i (Cmd.textCmd s x y :: (rest ++ Bs)) p = fspGo i (rest ++ Bs) p from rfl]
      rw [show fspGo i (Cmd.textCmd s x y :: rest) p = fspGo i rest p from rfl, ih Bs p]
      rw [show (Cmd.textCmd s x y :: rest).countP isAddPageCmd =
        rest.countP isAddPageCmd from by
        rw [List.countP_cons_of_neg _ _ (by simp [isAddPageCmd])]]

end HRMS

namespace HRMS

theorem fspGo_none_of_noBar (j : ℕ) :
    ∀ (l : List Cmd) (p : ℕ), (∀ ls a, Cmd.tabBar ls a ∈ l → a ≠ j) → fspGo j l p = none := by
  intro l
  induction l with
  | nil => intro p _; rfl
  | cons c rest ih =>
    intro p h
    cases c with
    | addPage => exact ih (p + 1) (fun ls a hm => h ls a (List.mem_cons_of_mem _ hm))
    | tabBar ls a =>
      have ha : a ≠ j := h ls a (List.mem_cons_self _ _)
      rw [show fspGo j (Cmd.tabBar ls a :: rest) p = fspGo j rest p from by simp [fspGo, ha]]
      exact ih p (fun ls2 a2 hm => h ls2 a2 (List.mem_cons_of_mem _ hm))
    | headerBlock t inf =>
      exact ih p (fun ls a hm => h ls a (List.mem_cons_of_mem _ hm))
    | link x y w hh tg =>
      exact ih p (fun ls a hm => h ls a (List.mem_cons_of_mem _ hm))
    | namedDest n =>
      exact ih p (fun ls a hm => h ls a (List.mem_cons_of_mem _ hm))
    | outlineItem lb pg =>
      exact ih p (fun ls a hm => h ls a (List.mem_cons_of_mem _ hm))
    | rect x y w hh =>
      exact ih p (fun ls a hm => h ls a (List.mem_cons_of_mem _ hm))
    | roundedRect x y w hh r =>
      exact ih p (fun ls a hm => h ls a (List.mem_cons_of_mem _ hm))
    | textCmd s x y =>
      exact ih p (fun ls a hm => h ls a (List.mem_cons_of_mem _ hm))

end HRMS

namespace HRMS

theorem fspGo_cons_header (j : ℕ) (a b : String) (l : List Cmd) (p : ℕ) :
    fspGo j (Cmd.headerBlock a b :: l) p = fspGo j l p := rfl

theorem fspGo_cons_tabBar_ne (j : ℕ) (ls : List String) (a : ℕ) (l : List Cmd) (p : ℕ)
    (h : a ≠ j) : fspGo j (Cmd.tabBar ls a :: l) p = fspGo j l p := by
  simp [fspGo, h]

theorem fspGo_append_none (i : ℕ) (A Bs : List Cmd) (p : ℕ) (h : fspGo i A p = none) :
    fspGo i (A ++ Bs) p = fspGo i Bs (p + A.countP isAddPageCmd) := by
  rw [fspGo_append, h]

theorem fspGo_append_some (i : ℕ) (A Bs : List Cmd) (p q : ℕ) (h : fspGo i A p = some q) :
    fspGo i (A ++ Bs) p = some q := by
  rw [fspGo_append, h]

theorem tabsLoop_fsp (B : Backend) (oracle : ℕ → Bool) (meta : MetaInfo) (margin : ℚ)
    (allTabs : List PdfTab) :
    ∀ rest idx (dm : ℕ → Option String) (pm : ℕ → Option ℕ) (st : St),
    (∀ j, j < idx → (tabsLoop B oracle meta margin allTabs rest idx dm pm st).1.2.2 j = pm j) ∧
    (∀ j, idx ≤ j → j < idx + rest.length →
      fspGo j (tabsLoop B oracle meta margin allTabs rest idx dm pm st).2 st.page =
        (tabsLoop B oracle meta margin allTabs rest idx dm pm st).1.2.2 j) ∧
    (∀ j, idx + rest.length ≤ j →
      fspGo j (tabsLoop B oracle meta margin allTabs rest idx dm pm st).2 st.page = none ∧
      (tabsLoop B oracle meta margin allTabs rest idx dm pm st).1.2.2 j = pm j) := by
  intro rest
  induction rest with
  | nil =>
    intro idx dm pm st
    refine ⟨fun j _ => rfl, fun j hj1 hj2 => by simp only [List.length_nil] at hj2; omega,
      fun j _ => ⟨rfl, rfl⟩⟩
  | cons t rest ih =>
    intro idx dm pm st
    set sa : St × List Cmd :=
      if idx = 0 then (st, ([] : List Cmd))
      else ({ st with page := st.page + 1 }, [Cmd.addPage]) with hsa
    set pm1 : ℕ → Option ℕ := fun j => if j = idx then some sa.1.page else pm j with hpm1
    set r2 := tryAttach oracle sa.1 (Cmd.namedDest (destName t idx)) with hr2
    set dm1 : ℕ → Option String :=
      if r2.1.1 then (fun j => if j = idx then some (destName t idx) else dm j) else dm
      with hdm1
    obtain ⟨h3P, h3TB, h3AP, h3HB, h3Lab, h3Card⟩ :=
      drawPageScaffold_spec oracle meta allTabs idx margin dm1 pm1 r2.1.2
    set r3 := drawPageScaffold oracle meta allTabs idx margin dm1 pm1 r2.1.2 with hr3
    obtain ⟨h4P, h4TB, h4HB, h4Lab, h4Card⟩ :=
      tabSectionsPart_spec B oracle allTabs idx margin dm1 pm1 t (margin + mm 30) r3.1
    set r4 := tabSectionsPart B oracle allTabs idx margin dm1 pm1 t (margin + mm 30) r3.1
      with hr4
    obtain ⟨ih1, ih2, ih3⟩ := ih (idx + 1) dm1 pm1 r4.1.2
    set r6 := tabsLoop B oracle meta margin allTabs rest (idx + 1) dm1 pm1 r4.1.2 with hr6
    have hout : tabsLoop B oracle meta margin allTabs (t :: rest) idx dm pm st =
        (r6.1, sa.2 ++ r2.2 ++ r3.2 ++ r4.2 ++ footer B margin r4.1.2 ++ r6.2) := by
      simp only [tabsLoop]
    rw [hout]
    have hsa_f : ∀ (j p : ℕ), fspGo j sa.2 p = none := by
      intro j p
      rw [hsa]
      by_cases h0 : idx = 0 <;> simp [h0, fspGo]
    have hsa_c : sa.1.page = st.page + sa.2.countP isAddPageCmd := by
      rw [hsa]
      by_cases h0 : idx = 0 <;> simp [h0, isAddPageCmd]
    have hr2_f : ∀ (j p : ℕ), fspGo j r2.2 p = none := by
      intro j p
      rw [hr2]
      cases ho : oracle sa.1.att <;> simp [tryAttach, ho, fspGo]
    have hr2_c : r2.2.countP isAddPageCmd = 0 := by
      rw [hr2]
      cases ho : oracle sa.1.att <;> simp [tryAttach, ho, isAddPageCmd]
    have hr2_p : r2.1.2.page = sa.1.page := by
      rw [hr2]
      rfl
    have hr3struct : r3.2 =
        Cmd.headerBlock (jsOptStrOr meta.reportTitle "Assessment Stage")
          (joinPresent " • " [(meta.employee.getD ⟨none, none, none⟩).name,
            (meta.employee.getD ⟨none, none, none⟩).code,
            (meta.employee.getD ⟨none, none, none⟩).title]) ::
        Cmd.tabBar (allTabs.map (fun tb => tb.label)) idx ::
        (pillLinks oracle margin (margin - mm 6) (mm 18) (mm 3)
          (max (mm 28) ((A4_WIDTH - margin * 2 - mm 3 * ((allTabs.length : ℚ) - 1)) /
            (allTabs.length : ℚ)))
          dm1 pm1 allTabs.length 0 r2.1.2).2 := by
      simp only [hr3, drawPageScaffold, drawHeader, drawTabs, List.singleton_append]
    have hr3_f_eq : ∀ p, fspGo idx r3.2 p = some p := by
      intro p
      rw [hr3struct]
      simp [fspGo]
    have hr3_f_ne : ∀ (j p : ℕ), j ≠ idx → fspGo j r3.2 p = none := by
      intro j p hj
      rw [hr3struct, fspGo_cons_header, fspGo_cons_tabBar_ne j _ _ _ _ (fun h => hj h.symm)]
      refine fspGo_none_of_noBar j _ p (fun ls a hm => ?_)
      have := pillLinks_links oracle margin (margin - mm 6) (mm 18) (mm 3)
        (max (mm 28) ((A4_WIDTH - margin * 2 - mm 3 * ((allTabs.length : ℚ) - 1)) /
          (allTabs.length : ℚ))) dm1 pm1 allTabs.length 0 r2.1.2 _ hm
      simp [isLinkCmd] at this
    have hr4_f : ∀ (j p : ℕ), j ≠ idx → fspGo j r4.2 p = none := by
      intro j p hj
      refine fspGo_none_of_noBar j _ p (fun ls a hm => ?_)
      intro ha
      exact hj (ha ▸ (h4Lab ls a hm).2)
    have hfoot_f : ∀ (j p : ℕ), fspGo j (footer B margin r4.1.2) p = none := by
      intro j p
      simp [footer, fspGo]
    have hfoot_c : (footer B margin r4.1.2).countP isAddPageCmd = 0 := by
      simp [footer, isAddPageCmd]
    have hscan : ∀ j, fspGo j (sa.2 ++ r2.2 ++ r3.2 ++ r4.2 ++
        footer B margin r4.1.2 ++ r6.2) st.page =
        (if j = idx then some sa.1.page else fspGo j r6.2 r4.1.2.page) := by
      intro j
      rw [List.append_assoc, List.append_assoc, List.append_assoc, List.append_assoc,
        fspGo_append_none j _ _ _ (hsa_f j st.page),
        fspGo_append_none j _ _ _ (hr2_f j _)]
      by_cases hj : j = idx
      · rw [hj, fspGo_append_some idx _ _ _ _ (hr3_f_eq _), if_pos rfl]
        congr 1
        omega
      · rw [fspGo_append_none j _ _ _ (hr3_f_ne j _ hj),
          fspGo_append_none j _ _ _ (hr4_f j _ hj),
          fspGo_append_none j _ _ _ (hfoot_f j _), if_neg hj]
        congr 1
        rw [hr2_c, h3AP, hfoot_c]
        have e1 := h4P
        have e2 := h3P
        have e3 := hr2_p
        have e4 := hsa_c
        omega
    refine ⟨?_, ?_, ?_⟩
    · intro j hj
      have hj1 : j < idx + 1 := by omega
      have := ih1 j hj1
      rw [hr6] at this
      rw [show (r6.1, sa.2 ++ r2.2 ++ r3.2 ++ r4.2 ++ footer B margin r4.1.2 ++ r6.2).1.2.2 =
        r6.1.2.2 from rfl]
      rw [this, hpm1]
      simp [show j ≠ idx from by omega]
    · intro j hj1 hj2
      rw [show (r6.1, sa.2 ++ r2.2 ++ r3.2 ++ r4.2 ++ footer B margin r4.1.2 ++ r6.2).2 =
        sa.2 ++ r2.2 ++ r3.2 ++ r4.2 ++ footer B margin r4.1.2 ++ r6.2 from rfl]
      rw [hscan j]
      by_cases hj : j = idx
      · subst hj
        rw [if_pos rfl]
        have := ih1 j (by omega)
        rw [hr6] at this
        rw [show (r6.1, (sa.2 ++ r2.2 ++ r3.2 ++ r4.2 ++ footer B margin r4.1.2 ++
          r6.2)).1.2.2 = r6.1.2.2 from rfl, this, hpm1]
        simp
      · rw [if_neg hj]
        have := ih2 j (by omega) (by simp at hj2 ⊢; omega)
        rw [hr6] at this
        exact this
    · intro j hj
      constructor
      · rw [show (r6.1, sa.2 ++ r2.2 ++ r3.2 ++ r4.2 ++ footer B margin r4.1.2 ++ r6.2).2 =
          sa.2 ++ r2.2 ++ r3.2 ++ r4.2 ++ footer B margin r4.1.2 ++ r6.2 from rfl]
        rw [hscan j]
        have hj0 : j ≠ idx := by simp at hj; omega
        rw [if_neg hj0]
        have := (ih3 j (by simp at hj ⊢; omega)).1
        rw [hr6] at this
        exact this
      · have := (ih3 j (by simp at hj ⊢; omega)).2
        rw [hr6] at this
        rw [show (r6.1, sa.2 ++ r2.2 ++ r3.2 ++ r4.2 ++ footer B margin r4.1.2 ++ r6.2).1.2.2 =
          r6.1.2.2 from rfl, this, hpm1]
        simp [show j ≠ idx from by simp at hj; omega]

end HRMS

namespace HRMS

theorem outlinesLoop_outline (oracle : ℕ → Bool) (pm : ℕ → Option ℕ) :
    ∀ tabs idx st, ∀ c ∈ (outlinesLoop oracle pm tabs idx st).2, isOutlineCmd c = true := by
  intro tabs
  induction tabs with
  | nil => intro idx st c hc; simp [outlinesLoop] at hc
  | cons t rest ih =>
    intro idx st c hc
    simp only [outlinesLoop, List.mem_append] at hc
    rcases hc with hc | hc
    · cases ho : oracle st.att <;> simp [tryAttach, ho] at hc
      subst hc
      rfl
    · exact ih (idx + 1) _ c hc

theorem outlinesLoop_allOk (pm : ℕ → Option ℕ) :
    ∀ tabs idx st,
    (outlinesLoop allOk pm tabs idx st).2.length = tabs.length ∧
    ∀ j, ((outlinesLoop allOk pm tabs idx st).2)[j]? =
      (tabs[j]?).map (fun t => Cmd.outlineItem t.label (pm (idx + j))) := by
  intro tabs
  induction tabs with
  | nil => intro idx st; simp [outlinesLoop]
  | cons t rest ih =>
    intro idx st
    have hout : outlinesLoop allOk pm (t :: rest) idx st =
        ((outlinesLoop allOk pm rest (idx + 1)
            { page := st.page, att := st.att + 1 }).1,
         Cmd.outlineItem t.label (pm idx) ::
           (outlinesLoop allOk pm rest (idx + 1) { page := st.page, att := st.att + 1 }).2) := by
      simp only [outlinesLoop, tryAttach, allOk]
      rfl
    rw [hout]
    obtain ⟨ihLen, ihGet⟩ := ih (idx + 1) { page := st.page, att := st.att + 1 }
    refine ⟨by simp [ihLen], ?_⟩
    intro j
    cases j with
    | zero => simp
    | succ n =>
      simp only [List.getElem?_cons_succ, ihGet n]
      have : idx + 1 + n = idx + (n + 1) := by omega
      rw [this]

end HRMS

namespace HRMS

/-- C6: with the outline feature available and no backend failures, the
engine creates exactly one top-level outline entry per tab, in tab order;
the entry for tab `j` carries that tab's label and the page recorded in
`pageMap` before the tab's scaffold was drawn; and that recorded page is
exactly the first page of the trace on which tab `j`'s scaffold (its
navigation bar with active index `j`) is drawn. -/
theorem c6_outline_first_pages (B : Backend) (data : PdfDoc) (hB : B.outlineAvailable = true) :
    ((generate B allOk data).2.filter isOutlineCmd).length = data.tabs.length ∧
    ∀ j t, data.tabs[j]? = some t →
      ((generate B allOk data).2.filter isOutlineCmd)[j]? =
        some (Cmd.outlineItem t.label ((generate B allOk data).1.2.2 j)) ∧
      (generate B allOk data).1.2.2 j = firstScaffoldPage (generate B allOk data).2 j := by
  set ta := tabsLoop B allOk data.meta (mm 18) data.tabs data.tabs 0 (fun _ => none)
    (fun _ => none) { page := 1, att := 0 } with hta
  have haoEq : addOutlines B allOk ta.1.2.2 data.tabs ta.1.1 =
      outlinesLoop allOk ta.1.2.2 data.tabs 0 ta.1.1 := by
    rw [addOutlines, if_pos hB]
  set ao := addOutlines B allOk ta.1.2.2 data.tabs ta.1.1 with hao
  have hout : generate B allOk data = ((ao.1, ta.1.2.1, ta.1.2.2), ta.2 ++ ao.2) := by
    simp only [generate]
  rw [hout]
  have hfilterTa : ta.2.filter isOutlineCmd = [] :=
    List.filter_eq_nil_iff.mpr (fun c hc => by
      simp [tabsLoop_noOutline B allOk data.meta (mm 18) data.tabs data.tabs 0 _ _ _ c hc])
  have hfilterAo : ao.2.filter isOutlineCmd = ao.2 := by
    rw [haoEq]
    exact List.filter_eq_self.mpr
      (fun c hc => outlinesLoop_outline allOk ta.1.2.2 data.tabs 0 ta.1.1 c hc)
  have hfilter : (ta.2 ++ ao.2).filter isOutlineCmd = ao.2 := by
    rw [List.filter_append, hfilterTa, hfilterAo, List.nil_append]
  obtain ⟨hLen, hGet⟩ := outlinesLoop_allOk ta.1.2.2 data.tabs 0 ta.1.1
  obtain ⟨f1, f2, f3⟩ := tabsLoop_fsp B allOk data.meta (mm 18) data.tabs data.tabs 0
    (fun _ => none) (fun _ => none) { page := 1, att := 0 }
  constructor
  · show ((ta.2 ++ ao.2).filter isOutlineCmd).length = data.tabs.length
    rw [hfilter, haoEq]
    exact hLen
  · intro j t hjt
    have hlt : j < data.tabs.length := (List.getElem?_eq_some.mp hjt).1
    constructor
    · show ((ta.2 ++ ao.2).filter isOutlineCmd)[j]? = some (Cmd.outlineItem t.label (ta.1.2.2 j))
      rw [hfilter, haoEq, hGet j, hjt]
      simp
    · show ta.1.2.2 j = firstScaffoldPage (ta.2 ++ ao.2) j
      have hfsp_ta : fspGo j ta.2 1 = ta.1.2.2 j := by
        have := f2 j (by omega) (by omega)
        simpa using this
      rw [firstScaffoldPage, fspGo_append, hfsp_ta]
      cases hq : ta.1.2.2 j with
      | some q => rfl
      | none =>
        show none = fspGo j ao.2 (1 + ta.2.countP isAddPageCmd)
        rw [fspGo_none_of_noBar j ao.2 _ (fun ls a hm => by
          have := by
            rw [haoEq] at hm
            exact outlinesLoop_outline allOk ta.1.2.2 data.tabs 0 ta.1.1 _ hm
          simp [isOutlineCmd] at this)]

end HRMS

namespace HRMS

theorem c6_outline_first_pages_witness :
    (constBackend 500).outlineAvailable = true ∧
    c6Doc.tabs[1]? = some { id := none, label := "Second Tab", sections := none } ∧
    ((generate (constBackend 500) allOk c6Doc).2.filter isOutlineCmd).length =
      c6Doc.tabs.length ∧
    ((generate (constBackend 500) allOk c6Doc).2.filter isOutlineCmd)[1]? =
      some (Cmd.outlineItem "Second Tab" ((generate (constBackend 500) allOk c6Doc).1.2.2 1)) ∧
    (generate (constBackend 500) allOk c6Doc).1.2.2 1 =
      firstScaffoldPage (generate (constBackend 500) allOk c6Doc).2 1 := by
  have h := c6_outline_first_pages (constBackend 500) c6Doc rfl
  have h2 := h.2 1 { id := none, label := "Second Tab", sections := none } rfl
  exact ⟨rfl, rfl, h.1, h2.1, h2.2⟩

end HRMS

namespace HRMS

theorem replaceChar_append (c : Char) (repl : List Char) (a b : List Char) :
    replaceChar c repl (a ++ b) = replaceChar c repl a ++ replaceChar c repl b := by
  induction a with
  | nil => rfl
  | cons x rest ih => simp [replaceChar, ih, List.append_assoc]

theorem escList_cons_amp (l : List Char) :
    escList ('&' :: l) = '&' :: 'a' :: 'm' :: 'p' :: ';' :: escList l := by
  simp [escList, replaceChar, replaceChar_append]

theorem escList_cons_lt (l : List Char) :
    escList ('<' :: l) = '&' :: 'l' :: 't' :: ';' :: escList l := by
  simp [escList, replaceChar, replaceChar_append]

theorem escList_cons_gt (l : List Char) :
    escList ('>' :: l) = '&' :: 'g' :: 't' :: ';' :: escList l := by
  simp [escList, replaceChar, replaceChar_append]

theorem escList_cons_other (c : Char) (l : List Char)
    (h1 : c ≠ '&') (h2 : c ≠ '<') (h3 : c ≠ '>') :
    escList (c :: l) = c :: escList l := by
  simp [escList, replaceChar, replaceChar_append, h1, h2, h3]

theorem unescList_amp (l : List Char) :
    unescList ('&' :: 'a' :: 'm' :: 'p' :: ';' :: l) = '&' :: unescList l := by
  simp [unescList]

theorem unescList_lt (l : List Char) :
    unescList ('&' :: 'l' :: 't' :: ';' :: l) = '<' :: unescList l := by
  simp [unescList]

theorem unescList_gt (l : List Char) :
    unescList ('&' :: 'g' :: 't' :: ';' :: l) = '>' :: unescList l := by
  simp [unescList]

theorem unescList_other (c : Char) (l : List Char) (h1 : c ≠ '&') :
    unescList (c :: l) = c :: unescList l := by
  rw [unescList.eq_def]
  simp [h1]

theorem unescList_escList (l : List Char) : unescList (escList l) = l := by
  induction l with
  | nil => rfl
  | cons c rest ih =>
    by_cases h1 : c = '&'
    · subst h1
      rw [escList_cons_amp, unescList_amp, ih]
    · by_cases h2 : c = '<'
      · subst h2
        rw [escList_cons_lt, unescList_lt, ih]
      · by_cases h3 : c = '>'
        · subst h3
          rw [escList_cons_gt, unescList_gt, ih]
        · rw [escList_cons_other c rest h1 h2 h3, unescList_other c _ h1, ih]

/-- C4: every free-text field of the Template Builder passes through
`esc`, which replaces `&`, `<` and `>` by their entity forms; escaping
round-trips (unescaping the escaped text restores the original string for
every input); in particular a comment body `<script>&</script>` renders
with all three special characters replaced, and the rendered comment's
body text is exactly the escaped body. -/
theorem c4_escaping_roundtrip :
    (∀ s : String, unescString (escString s) = s) ∧
    escString "<script>&</script>" = "&lt;script&gt;&amp;&lt;/script&gt;" ∧
    (∀ (J : JsNum) (c : PupComment),
      commentBodyText (commentHTML J c) = some (escString (jsOptStrOr c.text ""))) := by
  refine ⟨?_, by decide, ?_⟩
  · intro s
    show String.mk (unescList (escList s.toList)) = s
    rw [unescList_escList]
    cases s
    rfl
  · intro J c
    rfl

end HRMS

namespace HRMS

/-- C9: `esc` maps every falsy input — `null`, `undefined`, the empty
string, `false`, `NaN` and the number `0` — to the empty string before the
markup replacements, and consequently a present section weightage of `0`
and a present comment progress chip of `0` render with empty value text
(`Weightage: ` / `Progress: `) rather than `0`. -/
theorem c9_falsy_escapes_empty :
    (∀ num : ℚ → String,
      escVal num JSValue.vnull = "" ∧
      escVal num JSValue.vundefined = "" ∧
      escVal num (JSValue.vstr "") = "" ∧
      escVal num (JSValue.vbool false) = "" ∧
      escVal num JSValue.vnan = "" ∧
      escVal num (JSValue.vnum 0) = "") ∧
    (∀ num : ℚ → String,
      weightChip num (some (JSValue.vnum 0)) =
        [Html.el "span" "chip info" [] [Html.txt "Weightage: "]] ∧
      progressPill num (some (JSValue.vnum 0)) =
        [Html.el "span" "pill" [] [Html.txt "Progress: "]]) := by
  have hesc : ∀ num : ℚ → String, escVal num (JSValue.vnum 0) = "" := by
    intro num
    simp [escVal, orEmpty, truthy, jsToString, escString, escList, replaceChar]
  refine ⟨fun num => ⟨rfl, rfl, rfl, rfl, rfl, hesc num⟩, fun num => ⟨?_, ?_⟩⟩
  · simp [weightChip, hesc]
  · simp [progressPill, hesc]

/-- C10: the donut arc angle is `clamp(progressPercent, 0, 100) * 3.6`
for a numeric progress, always lies in `[0, 360]` degrees, and an absent
progress is treated as `0`, the donut rendering with angle `0` and the
percentage label `0%`. -/
theorem c10_donut_angle :
    (∀ q : ℚ, donutDeg (some q) = max 0 (min 100 q) * 3.6) ∧
    (∀ pp : Option ℚ, 0 ≤ donutDeg pp ∧ donutDeg pp ≤ 360) ∧
    donutDeg none = 0 ∧
    (∀ J : JsNum, donutHTML J none =
      Html.el "div" "donut" [("style", "--deg:" ++ J.toStr 0 ++ "deg")]
        [Html.el "span" "" [] [Html.txt "0%"]]) := by
  have hz : donutDeg none = 0 := by norm_num [donutDeg, progVal]
  refine ⟨?_, ?_, hz, ?_⟩
  · intro q
    by_cases h : q = 0
    · subst h
      norm_num [donutDeg, progVal]
    · simp [donutDeg, progVal, h]
  · intro pp
    constructor
    · have h1 : (0 : ℚ) ≤ max 0 (min 100 (progVal pp)) := le_max_left _ _
      have : (0 : ℚ) ≤ max 0 (min 100 (progVal pp)) * 3.6 := by
        have h36 : (0 : ℚ) ≤ 3.6 := by norm_num
        exact mul_nonneg h1 h36
      simpa [donutDeg] using this
    · have h2 : max 0 (min 100 (progVal pp)) ≤ 100 :=
        max_le (by norm_num) (min_le_left _ _)
      have : max 0 (min 100 (progVal pp)) * 3.6 ≤ 100 * 3.6 := by
        have h36 : (0 : ℚ) ≤ 3.6 := by norm_num
        exact mul_le_mul_of_nonneg_right h2 h36
      have h360 : (100 : ℚ) * 3.6 = 360 := by norm_num
      calc donutDeg pp = max 0 (min 100 (progVal pp)) * 3.6 := rfl
        _ ≤ 100 * 3.6 := this
        _ = 360 := h360
  · intro J
    rw [show donutHTML J none =
      Html.el "div" "donut" [("style", "--deg:" ++ J.toStr (donutDeg none) ++ "deg")]
        [Html.el "span" "" []
          [Html.txt (escString (toString (jsRound (progVal none))) ++ "%")]] from rfl, hz]
    have hr : jsRound (progVal none) = 0 := by norm_num [jsRound, progVal]
    rw [hr]
    rfl

end HRMS

namespace HRMS

theorem ccProbe_el_ne (t c : String) (attrs : List (String × String)) (kids : List Html)
    (h : c ≠ "node-children") : ccProbe (Html.el t c attrs kids) = none := by
  rw [ccProbe.eq_def]
  split
  · rename_i heq
    injection heq with h1 h2
    exact absurd h2 h
  · rfl

theorem findSome?_eq_of_prefix_none (f : Html → Option (List Html)) :
    ∀ (a b : List Html), (∀ x ∈ a, f x = none) →
      (a ++ b).findSome? f = b.findSome? f := by
  intro a
  induction a with
  | nil => intro b _; rfl
  | cons x rest ih =>
    intro b hall
    have hx : f x = none := hall x (by simp)
    simp only [List.cons_append, List.findSome?]
    rw [hx]
    exact ih b (fun y hy => hall y (by simp [hy]))

theorem ccProbe_commentHTML (J : JsNum) (c : PupComment) :
    ccProbe (commentHTML J c) = none := by
  rw [commentHTML]
  exact ccProbe_el_ne _ _ _ _ (by decide)

theorem childContainer_nodeHTML (J : JsNum) (n : HNode) (level : ℕ) (ip : List ℕ) :
    childContainer (nodeHTML J n level ip) =
      (if (HNode.childrenL n).isEmpty then none
       else some (nodesHTML J (HNode.childrenL n) (level + 1) ip 1)) := by
  rcases n with ⟨t, d, k, cn, ct, w, pp, r, pr, ps, desc, cs, ch⟩
  rw [nodeHTML.eq_def]
  simp only [childContainer]
  rw [findSome?_eq_of_prefix_none ccProbe _ _ ?hpre]
  case hpre =>
    intro x hx
    simp only [List.mem_append, List.mem_singleton] at hx
    rcases hx with (hx | hx) | hx
    · subst hx
      rfl
    · rcases hd : strTruthy desc with _ | _ <;> rw [hd] at hx
      · simp at hx
      · simp only [if_true, List.mem_singleton] at hx
        subst hx
        rfl
    · rcases cs with _ | l
      · simp at hx
      · simp only [List.mem_map] at hx
        obtain ⟨cm, _, hcm⟩ := hx
        rw [← hcm]
        exact ccProbe_commentHTML J cm
  rcases ch with _ | l
  · rfl
  · show (if l.isEmpty then ([] : List Html)
      else [Html.el "div" "node-children" [] (nodesHTML J l (level + 1) ip 1)]).findSome?
        ccProbe = _
    rcases hl : l.isEmpty with _ | _
    · rw [if_neg (by simp [hl]), if_neg (by simp [HNode.childrenL, hl])]
      rfl
    · rw [if_pos (by simp [hl]), if_pos (by simp [HNode.childrenL, hl])]
      rfl

theorem nodesHTML_get (J : JsNum) :
    ∀ (l : List HNode) (level : ℕ) (ip : List ℕ) (i k : ℕ),
      (nodesHTML J l level ip i)[k]? =
        l[k]?.map (fun c => nodeHTML J c level (ip ++ [i + k])) := by
  intro l
  induction l with
  | nil =>
    intro level ip i k
    simp [nodesHTML]
  | cons c rest ih =>
    intro level ip i k
    cases k with
    | zero =>
      simp [nodesHTML]
    | succ k =>
      rw [show nodesHTML J (c :: rest) level ip i =
        nodeHTML J c level (ip ++ [i]) :: nodesHTML J rest level ip (i + 1) from by
          rw [nodesHTML]]
      rw [List.getElem?_cons_succ, List.getElem?_cons_succ, ih level ip (i + 1) k]
      rw [show i + 1 + k = i + (k + 1) from by omega]

end HRMS

namespace HRMS

theorem nodeHTML_at (J : JsNum) :
    ∀ (path : List ℕ) (n : HNode) (level : ℕ) (ip : List ℕ) (c : HNode),
      nodeAt n path = some c →
      htmlNodeAt (nodeHTML J n level ip) path =
        some (nodeHTML J c (level + path.length) (ip ++ path.map (fun j => j + 1))) ∧
      indentAtPath (nodeHTML J n level ip) path =
        some (nodeChildrenIndent * path.length) := by
  intro path
  induction path with
  | nil =>
    intro n level ip c h
    rw [show nodeAt n [] = some n from rfl] at h
    injection h with h
    subst h
    constructor
    · rw [show htmlNodeAt (nodeHTML J n level ip) [] = some (nodeHTML J n level ip) from rfl]
      simp
    · rw [show indentAtPath (nodeHTML J n level ip) [] = some 0 from rfl]
      simp
  | cons i p ih =>
    intro n level ip c h
    rw [show nodeAt n (i :: p) =
      (match (HNode.childrenL n)[i]? with
       | some cn => nodeAt cn p
       | none => none) from by rw [nodeAt]] at h
    rcases hci : (HNode.childrenL n)[i]? with _ | ci
    · rw [hci] at h
      simp at h
    · rw [hci] at h
      have hne : (HNode.childrenL n).isEmpty = false := by
        rcases hl : HNode.childrenL n with _ | ⟨a, b⟩
        · rw [hl] at hci
          simp at hci
        · rfl
      have hcc := childContainer_nodeHTML J n level ip
      rw [hne] at hcc
      rw [if_neg (by simp)] at hcc
      obtain ⟨ih1, ih2⟩ := ih ci (level + 1) (ip ++ [1 + i]) c h
      constructor
      · rw [show htmlNodeAt (nodeHTML J n level ip) (i :: p) =
          (match childContainer (nodeHTML J n level ip) with
           | some cs =>
             match cs[i]? with
             | some ch => htmlNodeAt ch p
             | none => none
           | none => none) from by rw [htmlNodeAt]]
        rw [hcc]
        show (match (nodesHTML J (HNode.childrenL n) (level + 1) ip 1)[i]? with
          | some ch => htmlNodeAt ch p
          | none => none) = _
        rw [nodesHTML_get J (HNode.childrenL n) (level + 1) ip 1 i, hci]
        show htmlNodeAt (nodeHTML J ci (level + 1) (ip ++ [1 + i])) p = _
        rw [ih1]
        rw [show (ip ++ [1 + i]) ++ p.map (fun j => j + 1) =
          ip ++ (i :: p).map (fun j => j + 1) from by
            rw [List.append_assoc, List.singleton_append, List.map_cons,
              show 1 + i = i + 1 from by omega]]
        rw [show level + 1 + p.length = level + (i :: p).length from by
          rw [List.length_cons]; omega]
      · rw [show indentAtPath (nodeHTML J n level ip) (i :: p) =
          (match childContainer (nodeHTML J n level ip) with
           | some cs =>
             match cs[i]? with
             | some ch => (indentAtPath ch p).map (fun q => q + nodeChildrenIndent)
             | none => none
           | none => none) from by rw [indentAtPath]]
        rw [hcc]
        show (match (nodesHTML J (HNode.childrenL n) (level + 1) ip 1)[i]? with
          | some ch => (indentAtPath ch p).map (fun q => q + nodeChildrenIndent)
          | none => none) = _
        rw [nodesHTML_get J (HNode.childrenL n) (level + 1) ip 1 i, hci]
        show (indentAtPath (nodeHTML J ci (level + 1) (ip ++ [1 + i])) p).map
          (fun q => q + nodeChildrenIndent) = _
        rw [ih2]
        rw [show Option.map (fun q => q + nodeChildrenIndent)
            (some (nodeChildrenIndent * (p.length : ℚ))) =
          some (nodeChildrenIndent * (p.length : ℚ) + nodeChildrenIndent) from rfl]
        congr 1
        rw [List.length_cons]
        push_cast
        ring

theorem badgeOf_nodeHTML (J : JsNum) (n : HNode) (level : ℕ) (ip : List ℕ) :
    badgeOf (nodeHTML J n level ip) = some (escNat (idxLabel ip)) := by
  rcases n with ⟨t, d, k, cn, ct, w, pp, r, pr, ps, desc, cs, ch⟩
  rw [nodeHTML.eq_def]
  rfl

theorem idxLabel_concat (ip : List ℕ) (i : ℕ) : idxLabel (ip ++ [i]) = i := by
  simp [idxLabel, List.getLast?_concat]

/-- C8: in the hierarchy rendering, the children container contributes a
fixed positive CSS indentation, so the node reached by a path of child
indices sits at indentation `28 · depth` — strictly increasing per nesting
level; each root node `i` renders with index path `[i + 1]`, each nested
node's rendered form extends its parent's index path by its 1-based sibling
position (resetting with each new parent since the sibling counter restarts
at 1), and each node's index badge shows exactly that 1-based position. -/
theorem c8_hierarchy_nesting :
    (0 : ℚ) < nodeChildrenIndent ∧
    (∀ (J : JsNum) (ns : List HNode) (i : ℕ) (n : HNode),
      ns[i]? = some n →
      (hierarchyHTML J { nodes := some ns })[i]? = some (nodeHTML J n 1 [i + 1])) ∧
    (∀ (J : JsNum) (root : HNode) (level : ℕ) (ip : List ℕ) (path : List ℕ) (c : HNode),
      nodeAt root path = some c →
      htmlNodeAt (nodeHTML J root level ip) path =
        some (nodeHTML J c (level + path.length) (ip ++ path.map (fun j => j + 1))) ∧
      indentAtPath (nodeHTML J root level ip) path =
        some (nodeChildrenIndent * path.length)) ∧
    (∀ (J : JsNum) (n : HNode) (level : ℕ) (ip : List ℕ) (i : ℕ),
      badgeOf (nodeHTML J n level (ip ++ [i + 1])) = some (escString (toString (i + 1)))) := by
  refine ⟨by norm_num [nodeChildrenIndent], ?_, ?_, ?_⟩
  · intro J ns i n h
    rw [show hierarchyHTML J { nodes := some ns } = nodesHTML J ns 1 [] 1 from rfl]
    rw [nodesHTML_get J ns 1 [] 1 i, h]
    rw [show 1 + i = i + 1 from by omega]
    rfl
  · intro J root level ip path c h
    exact nodeHTML_at J path root level ip c h
  · intro J n level ip i
    rw [badgeOf_nodeHTML, idxLabel_concat]
    simp [escNat]

/-- C8 witness: the 4-level chain `chainNode 3`, rendered from level 1 with
root index path `[1]`: descending three levels lands on the innermost node
at indentation `3 · 28`, the rendered node carries index path `[1,1,1,1]`,
and a badge at sibling position 3 shows `3`. -/
theorem c8_hierarchy_nesting_witness :
    nodeAt (chainNode 3) [0, 0, 0] = some (chainNode 0) ∧
    htmlNodeAt (nodeHTML jsNumDefault (chainNode 3) 1 [1]) [0, 0, 0] =
      some (nodeHTML jsNumDefault (chainNode 0) (1 + [0, 0, 0].length)
        ([1] ++ [0, 0, 0].map (fun j => j + 1))) ∧
    indentAtPath (nodeHTML jsNumDefault (chainNode 3) 1 [1]) [0, 0, 0] =
      some (nodeChildrenIndent * (([0, 0, 0] : List ℕ).length : ℚ)) ∧
    ([chainNode 2] : List HNode)[0]? = some (chainNode 2) ∧
    (hierarchyHTML jsNumDefault { nodes := some [chainNode 2] })[0]? =
      some (nodeHTML jsNumDefault (chainNode 2) 1 [0 + 1]) ∧
    badgeOf (nodeHTML jsNumDefault (chainNode 0) 4 ([1, 1, 1] ++ [2 + 1])) =
      some (escString (toString (2 + 1))) := by
  have h1 : nodeAt (chainNode 3) [0, 0, 0] = some (chainNode 0) := rfl
  obtain ⟨hpos, hroot, hmain, hbadge⟩ := c8_hierarchy_nesting
  have hm := hmain jsNumDefault (chainNode 3) 1 [1] [0, 0, 0] (chainNode 0) h1
  exact ⟨h1, hm.1, hm.2, rfl, hroot jsNumDefault [chainNode 2] 0 (chainNode 2) rfl,
    hbadge jsNumDefault (chainNode 0) 4 [1, 1, 1] 2⟩

end HRMS

namespace HRMS

theorem countClsList_append (cls : String) (a b : List Html) :
    countClsList cls (a ++ b) = countClsList cls a + countClsList cls b := by
  induction a with
  | nil => simp [countClsList]
  | cons x rest ih => simp [countClsList, ih]; omega

theorem reviewHTML_noMuted (J : JsNum) (ti te : Option String) (r : Option ℚ)
    (lb : Option String) : countCls "muted" (reviewHTML J ti te r lb) = 0 := by
  rcases r with _ | q <;> by_cases h1 : strTruthy lb <;> by_cases h2 : strTruthy te <;>
    simp [reviewHTML, starChip, countCls, countClsList, h1, h2]

theorem reviewHTML_noCard (J : JsNum) (ti te : Option String) (r : Option ℚ)
    (lb : Option String) : countCls "card" (reviewHTML J ti te r lb) = 0 := by
  rcases r with _ | q <;> by_cases h1 : strTruthy lb <;> by_cases h2 : strTruthy te <;>
    simp [reviewHTML, starChip, countCls, countClsList, h1, h2]

theorem endMarker_noMuted (s : String) : countCls "muted" (endMarker s) = 0 := by
  simp [endMarker, countCls, countClsList]

theorem endMarker_noCard (s : String) : countCls "card" (endMarker s) = 0 := by
  simp [endMarker, countCls, countClsList]

/-- C5 (amended): for a Tab with zero Sections and no Hierarchy the
Template Builder's content region holds exactly one `muted` no-content
placeholder — it is the region's last element and carries the placeholder
text — and no Section card; the Vector Layout Engine, however, renders no
placeholder at all for such a tab (its output is just the page scaffold),
so only the Template Builder satisfies the placeholder half of the claim. -/
theorem c5_placeholder_amended :
    (∀ (J : JsNum) (tab : PupTab),
      (tab.sections = none ∨ tab.sections = some []) →
      tab.hierarchy = none →
      countClsList "muted" (pageContent J tab) = 1 ∧
      countClsList "card" (pageContent J tab) = 0 ∧
      (pageContent J tab).getLast? =
        some (Html.el "div" "muted" [] [Html.txt noContentText])) ∧
    (generate (constBackend 10) allOk c5PdfDoc).2.countP isPlaceholderText = 0 := by
  constructor
  · intro J tab hs hh
    have hsecB : (match tab.sections with
        | none => true
        | some l => l.isEmpty) = true := by
      rcases hs with hs | hs <;> rw [hs] <;> rfl
    have hsecs : (tab.sections.getD []).map (sectionHTML J) = ([] : List Html) := by
      rcases hs with hs | hs <;> rw [hs] <;> rfl
    simp only [pageContent, hsecs, hh, hsecB, Bool.and_self, if_true]
    refine ⟨?_, ?_, ?_⟩
    · rcases tab.review with _ | rv <;>
        by_cases h1 : strTruthy tab.reviewEndMarker <;>
        by_cases h2 : strTruthy tab.hierarchyEndMarker <;>
        simp [countClsList_append, countClsList, countCls, h1, h2, hsecB,
          endMarker_noMuted, reviewHTML_noMuted]
    · rcases tab.review with _ | rv <;>
        by_cases h1 : strTruthy tab.reviewEndMarker <;>
        by_cases h2 : strTruthy tab.hierarchyEndMarker <;>
        simp [countClsList_append, countClsList, countCls, h1, h2, hsecB,
          endMarker_noCard, reviewHTML_noCard]
    · rw [List.getLast?_concat]
  · norm_num [generate, tabsLoop, drawSection, sectionBadges, optChip, sectionDescPart,
      sectionBehaviorsPart, sectionCommentsPart, tabSectionsPart, sectionsLoop, ensureSpace,
      drawTabs, pillLinks, pillLink, tryAttach, drawPageScaffold, drawHeader, sectionHeader,
      paragraph, commentCard, commentsLoop, behaviorsBlock, behaviorsList, chip, ratingBadge,
      footer, addOutlines, outlinesLoop, destName, jsOptStrOr, jsStrOr, joinPresent,
      constBackend, allOk, c5PdfDoc, isPlaceholderText, noContentText, List.countP_cons,
      List.countP_nil, mm, A4_HEIGHT, A4_WIDTH]
    with_unfolding_all decide

/-- C5 witness: a bare tab (no sections array, no hierarchy, no review, no
markers) rendered with the concrete number backend. -/
theorem c5_placeholder_amended_witness :
    countClsList "muted"
      (pageContent jsNumDefault (PupTab.mk none none none none none none)) = 1 ∧
    countClsList "card"
      (pageContent jsNumDefault (PupTab.mk none none none none none none)) = 0 ∧
    (pageContent jsNumDefault (PupTab.mk none none none none none none)).getLast? =
      some (Html.el "div" "muted" [] [Html.txt noContentText]) ∧
    (generate (constBackend 10) allOk c5PdfDoc).2.countP isPlaceholderText = 0 := by
  obtain ⟨h1, h2⟩ := c5_placeholder_amended
  obtain ⟨ha, hb, hc⟩ :=
    h1 jsNumDefault (PupTab.mk none none none none none none) (Or.inl rfl) rfl
  exact ⟨ha, hb, hc, h2⟩

end HRMS
